import Mathlib

set_option maxHeartbeats 1000000
set_option maxRecDepth 10000

/- ============================================================
   Geometry primitives, embedded from src/misc.rs
   ============================================================ -/

structure DeviceIntSize where
  width : Int
  height : Int
deriving DecidableEq

structure DeviceIntPoint where
  x : Int
  y : Int
deriving DecidableEq

structure DeviceIntRect where
  origin : DeviceIntPoint
  size : DeviceIntSize
deriving DecidableEq

def size2 (w h : Int) : DeviceIntSize := ⟨w, h⟩

def DeviceIntSize.area (s : DeviceIntSize) : Int := s.width * s.height

def DeviceIntRect.min_x (r : DeviceIntRect) : Int := r.origin.x

def DeviceIntRect.min_y (r : DeviceIntRect) : Int := r.origin.y

def DeviceIntRect.max_x (r : DeviceIntRect) : Int := r.origin.x + r.size.width

def DeviceIntRect.max_y (r : DeviceIntRect) : Int := r.origin.y + r.size.height

def DeviceIntRect.zeroRect : DeviceIntRect := ⟨⟨0, 0⟩, ⟨0, 0⟩⟩

/-- Embeds DeviceIntRect::union from src/misc.rs: the implementation only
    short-circuits when a size is exactly 0x0 (both components zero). -/
def DeviceIntRect.union (r other : DeviceIntRect) : DeviceIntRect :=
  if r.size = size2 0 0 then other
  else if other.size = size2 0 0 then r
  else
    let ulx := min r.min_x other.min_x
    let uly := min r.min_y other.min_y
    let lrx := max r.max_x other.max_x
    let lry := max r.max_y other.max_y
    ⟨⟨ulx, uly⟩, ⟨lrx - ulx, lry - uly⟩⟩

/-- Embeds rect_is_empty from src/texture_allocator.rs: empty means width
    or height is zero. -/
def rect_is_empty (r : DeviceIntRect) : Bool :=
  r.size.width == 0 || r.size.height == 0

/- ============================================================
   TexturePage (guillotine packer), embedded from
   src/texture_allocator.rs, and the multi-texture
   GuillotineAllocator from src/misc.rs
   ============================================================ -/

inductive FreeListBin where
  | Small
  | Medium
  | Large
deriving DecidableEq

def FreeListBin.toNat : FreeListBin → Nat
  | .Small => 0
  | .Medium => 1
  | .Large => 2

/-- Ordering of bins, matching the derived PartialOrd on the Rust enum
    (declaration order Small < Medium < Large). -/
def FreeListBin.ble (a b : FreeListBin) : Bool := a.toNat ≤ b.toNat

/-- Embeds FreeListBin::for_size (MINIMUM_MEDIUM_RECT_SIZE = 16,
    MINIMUM_LARGE_RECT_SIZE = 32). -/
def FreeListBin.for_size (s : DeviceIntSize) : FreeListBin :=
  if 32 ≤ s.width ∧ 32 ≤ s.height then .Large
  else if 16 ≤ s.width ∧ 16 ≤ s.height then .Medium
  else .Small

structure FreeRectList where
  small : List DeviceIntRect
  medium : List DeviceIntRect
  large : List DeviceIntRect
deriving DecidableEq

def FreeRectList.empty : FreeRectList := ⟨[], [], []⟩

def FreeRectList.push (l : FreeRectList) (r : DeviceIntRect) : FreeRectList :=
  match FreeListBin.for_size r.size with
  | .Small => { l with small := l.small ++ [r] }
  | .Medium => { l with medium := l.medium ++ [r] }
  | .Large => { l with large := l.large ++ [r] }

def FreeRectList.iter (l : FreeRectList) : FreeListBin → List DeviceIntRect
  | .Small => l.small
  | .Medium => l.medium
  | .Large => l.large

/-- Vec::swap_remove semantics: element i is replaced by the last element,
    which is then popped. -/
def swapRemove (l : List DeviceIntRect) (i : Nat) : List DeviceIntRect :=
  (l.set i (l.getD (l.length - 1) DeviceIntRect.zeroRect)).dropLast

structure FreeListIndex where
  bin : FreeListBin
  idx : Nat
deriving DecidableEq

def FreeRectList.removeAt (l : FreeRectList) (i : FreeListIndex) : DeviceIntRect × FreeRectList :=
  match i.bin with
  | .Small => (l.small.getD i.idx DeviceIntRect.zeroRect, { l with small := swapRemove l.small i.idx })
  | .Medium => (l.medium.getD i.idx DeviceIntRect.zeroRect, { l with medium := swapRemove l.medium i.idx })
  | .Large => (l.large.getD i.idx DeviceIntRect.zeroRect, { l with large := swapRemove l.large i.idx })

def fits_inside (a b : DeviceIntSize) : Bool :=
  a.width ≤ b.width && a.height ≤ b.height

structure TexturePage where
  texture_size : DeviceIntSize
  free_list : FreeRectList
  coalesce_vec : List DeviceIntRect
  allocations : Nat
  dirty : Bool
deriving DecidableEq

def TexturePage.new (s : DeviceIntSize) : TexturePage :=
  { texture_size := s
    free_list := FreeRectList.empty.push ⟨⟨0, 0⟩, s⟩
    coalesce_vec := []
    allocations := 0
    dirty := false }

/-- Embeds find_index_of_best_rect_in_bin: despite the comment about
    best-area-fit, the loop breaks on the first fitting rect. -/
def TexturePage.find_in_bin (p : TexturePage) (bin : FreeListBin) (req : DeviceIntSize) :
    Option FreeListIndex :=
  ((p.free_list.iter bin).findIdx? (fun r => fits_inside req r.size)).map (fun i => ⟨bin, i⟩)

def TexturePage.find_index_of_best_rect (p : TexturePage) (req : DeviceIntSize) :
    Option FreeListIndex :=
  let bin := FreeListBin.for_size req
  match (if bin.ble .Small then p.find_in_bin .Small req else none) with
  | some i => some i
  | none =>
    match (if bin.ble .Medium then p.find_in_bin .Medium req else none) with
    | some i => some i
    | none => if bin.ble .Large then p.find_in_bin .Large req else none

/-- Embeds TexturePage::allocate. A none result models the Rust None
    (allocation failure in the single-texture packer). -/
def TexturePage.allocate (p : TexturePage) (req : DeviceIntSize) :
    Option (DeviceIntPoint × TexturePage) :=
  if req.width = 0 ∨ req.height = 0 then some (⟨0, 0⟩, p)
  else
    match p.find_index_of_best_rect req with
    | none => none
    | some idx =>
      let rm := p.free_list.removeAt idx
      let chosen := rm.1
      let fl0 := rm.2
      let candRight : DeviceIntRect :=
        ⟨⟨chosen.origin.x + req.width, chosen.origin.y⟩,
         ⟨chosen.size.width - req.width, req.height⟩⟩
      let candBottom : DeviceIntRect :=
        ⟨⟨chosen.origin.x, chosen.origin.y + req.height⟩,
         ⟨req.width, chosen.size.height - req.height⟩⟩
      let split :=
        if candBottom.size.area < candRight.size.area then
          (⟨candRight.origin, ⟨candRight.size.width, chosen.size.height⟩⟩, candBottom)
        else
          (candRight, (⟨candBottom.origin, ⟨chosen.size.width, candBottom.size.height⟩⟩ : DeviceIntRect))
      let newRight := split.1
      let newBottom := split.2
      let st1 := if rect_is_empty newRight then (fl0, p.dirty) else (fl0.push newRight, true)
      let st2 := if rect_is_empty newBottom then st1 else (st1.1.push newBottom, true)
      some (chosen.origin,
        { p with free_list := st2.1, dirty := st2.2, allocations := p.allocations + 1 })

/-- Embeds TexturePage::grow; none models the assertion failure when the
    new size is smaller than the current size on some axis. -/
def TexturePage.grow (p : TexturePage) (new_texture_size : DeviceIntSize) : Option TexturePage :=
  if p.texture_size.width ≤ new_texture_size.width ∧
     p.texture_size.height ≤ new_texture_size.height then
    let r1 : DeviceIntRect :=
      ⟨⟨p.texture_size.width, 0⟩,
       ⟨new_texture_size.width - p.texture_size.width, new_texture_size.height⟩⟩
    let r2 : DeviceIntRect :=
      ⟨⟨0, p.texture_size.height⟩,
       ⟨p.texture_size.width, new_texture_size.height - p.texture_size.height⟩⟩
    let fl1 := if 0 < r1.size.width ∧ 0 < r1.size.height then p.free_list.push r1 else p.free_list
    let fl2 := if 0 < r2.size.width ∧ 0 < r2.size.height then fl1.push r2 else fl1
    some { p with free_list := fl2, texture_size := new_texture_size }
  else none

/-- Multi-texture allocator from src/misc.rs (struct GuillotineAllocator). -/
structure GuillotineAllocator where
  textures : List TexturePage
deriving DecidableEq

def GuillotineAllocator.new : GuillotineAllocator := ⟨[]⟩

def GuillotineAllocator.add_texture (a : GuillotineAllocator) (size : DeviceIntSize) :
    GuillotineAllocator × Nat :=
  (⟨a.textures ++ [TexturePage.new size]⟩, a.textures.length)

/-- Embeds GuillotineAllocator::allocate from src/misc.rs. The none result
    models the panics: indexing a bad texture id, or the .unwrap() on the
    single-texture packer result. No growing or retrying happens here. -/
def GuillotineAllocator.allocate (a : GuillotineAllocator) (tid : Nat) (size : DeviceIntSize) :
    Option (GuillotineAllocator × DeviceIntRect) :=
  match a.textures.get? tid with
  | none => none
  | some page =>
    match page.allocate size with
    | none => none
    | some pr => some (⟨a.textures.set tid pr.2⟩, ⟨pr.1, size⟩)

/- ============================================================
   Theorems for claims C10 and C4
   ============================================================ -/

theorem texturePage_allocate_texture_size (p : TexturePage) (req : DeviceIntSize)
    (origin : DeviceIntPoint) (p2 : TexturePage) (h : p.allocate req = some (origin, p2)) :
    p2.texture_size = p.texture_size := by
  unfold TexturePage.allocate at h
  split at h
  · simp at h
    exact h.2 ▸ rfl
  · split at h
    · exact absurd h (by simp)
    · simp at h
      exact h.2 ▸ rfl

/-- Claim C10 counterexample: a rectangle that is empty per rect_is_empty
    (zero width, nonzero height) is not a unit for union: the union with it
    moves the other rectangle's bounds. -/
theorem C10_union_cex :
    rect_is_empty ⟨⟨0, 0⟩, ⟨0, 7⟩⟩ = true ∧
    DeviceIntRect.union ⟨⟨10, 10⟩, ⟨5, 5⟩⟩ ⟨⟨0, 0⟩, ⟨0, 7⟩⟩ ≠ ⟨⟨10, 10⟩, ⟨5, 5⟩⟩ ∧
    DeviceIntRect.union ⟨⟨0, 0⟩, ⟨0, 7⟩⟩ ⟨⟨10, 10⟩, ⟨5, 5⟩⟩ ≠ ⟨⟨10, 10⟩, ⟨5, 5⟩⟩ := by
  refine ⟨rfl, ?_, ?_⟩ <;> decide

/-- Claim C10 amended: union is an identity only for the exact 0x0 size:
    if z.size = 0x0 then z.union r = r, and r.union z = r provided r itself
    does not have size 0x0. -/
theorem C10_union_zero_identity (r z : DeviceIntRect) (hz : z.size = size2 0 0) :
    DeviceIntRect.union z r = r ∧ (r.size ≠ size2 0 0 → DeviceIntRect.union r z = r) := by
  constructor
  · unfold DeviceIntRect.union
    simp [hz]
  · intro hr
    unfold DeviceIntRect.union
    simp [hz, hr]

/-- Witness for C10_union_zero_identity at a concrete input. -/
theorem C10_union_zero_identity_w :
    DeviceIntRect.union ⟨⟨3, 4⟩, ⟨0, 0⟩⟩ ⟨⟨1, 2⟩, ⟨5, 6⟩⟩ = ⟨⟨1, 2⟩, ⟨5, 6⟩⟩ ∧
    ((⟨⟨1, 2⟩, ⟨5, 6⟩⟩ : DeviceIntRect).size ≠ size2 0 0 →
      DeviceIntRect.union ⟨⟨1, 2⟩, ⟨5, 6⟩⟩ ⟨⟨3, 4⟩, ⟨0, 0⟩⟩ = ⟨⟨1, 2⟩, ⟨5, 6⟩⟩) :=
  C10_union_zero_identity ⟨⟨1, 2⟩, ⟨5, 6⟩⟩ ⟨⟨3, 4⟩, ⟨0, 0⟩⟩ rfl

/-- Claim C4 counterexample: with a valid texture id (returned by
    add_texture) and a request larger than the page, the multi-texture
    allocate returns none (modelling the .unwrap() panic) instead of
    growing and retrying. -/
theorem C4_allocate_cex :
    (GuillotineAllocator.add_texture GuillotineAllocator.new (size2 10 10)).2 = 0 ∧
    GuillotineAllocator.allocate
      (GuillotineAllocator.add_texture GuillotineAllocator.new (size2 10 10)).1
      0 (size2 20 20) = none := by
  constructor
  · rfl
  · decide

/-- Claim C4 amended: GuillotineAllocator::allocate performs no grow and no
    retry. When the single-texture packer succeeds it returns the packed
    origin with the requested size and leaves the texture size unchanged;
    when the packer fails it fails (the source panics on unwrap). -/
theorem C4_allocate_amended (a : GuillotineAllocator) (tid : Nat) (size : DeviceIntSize)
    (page : TexturePage) (hp : a.textures.get? tid = some page) :
    (∀ origin page2, page.allocate size = some (origin, page2) →
      a.allocate tid size = some (⟨a.textures.set tid page2⟩, ⟨origin, size⟩) ∧
      page2.texture_size = page.texture_size) ∧
    (page.allocate size = none → a.allocate tid size = none) := by
  constructor
  · intro origin page2 hs
    constructor
    · unfold GuillotineAllocator.allocate
      rw [hp]
      simp [hs]
    · exact texturePage_allocate_texture_size page size origin page2 hs
  · intro hn
    unfold GuillotineAllocator.allocate
    rw [hp]
    simp [hn]

/-- Witness for C4_allocate_amended at a concrete input: a 100x100 page,
    allocating the full 100x100 (perfect fit). -/
theorem C4_allocate_amended_w :
    GuillotineAllocator.allocate ⟨[TexturePage.new (size2 100 100)]⟩ 0 (size2 100 100) =
      some (⟨[⟨size2 100 100, FreeRectList.empty, [], 1, false⟩]⟩,
            ⟨⟨0, 0⟩, size2 100 100⟩) ∧
    (⟨size2 100 100, FreeRectList.empty, [], 1, false⟩ : TexturePage).texture_size =
      (TexturePage.new (size2 100 100)).texture_size :=
  (C4_allocate_amended ⟨[TexturePage.new (size2 100 100)]⟩ 0 (size2 100 100)
    (TexturePage.new (size2 100 100)) rfl).1 ⟨0, 0⟩
    ⟨size2 100 100, FreeRectList.empty, [], 1, false⟩ (by decide)

/- ============================================================
   Graph data model, embedded from src/graph.rs
   ============================================================ -/

structure Rectangle where
  min : DeviceIntPoint
  max : DeviceIntPoint
deriving DecidableEq

def Rectangle.zero : Rectangle := ⟨⟨0, 0⟩, ⟨0, 0⟩⟩

inductive TargetKind where
  | Color
  | Alpha
deriving DecidableEq

def TargetKind.idx : TargetKind → Nat
  | .Color => 0
  | .Alpha => 1

inductive TaskKind where
  | Blit
  | Render (id : Nat)
deriving DecidableEq

inductive AllocKind where
  | Fixed (texture : Nat) (origin : DeviceIntPoint)
  | Dynamic
deriving DecidableEq

structure Node where
  task_kind : TaskKind
  size : DeviceIntSize
  alloc_kind : AllocKind
  deps_start : Nat
  deps_end : Nat
  target_kind : TargetKind
deriving DecidableEq

instance : Inhabited Node := ⟨⟨.Blit, ⟨0, 0⟩, .Dynamic, 0, 0, .Color⟩⟩

structure Graph where
  nodes : List Node
  dependencies : List Nat
  roots : List Nat
deriving DecidableEq

def Graph.node (g : Graph) (i : Nat) : Node := g.nodes.getD i default

/-- Embeds Graph::node_dependencies: the slice of the dependency vector
    given by node i's range. -/
def Graph.depsOf (g : Graph) (i : Nat) : List Nat :=
  (g.dependencies.take (g.node i).deps_end).drop (g.node i).deps_start

/-- The dependency-vector index range of node i (the dep_location values
    iterated by assign_targets_ping_pong). -/
def Graph.depLocs (g : Graph) (i : Nat) : List Nat :=
  List.range' (g.node i).deps_start ((g.node i).deps_end - (g.node i).deps_start)

/-- Data invariant maintained by Graph::add_node: dependency ranges are
    valid and all dependencies have strictly smaller ids. -/
def Graph.NodeWF (g : Graph) (i : Nat) : Prop :=
  (g.node i).deps_start ≤ (g.node i).deps_end ∧
  (g.node i).deps_end ≤ g.dependencies.length ∧
  ∀ d ∈ g.depsOf i, d < i

/-- Dependency ranges of distinct nodes do not overlap: Graph::add_node
    always appends the new node's dependency slice after all earlier ones. -/
def Graph.RangesOrdered (g : Graph) : Prop :=
  ∀ j, j < g.nodes.length → ∀ i, i < j → (g.node i).deps_end ≤ (g.node j).deps_start

def Graph.WF (g : Graph) : Prop :=
  (∀ i < g.nodes.length, g.NodeWF i) ∧ (∀ r ∈ g.roots, r < g.nodes.length) ∧
  g.RangesOrdered

instance (g : Graph) (i : Nat) : Decidable (g.NodeWF i) := by
  unfold Graph.NodeWF; infer_instance

instance (g : Graph) : Decidable g.RangesOrdered := by
  unfold Graph.RangesOrdered; infer_instance

instance (g : Graph) : Decidable g.WF := by
  unfold Graph.WF; infer_instance

structure GTask where
  node : Nat
  rectangle : Rectangle
deriving DecidableEq

instance : Inhabited GTask := ⟨⟨0, Rectangle.zero⟩⟩

structure PassTarget where
  tasks : List GTask
  destination : Option Nat
deriving DecidableEq

def PassTarget.empty : PassTarget := ⟨[], none⟩

structure Pass where
  dyn_color : PassTarget
  dyn_alpha : PassTarget
  fixed_targets : List PassTarget
deriving DecidableEq

def Pass.empty : Pass := ⟨PassTarget.empty, PassTarget.empty, []⟩

def Pass.dyn (p : Pass) : TargetKind → PassTarget
  | .Color => p.dyn_color
  | .Alpha => p.dyn_alpha

def Pass.setDyn (p : Pass) (k : TargetKind) (t : PassTarget) : Pass :=
  match k with
  | .Color => { p with dyn_color := t }
  | .Alpha => { p with dyn_alpha := t }

/- ============================================================
   Culling (cull_nodes / mark_active_node from src/graph.rs),
   with explicit recursion fuel; fuel = number of nodes is
   sufficient because dependencies have strictly smaller ids.
   ============================================================ -/

def cullMark : Nat → Graph → Nat → List Bool → List Bool
  | 0, _, _, act => act
  | fuel + 1, g, id, act =>
    if act.getD id false then act
    else (g.depsOf id).foldl (fun a dep => cullMark fuel g dep a) (act.set id true)

def cull_nodes (g : Graph) : List Bool :=
  g.roots.foldl (fun act r => cullMark g.nodes.length g r act)
    (List.replicate g.nodes.length false)

/- ============================================================
   Pass assignment (create_passes / assign_depth from src/graph.rs)
   ============================================================ -/

structure DepthState where
  node_rev_passes : List Nat
  max_depth : Nat
deriving DecidableEq

def assign_depth : Nat → Graph → Nat → Nat → DepthState → DepthState
  | 0, _, _, _, st => st
  | fuel + 1, g, node_id, rev_pass_index, st =>
    let st1 : DepthState :=
      { max_depth := max st.max_depth rev_pass_index
        node_rev_passes := st.node_rev_passes.set node_id
          (max (st.node_rev_passes.getD node_id 0) rev_pass_index) }
    (g.depsOf node_id).foldl (fun s dep => assign_depth fuel g dep (rev_pass_index + 1) s) st1

def depthState (g : Graph) : DepthState :=
  g.roots.foldl (fun s r => assign_depth g.nodes.length g r 0 s)
    ⟨List.replicate g.nodes.length 0, 0⟩

def fixedTaskRect (origin : DeviceIntPoint) (size : DeviceIntSize) : Rectangle :=
  ⟨origin, ⟨origin.x + size.width, origin.y + size.height⟩⟩

/-- The fixed-target grouping loop of create_passes: push the task into the
    first fixed target with the right destination, else append a new one. -/
def pushFixedTask : List PassTarget → Nat → GTask → List PassTarget
  | [], tex, task => [⟨[task], some tex⟩]
  | t :: rest, tex, task =>
    if t.destination = some tex then { t with tasks := t.tasks ++ [task] } :: rest
    else t :: pushFixedTask rest tex task

def createPassesStep (g : Graph) (active : List Bool) (maxd : Nat) (rev : List Nat)
    (acc : List Pass × List (Option Nat)) (idx : Nat) : List Pass × List (Option Nat) :=
  if active.getD idx false = false then acc
  else
    let node := g.node idx
    let pass_index := maxd - rev.getD idx 0
    match node.alloc_kind with
    | .Dynamic =>
      let p := acc.1.getD pass_index Pass.empty
      let t := p.dyn node.target_kind
      let p2 := p.setDyn node.target_kind { t with tasks := t.tasks ++ [⟨idx, Rectangle.zero⟩] }
      (acc.1.set pass_index p2, acc.2.set idx (some pass_index))
    | .Fixed tex origin =>
      let task : GTask := ⟨idx, fixedTaskRect origin node.size⟩
      let p := acc.1.getD pass_index Pass.empty
      let p2 := { p with fixed_targets := pushFixedTask p.fixed_targets tex task }
      (acc.1.set pass_index p2, acc.2.set idx (some pass_index))

def create_passes (g : Graph) (active : List Bool) : List Pass × List (Option Nat) :=
  let st := depthState g
  let init : List Pass := List.replicate (st.max_depth + 1) Pass.empty
  (List.range g.nodes.length).foldl (createPassesStep g active st.max_depth st.node_rev_passes)
    (init, List.replicate g.nodes.length none)

/- ============================================================
   Texture allocator interface used by src/graph.rs.

   Modelled from the spec: graph.rs consumes a TextureAllocator trait
   (add_texture / allocate(texture, size) / deallocate(id)) whose
   definition is not under src/ (src/src/allocator.rs belongs to an
   earlier revision with a different interface).  Following section 4.C
   of the spec: add_texture introduces a new (fresh) texture id,
   allocate returns a rectangle of the requested size together with a
   fresh alloc id, and deallocate releases an alloc id (recorded here so
   that deallocation behaviour can be stated).
   ============================================================ -/

structure SpecTextureAllocator where
  next_texture : Nat
  next_alloc : Nat
  dealloc_calls : List Nat
deriving DecidableEq

def SpecTextureAllocator.new : SpecTextureAllocator := ⟨0, 0, []⟩

def SpecTextureAllocator.add_texture (a : SpecTextureAllocator) : SpecTextureAllocator × Nat :=
  ({ a with next_texture := a.next_texture + 1 }, a.next_texture)

def SpecTextureAllocator.allocate (a : SpecTextureAllocator) (_texture : Nat)
    (size : DeviceIntSize) : SpecTextureAllocator × (Rectangle × Nat) :=
  ({ a with next_alloc := a.next_alloc + 1 },
   (⟨⟨0, 0⟩, ⟨size.width, size.height⟩⟩, a.next_alloc))

def SpecTextureAllocator.deallocate (a : SpecTextureAllocator) (id : Nat) : SpecTextureAllocator :=
  { a with dealloc_calls := a.dealloc_calls ++ [id] }

/- ============================================================
   Ping-pong target assignment (assign_targets_ping_pong and
   handle_conflict_using_bit_task from src/graph.rs).
   A none result models a panic (the passes[pass - 1] underflow, or
   an out-of-bounds index).
   ============================================================ -/

structure PPState where
  graph : Graph
  passes : List Pass
  node_redirects : List (Option Nat)
  nth_color : Nat
  nth_alpha : Nat
deriving DecidableEq

def PPState.nth (st : PPState) : TargetKind → Nat
  | .Color => st.nth_color
  | .Alpha => st.nth_alpha

def PPState.bumpNth (st : PPState) : TargetKind → PPState
  | .Color => { st with nth_color := st.nth_color + 1 }
  | .Alpha => { st with nth_alpha := st.nth_alpha + 1 }

def handle_conflict_using_bit_task (st : PPState) (dep : Nat) (dep_target_kind : TargetKind)
    (pass : Nat) : Option (PPState × Nat) :=
  match st.node_redirects.getD dep none with
  | some source => some (st, source)
  | none =>
    match st.graph.nodes.get? dep with
    | none => none
    | some dnode =>
      let blit_id := st.graph.nodes.length
      let blit_dep_index := st.graph.dependencies.length
      let g2 : Graph :=
        { st.graph with
          dependencies := st.graph.dependencies ++ [dep]
          nodes := st.graph.nodes ++
            [⟨.Blit, dnode.size, .Dynamic, blit_dep_index, blit_dep_index + 1,
              dnode.target_kind⟩] }
      let rd := st.node_redirects.set dep (some blit_id)
      if pass = 0 then none
      else if st.passes.length ≤ pass - 1 then none
      else
        let tp := pass - 1
        let p := st.passes.getD tp Pass.empty
        let t := p.dyn dep_target_kind
        let p2 := p.setDyn dep_target_kind
          { t with tasks := t.tasks ++ [⟨blit_id, Rectangle.zero⟩] }
        some ({ st with graph := g2, node_redirects := rd, passes := st.passes.set tp p2 },
              blit_id)

def ppScanLoc (np : List (Option Nat)) (current_destination : Nat) (p : Nat)
    (st : PPState) (loc : Nat) : Option PPState :=
  let dep := st.graph.dependencies.getD loc 0
  match np.getD dep none with
  | none => none
  | some dep_pass =>
    match st.graph.nodes.get? dep with
    | none => none
    | some dnode =>
      let dep_target_kind := dnode.target_kind
      if ((st.passes.getD dep_pass Pass.empty).dyn dep_target_kind).destination =
          some current_destination then
        match handle_conflict_using_bit_task st dep dep_target_kind p with
        | none => none
        | some r =>
          some { r.1 with graph :=
            { r.1.graph with dependencies := r.1.graph.dependencies.set loc r.2 } }
      else some st

def ppScanTask (np : List (Option Nat)) (current_destination : Nat) (p : Nat)
    (st : PPState) (node : Nat) : Option PPState :=
  (st.graph.depLocs node).foldlM (ppScanLoc np current_destination p) st

def ppProcessKind (np : List (Option Nat)) (tex : TargetKind → Nat → Nat) (p : Nat)
    (st : PPState) (k : TargetKind) : Option PPState :=
  if ((st.passes.getD p Pass.empty).dyn k).tasks.isEmpty then some st
  else
    let ping_pong := st.nth k % 2
    let st1 := st.bumpNth k
    let current_destination := tex k ping_pong
    let pass0 := st1.passes.getD p Pass.empty
    let pass1 := pass0.setDyn k { pass0.dyn k with destination := some current_destination }
    let st2 := { st1 with passes := st1.passes.set p pass1 }
    let ntasks := ((st2.passes.getD p Pass.empty).dyn k).tasks.length
    (List.range ntasks).foldlM
      (fun s nth_node =>
        ppScanTask np current_destination p s
          (((s.passes.getD p Pass.empty).dyn k).tasks.getD nth_node default).node) st2

def assign_targets_ping_pong (g : Graph) (passes : List Pass) (np : List (Option Nat))
    (alloc : SpecTextureAllocator) : Option (Graph × List Pass × SpecTextureAllocator) :=
  let a1 := alloc.add_texture
  let a2 := a1.1.add_texture
  let a3 := a2.1.add_texture
  let a4 := a3.1.add_texture
  let tex : TargetKind → Nat → Nat := fun k i =>
    match k with
    | .Color => if i = 0 then a1.2 else a2.2
    | .Alpha => if i = 0 then a3.2 else a4.2
  let st0 : PPState := ⟨g, passes, List.replicate g.nodes.length none, 0, 0⟩
  match (List.range passes.length).foldlM
      (fun st p =>
        match ppProcessKind np tex p st .Color with
        | none => none
        | some stc => ppProcessKind np tex p stc .Alpha) st0 with
  | none => none
  | some st => some (st.graph, st.passes, a4.1)

/- ============================================================
   Direct target assignment (assign_targets_direct from src/graph.rs)
   ============================================================ -/

def directCollectDeps (g : Graph) (np : List (Option Nat)) (passes : List Pass) (p : Nat) :
    Option (List Nat) :=
  let pass := passes.getD p Pass.empty
  ((pass.dyn .Color).tasks ++ (pass.dyn .Alpha).tasks).foldlM
    (fun acc task =>
      (g.depsOf task.node).foldlM
        (fun acc2 dep =>
          match np.getD dep none with
          | none => none
          | some dep_pass =>
            match g.nodes.get? dep with
            | none => none
            | some dnode =>
              match ((passes.getD dep_pass Pass.empty).dyn dnode.target_kind).destination with
              | none => some acc2
              | some id => some (acc2 ++ [id])) acc)
    ([] : List Nat)

structure DirectState where
  passes : List Pass
  allocated_color : List Nat
  allocated_alpha : List Nat
  alloc : SpecTextureAllocator
deriving DecidableEq

def DirectState.allocated (st : DirectState) : TargetKind → List Nat
  | .Color => st.allocated_color
  | .Alpha => st.allocated_alpha

def directSetDest (st : DirectState) (p : Nat) (k : TargetKind) (tid : Nat) : DirectState :=
  let pass := st.passes.getD p Pass.empty
  let pass2 := pass.setDyn k { pass.dyn k with destination := some tid }
  { st with passes := st.passes.set p pass2 }

def directAssignKind (depSet : List Nat) (st : DirectState) (p : Nat) (k : TargetKind) :
    DirectState :=
  if ((st.passes.getD p Pass.empty).dyn k).tasks.isEmpty then st
  else
    match (st.allocated k).find? (fun tid => !(depSet.contains tid)) with
    | some tid => directSetDest st p k tid
    | none =>
      let ar := st.alloc.add_texture
      let st2 :=
        match k with
        | TargetKind.Color =>
          { st with allocated_color := st.allocated_color ++ [ar.2], alloc := ar.1 }
        | TargetKind.Alpha =>
          { st with allocated_alpha := st.allocated_alpha ++ [ar.2], alloc := ar.1 }
      directSetDest st2 p k ar.2

def assign_targets_direct (g : Graph) (passes : List Pass) (np : List (Option Nat))
    (alloc : SpecTextureAllocator) : Option (List Pass × SpecTextureAllocator) :=
  match (List.range passes.length).foldlM
      (fun st p =>
        match directCollectDeps g np st.passes p with
        | none => none
        | some depSet =>
          some (directAssignKind depSet (directAssignKind depSet st p .Color) p .Alpha))
      (⟨passes, [], [], alloc⟩ : DirectState) with
  | none => none
  | some st => some (st.passes, st.alloc)

/- ============================================================
   Sub-rectangle allocation (allocate_target_rects from src/graph.rs)
   ============================================================ -/

def p1Task (g : Graph) (acc : List Nat × List Bool) (task : GTask) : List Nat × List Bool :=
  (g.depsOf task.node).foldl
    (fun a dep =>
      if a.2.getD dep false then a
      else (a.1 ++ [dep], a.2.set dep true)) acc

def p1Pass (g : Graph) (pass : Pass) (acc : List Nat × List Bool) : List Nat × List Bool :=
  ((pass.dyn .Color).tasks ++ (pass.dyn .Alpha).tasks).foldl (p1Task g) acc

def phase1Aux (g : Graph) : List Pass → List Nat × List Bool →
    (List Nat × List Bool) × List (Nat × Nat)
  | [], acc => (acc, [])
  | p :: rest, acc =>
    let first := acc.1.length
    let acc1 := p1Pass g p acc
    let res := phase1Aux g rest acc1
    (res.1, res.2 ++ [(first, acc1.1.length)])

/-- Phase 1 of allocate_target_rects: mark roots visited, then walk the
    passes in reverse; each not-yet-visited dependency of a dynamic-target
    task is its last reference.  Returns (last_node_refs, visited) and the
    per-pass index ranges. -/
def phase1 (g : Graph) (passes : List Pass) (vis0 : List Bool) :
    (List Nat × List Bool) × List (Nat × Nat) :=
  let vis1 := g.roots.foldl (fun v r => v.set r true) vis0
  phase1Aux g passes.reverse (([] : List Nat), vis1)

structure P2State where
  passes : List Pass
  allocated_rects : List (Option Nat)
  alloc : SpecTextureAllocator
deriving DecidableEq

def p2AllocTasks (g : Graph) (texture : Nat) (tasks : List GTask)
    (rects : List (Option Nat)) (alloc : SpecTextureAllocator) :
    Option (List GTask × List (Option Nat) × SpecTextureAllocator) :=
  tasks.foldlM
    (fun acc task =>
      match g.nodes.get? task.node with
      | none => none
      | some node =>
        match node.alloc_kind with
        | .Dynamic =>
          let ar := acc.2.2.allocate texture node.size
          some (acc.1 ++ [{ task with rectangle := ar.2.1 }],
                acc.2.1.set task.node (some ar.2.2), ar.1)
        | .Fixed _ origin =>
          some (acc.1 ++ [{ task with rectangle := fixedTaskRect origin node.size }],
                acc.2.1, acc.2.2))
    (([] : List GTask), rects, alloc)

def p2Target (g : Graph) (st : P2State) (p : Nat) (k : TargetKind) : Option P2State :=
  let pass := st.passes.getD p Pass.empty
  let pt := pass.dyn k
  if pt.tasks.isEmpty then some st
  else
    match pt.destination with
    | none => none
    | some texture =>
      match p2AllocTasks g texture pt.tasks st.allocated_rects st.alloc with
      | none => none
      | some res =>
        let pass2 := pass.setDyn k { pt with tasks := res.1 }
        some ⟨st.passes.set p pass2, res.2.1, res.2.2⟩

def p2Dealloc (st : P2State) (last_refs : List Nat) (range : Nat × Nat) : P2State :=
  ((last_refs.take range.2).drop range.1).foldl
    (fun s fin =>
      match s.allocated_rects.getD fin none with
      | none => s
      | some id => { s with alloc := s.alloc.deallocate id }) st

def allocate_target_rects (g : Graph) (passes : List Pass) (vis0 : List Bool)
    (alloc : SpecTextureAllocator) :
    Option (List Pass × List (Option Nat) × SpecTextureAllocator) :=
  let ph1 := phase1 g passes vis0
  let last_refs := ph1.1.1
  let ranges := ph1.2
  match (List.range passes.length).foldlM
      (fun st p =>
        match p2Target g st p .Color with
        | none => none
        | some stc =>
          match p2Target g stc p .Alpha with
          | none => none
          | some sta => some (p2Dealloc sta last_refs (ranges.getD p (0, 0))))
      (⟨passes, List.replicate g.nodes.length none, alloc⟩ : P2State) with
  | none => none
  | some st => some (st.passes, st.allocated_rects, st.alloc)

/- ============================================================
   The builder orchestration (GraphBuilder::build from src/graph.rs)
   ============================================================ -/

inductive TargetOptions where
  | Direct
  | PingPong
deriving DecidableEq

structure BuilderOptions where
  targets : TargetOptions
  culling : Bool
deriving DecidableEq

structure BuiltGraph where
  graph : Graph
  passes : List Pass
deriving DecidableEq

/-- Steps 2 to 4 of GraphBuilder::build: culling, pass creation and target
    assignment.  Returns the (possibly extended) graph, the passes, and
    the allocator state. -/
def targetStage (options : BuilderOptions) (g : Graph) (alloc : SpecTextureAllocator) :
    Option (Graph × List Pass × SpecTextureAllocator) :=
  let active := if options.culling then cull_nodes g else List.replicate g.nodes.length true
  let cp := create_passes g active
  match options.targets with
  | .Direct =>
    match assign_targets_direct g cp.1 cp.2 alloc with
    | none => none
    | some r => some (g, r.1, r.2)
  | .PingPong => assign_targets_ping_pong g cp.1 cp.2 alloc

/-- GraphBuilder::build.  A none result models a panic during the build. -/
def build (options : BuilderOptions) (g : Graph) (alloc : SpecTextureAllocator) :
    Option (BuiltGraph × List (Option Nat) × SpecTextureAllocator) :=
  match targetStage options g alloc with
  | none => none
  | some r =>
    match allocate_target_rects r.1 r.2.1 (List.replicate r.1.nodes.length false) r.2.2 with
    | none => none
    | some ar => some (⟨r.1, ar.1⟩, ar.2.1, ar.2.2)

def stageGraph (r : Option (Graph × List Pass × SpecTextureAllocator)) : Graph :=
  match r with
  | some s => s.1
  | none => ⟨[], [], []⟩

def stagePasses (r : Option (Graph × List Pass × SpecTextureAllocator)) : List Pass :=
  match r with
  | some s => s.2.1
  | none => []

def buildPasses (r : Option (BuiltGraph × List (Option Nat) × SpecTextureAllocator)) :
    List Pass :=
  match r with
  | some s => s.1.passes
  | none => []

def buildGraph (r : Option (BuiltGraph × List (Option Nat) × SpecTextureAllocator)) : Graph :=
  match r with
  | some s => s.1.graph
  | none => ⟨[], [], []⟩

def buildRects (r : Option (BuiltGraph × List (Option Nat) × SpecTextureAllocator)) :
    List (Option Nat) :=
  match r with
  | some s => s.2.1
  | none => []

def buildAlloc (r : Option (BuiltGraph × List (Option Nat) × SpecTextureAllocator)) :
    SpecTextureAllocator :=
  match r with
  | some s => s.2.2
  | none => SpecTextureAllocator.new

/-- Node x occurs as a task of pass i (in a dynamic target or a fixed
    target). -/
def TaskIn (passes : List Pass) (i : Nat) (x : Nat) : Prop :=
  (∃ t ∈ ((passes.getD i Pass.empty).dyn .Color).tasks, t.node = x) ∨
  (∃ t ∈ ((passes.getD i Pass.empty).dyn .Alpha).tasks, t.node = x) ∨
  (∃ ft ∈ (passes.getD i Pass.empty).fixed_targets, ∃ t ∈ ft.tasks, t.node = x)

instance (passes : List Pass) (i x : Nat) : Decidable (TaskIn passes i x) := by
  unfold TaskIn; infer_instance

/- ============================================================
   Concrete graphs used by counterexamples and witnesses
   ============================================================ -/

/-- Two color/dynamic nodes, node 1 depending on node 0, with only node 0
    a root, so node 1 is unreachable from the roots. -/
def graphAB : Graph :=
  ⟨[⟨.Render 0, ⟨100, 100⟩, .Dynamic, 0, 0, .Color⟩,
    ⟨.Render 1, ⟨100, 100⟩, .Dynamic, 0, 1, .Color⟩],
   [0], [0]⟩

/-- Nodes 0 and 1 (1 depends on 0) unreachable from the single root 2;
    with culling disabled all three land in pass 0. -/
def graphPassZero : Graph :=
  ⟨[⟨.Render 0, ⟨100, 100⟩, .Dynamic, 0, 0, .Color⟩,
    ⟨.Render 1, ⟨100, 100⟩, .Dynamic, 0, 1, .Color⟩,
    ⟨.Render 2, ⟨100, 100⟩, .Dynamic, 1, 1, .Color⟩],
   [0], [2]⟩

/-- Chain 0 → 1 (fixed) → 2 with root 3 reading both 2 and 0: under
    ping-pong, pass 2 holds only the fixed node, and the copy task
    resolving the conflict on node 0 lands in pass 2's dynamic color
    target, which never received a destination. -/
def graphBlitNone : Graph :=
  ⟨[⟨.Render 0, ⟨100, 100⟩, .Dynamic, 0, 0, .Color⟩,
    ⟨.Render 1, ⟨100, 100⟩, .Dynamic, 0, 1, .Color⟩,
    ⟨.Render 2, ⟨100, 100⟩, .Fixed 100 ⟨0, 0⟩, 1, 2, .Color⟩,
    ⟨.Render 3, ⟨100, 100⟩, .Dynamic, 2, 4, .Color⟩],
   [0, 1, 2, 0], [3]⟩

/-- A fixed-allocation consumer (node 3) reading a dynamic producer
    (node 0) whose pass shares the ping-pong parity with the consumer's
    pass. -/
def graphFixedReader : Graph :=
  ⟨[⟨.Render 0, ⟨100, 100⟩, .Dynamic, 0, 0, .Color⟩,
    ⟨.Render 1, ⟨100, 100⟩, .Dynamic, 0, 1, .Color⟩,
    ⟨.Render 2, ⟨100, 100⟩, .Fixed 100 ⟨0, 0⟩, 1, 2, .Color⟩,
    ⟨.Render 3, ⟨100, 100⟩, .Fixed 101 ⟨0, 0⟩, 2, 4, .Color⟩,
    ⟨.Render 4, ⟨100, 100⟩, .Dynamic, 4, 5, .Color⟩],
   [0, 1, 0, 2, 2], [3, 4]⟩

/-- A simple three-node chain 0 → 1 → 2, all color/dynamic, root 2. -/
def chainGraph : Graph :=
  ⟨[⟨.Render 0, ⟨100, 100⟩, .Dynamic, 0, 0, .Color⟩,
    ⟨.Render 1, ⟨100, 100⟩, .Dynamic, 0, 1, .Color⟩,
    ⟨.Render 2, ⟨100, 100⟩, .Dynamic, 1, 2, .Color⟩],
   [0, 1], [2]⟩

/-- A dynamic node 0 read only by the fixed-allocation root 1. -/
def fixedDepGraph : Graph :=
  ⟨[⟨.Render 0, ⟨100, 100⟩, .Dynamic, 0, 0, .Color⟩,
    ⟨.Render 1, ⟨100, 100⟩, .Fixed 100 ⟨0, 0⟩, 0, 1, .Color⟩],
   [0], [1]⟩

/- ============================================================
   Concrete claim theorems: C1 / C2 / C9 counterexamples, C3, C5
   ============================================================ -/

/-- Claim C1 counterexample: building graphAB with culling disabled puts
    both endpoints of the dependency edge (0, 1) into pass 0, so the pass
    of the producer is not strictly less than the pass of the consumer. -/
theorem C1_cex :
    TaskIn (buildPasses (build ⟨.Direct, false⟩ graphAB SpecTextureAllocator.new)) 0 1 ∧
    TaskIn (buildPasses (build ⟨.Direct, false⟩ graphAB SpecTextureAllocator.new)) 0 0 ∧
    0 ∈ (buildGraph (build ⟨.Direct, false⟩ graphAB SpecTextureAllocator.new)).depsOf 1 ∧
    ¬ (0 : Nat) < 0 := by decide

/-- Claim C9 counterexample: with culling disabled on graphPassZero, every
    node is assigned pass 0 and the ping-pong conflict handler is invoked
    with the consumer in pass 0; the passes[pass - 1] access underflows
    (the embedded stage returns none, modelling the panic). -/
theorem C9_cex :
    Graph.WF graphPassZero ∧
    (create_passes graphPassZero (List.replicate 3 true)).2 = [some 0, some 0, some 0] ∧
    targetStage ⟨.PingPong, false⟩ graphPassZero SpecTextureAllocator.new = none := by decide

/-- Claim C3 refuted on graphBlitNone (culling enabled, all nodes
    reachable): ping-pong appends the copy task (node 4) to pass 2's
    dynamic color target whose destination is none, and the
    destination.unwrap() in allocate_target_rects panics (build = none). -/
theorem C3_blit_destination_panic :
    Graph.WF graphBlitNone ∧
    (∃ t ∈ (((stagePasses (targetStage ⟨.PingPong, true⟩ graphBlitNone
        SpecTextureAllocator.new)).getD 2 Pass.empty).dyn .Color).tasks, t.node = 4) ∧
    (((stagePasses (targetStage ⟨.PingPong, true⟩ graphBlitNone
        SpecTextureAllocator.new)).getD 2 Pass.empty).dyn .Color).destination = none ∧
    build ⟨.PingPong, true⟩ graphBlitNone SpecTextureAllocator.new = none := by decide

/-- Claim C5 counterexample: building the empty graph produces one pass,
    not zero passes. -/
theorem C5_cex :
    (buildPasses (build ⟨.Direct, true⟩ ⟨[], [], []⟩ SpecTextureAllocator.new)).length = 1 ∧
    (1 : Nat) ≠ 0 := by decide

/-- Claim C5 amended: for every builder option combination and allocator
    state, building the empty graph produces exactly one pass, and that
    pass contains no tasks at all. -/
theorem C5_empty_graph_one_pass (options : BuilderOptions) (alloc0 : SpecTextureAllocator) :
    (buildPasses (build options ⟨[], [], []⟩ alloc0)).length = 1 ∧
    ∀ i k,
      (((buildPasses (build options ⟨[], [], []⟩ alloc0)).getD i Pass.empty).dyn k).tasks = [] ∧
      ((buildPasses (build options ⟨[], [], []⟩ alloc0)).getD i Pass.empty).fixed_targets = [] := by
  obtain ⟨t, c⟩ := options
  have hb : buildPasses (build ⟨t, c⟩ ⟨[], [], []⟩ alloc0) = [Pass.empty] := by
    cases t <;> cases c <;> rfl
  rw [hb]
  refine ⟨rfl, ?_⟩
  intro i k
  match i with
  | 0 => cases k <;> exact ⟨rfl, rfl⟩
  | i + 1 =>
    have : List.getD [Pass.empty] (i + 1) Pass.empty = Pass.empty := rfl
    rw [this]
    cases k <;> exact ⟨rfl, rfl⟩

/-- Claim C2 counterexample: in graphFixedReader under ping-pong with
    culling on, the fixed consumer 3 in pass 3 reads the dynamic producer
    0 in pass 0 of the same target kind, and both passes have the same
    (non-none) dynamic color destination. -/
theorem C2_cex :
    Graph.WF graphFixedReader ∧
    TaskIn (stagePasses (targetStage ⟨.PingPong, true⟩ graphFixedReader
      SpecTextureAllocator.new)) 0 0 ∧
    TaskIn (stagePasses (targetStage ⟨.PingPong, true⟩ graphFixedReader
      SpecTextureAllocator.new)) 3 3 ∧
    0 ∈ (stageGraph (targetStage ⟨.PingPong, true⟩ graphFixedReader
      SpecTextureAllocator.new)).depsOf 3 ∧
    ((stageGraph (targetStage ⟨.PingPong, true⟩ graphFixedReader
      SpecTextureAllocator.new)).node 0).target_kind = .Color ∧
    ((stageGraph (targetStage ⟨.PingPong, true⟩ graphFixedReader
      SpecTextureAllocator.new)).node 3).target_kind = .Color ∧
    (((stagePasses (targetStage ⟨.PingPong, true⟩ graphFixedReader
      SpecTextureAllocator.new)).getD 0 Pass.empty).dyn .Color).destination =
    (((stagePasses (targetStage ⟨.PingPong, true⟩ graphFixedReader
      SpecTextureAllocator.new)).getD 3 Pass.empty).dyn .Color).destination ∧
    (((stagePasses (targetStage ⟨.PingPong, true⟩ graphFixedReader
      SpecTextureAllocator.new)).getD 0 Pass.empty).dyn .Color).destination ≠ none := by
  decide

/-- Claim C8 counterexample: node 0 is a non-root dependency of the
    fixed-target task 1 in the built plan, yet after phase 1 it does not
    appear in last_node_refs at all (fixed-target tasks are not scanned). -/
theorem C8_cex :
    TaskIn (stagePasses (targetStage ⟨.Direct, true⟩ fixedDepGraph
      SpecTextureAllocator.new)) 1 1 ∧
    0 ∈ (stageGraph (targetStage ⟨.Direct, true⟩ fixedDepGraph
      SpecTextureAllocator.new)).depsOf 1 ∧
    0 ∉ (stageGraph (targetStage ⟨.Direct, true⟩ fixedDepGraph
      SpecTextureAllocator.new)).roots ∧
    ((phase1 (stageGraph (targetStage ⟨.Direct, true⟩ fixedDepGraph
        SpecTextureAllocator.new))
      (stagePasses (targetStage ⟨.Direct, true⟩ fixedDepGraph SpecTextureAllocator.new))
      (List.replicate 2 false)).1.1.count 0) = 0 := by decide

/- ============================================================
   Generic list and fold helper lemmas
   ============================================================ -/

theorem listGetD_set_self {α : Type _} (l : List α) (i : Nat) (a d : α) (h : i < l.length) :
    (l.set i a).getD i d = a := by
  simp [List.getD_eq_getElem?_getD, List.getElem?_set_self h]

theorem listGetD_set_ne {α : Type _} (l : List α) (i j : Nat) (a d : α) (h : i ≠ j) :
    (l.set i a).getD j d = l.getD j d := by
  simp [List.getD_eq_getElem?_getD, List.getElem?_set_ne h]

theorem listGetD_replicate {α : Type _} (n j : Nat) (x d : α) :
    (List.replicate n x).getD j d = if j < n then x else d := by
  simp only [List.getD_eq_getElem?_getD, List.getElem?_replicate]
  split <;> rfl

theorem foldl_inv {σ α : Type _} {f : σ → α → σ} {P : σ → Prop} :
    ∀ (L : List α) (s : σ), P s → (∀ s' a, a ∈ L → P s' → P (f s' a)) → P (L.foldl f s) := by
  intro L
  induction L with
  | nil => intro s h _; exact h
  | cons a L ih =>
    intro s h hstep
    exact ih (f s a) (hstep s a (by simp) h)
      (fun s' b hb h' => hstep s' b (by simp [hb]) h')

theorem foldl_elem {σ α : Type _} {f : σ → α → σ} {P Q : σ → Prop} :
    ∀ (L : List α) (dep : α), dep ∈ L →
      (∀ s' a, a ∈ L → P s' → P (f s' a)) →
      (∀ s', P s' → Q (f s' dep)) →
      (∀ s' a, a ∈ L → Q s' → Q (f s' a)) →
      ∀ s, P s → Q (L.foldl f s) := by
  intro L
  induction L with
  | nil => intro dep h; exact absurd h (by simp)
  | cons a L ih =>
    intro dep hmem hP hPQ hQ s hs
    rcases List.mem_cons.mp hmem with heq | hmem'
    · subst heq
      exact foldl_inv L (f s dep) (hPQ s hs)
        (fun s' b hb h' => hQ s' b (by simp [hb]) h')
    · exact ih dep hmem' (fun s' b hb h' => hP s' b (by simp [hb]) h')
        hPQ (fun s' b hb h' => hQ s' b (by simp [hb]) h') (f s a) (hP s a (by simp) hs)

/- ============================================================
   Maximum dependency distance (specification of assign_depth)
   ============================================================ -/

def omax : Option Nat → Option Nat → Option Nat
  | none, b => b
  | some a, none => some a
  | some a, some b => some (max a b)

theorem omax_eq_none {a b : Option Nat} : omax a b = none ↔ a = none ∧ b = none := by
  cases a <;> cases b <;> simp [omax]

theorem omax_left_le {a b : Option Nat} {x : Nat} (h : a = some x) :
    ∃ m, omax a b = some m ∧ x ≤ m := by
  subst h
  cases b with
  | none => exact ⟨x, rfl, le_refl x⟩
  | some y => exact ⟨max x y, rfl, Nat.le_max_left x y⟩

theorem omax_right_le {a b : Option Nat} {y : Nat} (h : b = some y) :
    ∃ m, omax a b = some m ∧ y ≤ m := by
  subst h
  cases a with
  | none => exact ⟨y, rfl, le_refl y⟩
  | some x => exact ⟨max x y, rfl, Nat.le_max_right x y⟩

theorem omax_cases {a b : Option Nat} {m : Nat} (h : omax a b = some m) :
    a = some m ∨ b = some m := by
  cases a with
  | none => right; exact h
  | some x =>
    cases b with
    | none => left; exact h
    | some y =>
      simp [omax] at h
      rcases Nat.le_total x y with hxy | hyx
      · right; rw [Nat.max_eq_right hxy] at h; rw [h]
      · left; rw [Nat.max_eq_left hyx] at h; rw [h]

theorem foldr_omax_mem {f : Nat → Option Nat} {L : List Nat} {dep : Nat} {k : Nat}
    (hdep : dep ∈ L) (hf : f dep = some k) :
    ∃ m, L.foldr (fun d acc => omax (f d) acc) none = some m ∧ k ≤ m := by
  induction L with
  | nil => exact absurd hdep (by simp)
  | cons a L ih =>
    rcases List.mem_cons.mp hdep with heq | hmem
    · subst heq
      exact omax_left_le hf
    · obtain ⟨m, hm, hkm⟩ := ih hmem
      obtain ⟨m2, hm2, hmm2⟩ := omax_right_le (b := f a |> omax |> fun _ => _) (y := m) hm
      exact ⟨m2, hm2, le_trans hkm hmm2⟩

theorem foldr_omax_none {f : Nat → Option Nat} {L : List Nat}
    (h : L.foldr (fun d acc => omax (f d) acc) none = none) :
    ∀ d ∈ L, f d = none := by
  induction L with
  | nil => simp
  | cons a L ih =>
    intro d hd
    simp only [List.foldr_cons] at h
    obtain ⟨ha, hrest⟩ := omax_eq_none.mp h
    rcases List.mem_cons.mp hd with heq | hmem
    · subst heq; exact ha
    · exact ih hrest d hmem

theorem foldr_omax_some {f : Nat → Option Nat} {L : List Nat} {m : Nat}
    (h : L.foldr (fun d acc => omax (f d) acc) none = some m) :
    ∃ d ∈ L, f d = some m := by
  induction L with
  | nil => simp [List.foldr_nil] at h
  | cons a L ih =>
    simp only [List.foldr_cons] at h
    rcases omax_cases h with ha | hrest
    · exact ⟨a, by simp, ha⟩
    · obtain ⟨d, hd, hfd⟩ := ih hrest
      exact ⟨d, by simp [hd], hfd⟩

/-- Maximum number of dependency edges on any path from src to tgt, none
    if tgt is unreachable from src.  Fuel-based; under Graph.WF any fuel
    of at least src+1 computes the true value. -/
def maxDistF : Nat → Graph → Nat → Nat → Option Nat
  | 0, _, _, _ => none
  | fuel + 1, g, src, tgt =>
    if src = tgt then some 0
    else (g.depsOf src).foldr
      (fun dep acc => omax ((maxDistF fuel g dep tgt).map (fun k => k + 1)) acc) none

theorem maxDistF_self (fuel : Nat) (g : Graph) (s : Nat) :
    maxDistF (fuel + 1) g s s = some 0 := by
  simp [maxDistF]

theorem Graph.depsOf_oob (g : Graph) (i : Nat) (h : g.nodes.length ≤ i) : g.depsOf i = [] := by
  have hd : g.node i = default := by
    simp [Graph.node, List.getD_eq_getElem?_getD, List.getElem?_eq_none h]
  unfold Graph.depsOf
  rw [hd]
  rfl

theorem Graph.deps_lt (g : Graph) (hWF : g.WF) {i d : Nat} (hd : d ∈ g.depsOf i) : d < i := by
  by_cases hi : i < g.nodes.length
  · exact ((hWF.1 i hi).2.2) d hd
  · rw [Graph.depsOf_oob g i (Nat.le_of_not_lt hi)] at hd
    exact absurd hd (by simp)

theorem Graph.deps_src_lt (g : Graph) {i d : Nat} (hd : d ∈ g.depsOf i) :
    i < g.nodes.length := by
  by_contra hi
  rw [Graph.depsOf_oob g i (Nat.le_of_not_lt hi)] at hd
  exact absurd hd (by simp)

theorem maxDistF_le_src (g : Graph) (hWF : g.WF) :
    ∀ fuel src tgt k, maxDistF fuel g src tgt = some k → tgt ≤ src := by
  intro fuel
  induction fuel with
  | zero => intro src tgt k h; simp [maxDistF] at h
  | succ f ih =>
    intro src tgt k h
    unfold maxDistF at h
    split at h
    · omega
    · obtain ⟨dep, hdep, hfd⟩ := foldr_omax_some h
      obtain ⟨k0, hk0, _⟩ := Option.map_eq_some'.mp hfd
      have h1 : tgt ≤ dep := ih dep tgt k0 hk0
      have h2 : dep < src := Graph.deps_lt g hWF hdep
      omega

theorem maxDistF_dep_le (g : Graph) {fuel src tgt dep k : Nat}
    (hne : src ≠ tgt) (hdep : dep ∈ g.depsOf src)
    (hfd : maxDistF fuel g dep tgt = some k) :
    ∃ m, maxDistF (fuel + 1) g src tgt = some m ∧ k + 1 ≤ m := by
  unfold maxDistF
  rw [if_neg hne]
  exact foldr_omax_mem hdep (by rw [hfd]; rfl)

theorem maxDistF_inv (g : Graph) {fuel src tgt m : Nat}
    (h : maxDistF (fuel + 1) g src tgt = some m) :
    (src = tgt ∧ m = 0) ∨
    (src ≠ tgt ∧ ∃ dep ∈ g.depsOf src, ∃ k, maxDistF fuel g dep tgt = some k ∧ m = k + 1) := by
  unfold maxDistF at h
  split at h
  · left
    exact ⟨by assumption, by simpa using h.symm⟩
  · right
    refine ⟨by assumption, ?_⟩
    obtain ⟨dep, hdep, hfd⟩ := foldr_omax_some h
    obtain ⟨k0, hk0, hk0m⟩ := Option.map_eq_some'.mp hfd
    exact ⟨dep, hdep, k0, hk0, hk0m.symm⟩

/-- Reachability along dependency edges. -/
inductive Reach (g : Graph) : Nat → Nat → Prop where
  | refl (x : Nat) : Reach g x x
  | step {x dep j : Nat} : dep ∈ g.depsOf x → Reach g dep j → Reach g x j

theorem Reach_le (g : Graph) (hWF : g.WF) {x j : Nat} (h : Reach g x j) : j ≤ x := by
  induction h with
  | refl => exact le_refl _
  | step hdep _ ih =>
    have := Graph.deps_lt g hWF hdep
    omega

theorem Reach_snoc (g : Graph) {r y x : Nat} (h : Reach g r y) (hx : x ∈ g.depsOf y) :
    Reach g r x := by
  induction h with
  | refl z => exact Reach.step hx (Reach.refl x)
  | step hdep _ ih => exact Reach.step hdep (ih hx)

theorem maxDistF_isSome_of_reach (g : Graph) (hWF : g.WF) {src tgt : Nat}
    (h : Reach g src tgt) : ∀ fuel, src + 1 ≤ fuel → (maxDistF fuel g src tgt).isSome := by
  induction h with
  | refl x =>
    intro fuel hf
    match fuel, hf with
    | f + 1, _ => rw [maxDistF_self]; rfl
  | step hdep hr ih =>
    intro fuel hf
    rename_i x dep j
    have hxn : x < g.nodes.length := Graph.deps_src_lt g hdep
    have hdx : dep < x := Graph.deps_lt g hWF hdep
    match fuel, hf with
    | f + 1, hf =>
      have hdf : dep + 1 ≤ f := by omega
      have := ih f hdf
      obtain ⟨k, hk⟩ := Option.isSome_iff_exists.mp this
      by_cases hxj : x = j
      · subst hxj; rw [maxDistF_self]; rfl
      · obtain ⟨m, hm, _⟩ := maxDistF_dep_le g hxj hdep hk
        rw [hm]; rfl

theorem reach_of_maxDistF (g : Graph) :
    ∀ fuel src tgt k, maxDistF fuel g src tgt = some k → Reach g src tgt := by
  intro fuel
  induction fuel with
  | zero => intro src tgt k h; simp [maxDistF] at h
  | succ f ih =>
    intro src tgt k h
    rcases maxDistF_inv g h with ⟨heq, _⟩ | ⟨_, dep, hdep, k0, hk0, _⟩
    · subst heq; exact Reach.refl src
    · exact Reach.step hdep (ih dep tgt k0 hk0)

theorem maxDistF_edge (g : Graph) (hWF : g.WF) :
    ∀ fuel src b a k, src + 1 ≤ fuel → maxDistF fuel g src b = some k →
      a ∈ g.depsOf b → ∃ k', maxDistF fuel g src a = some k' ∧ k + 1 ≤ k' := by
  intro fuel
  induction fuel with
  | zero => intro src b a k hf; omega
  | succ f ih =>
    intro src b a k hf h hab
    have hbn : b < g.nodes.length := Graph.deps_src_lt g hab
    have hab_lt : a < b := Graph.deps_lt g hWF hab
    rcases maxDistF_inv g h with ⟨heq, hk0⟩ | ⟨hne, dep, hdep, k0, hk0, hm⟩
    · subst heq
      subst hk0
      have haf : a + 1 ≤ f := by omega
      have h0 : maxDistF f g a a = some 0 := by
        match f, haf with
        | f' + 1, _ => exact maxDistF_self f' g a
      have hna : src ≠ a := by omega
      obtain ⟨m, hm, h1m⟩ := maxDistF_dep_le g hna hab h0
      exact ⟨m, hm, by omega⟩
    · have hsn : src < g.nodes.length := Graph.deps_src_lt g hdep
      have hds : dep < src := Graph.deps_lt g hWF hdep
      have hdf : dep + 1 ≤ f := by omega
      obtain ⟨k0', hk0', hle⟩ := ih dep b a k0 hdf hk0 hab
      have hba : b ≤ dep := maxDistF_le_src g hWF f dep b k0 hk0
      have hna : src ≠ a := by omega
      obtain ⟨m, hmm, hlem⟩ := maxDistF_dep_le g hna hdep hk0'
      exact ⟨m, hmm, by omega⟩

/- ============================================================
   Properties of assign_depth and depthState
   ============================================================ -/

theorem assign_depth_succ (f : Nat) (g : Graph) (src d : Nat) (st : DepthState) :
    assign_depth (f + 1) g src d st =
      (g.depsOf src).foldl (fun s dep => assign_depth f g dep (d + 1) s)
        ⟨st.node_rev_passes.set src (max (st.node_rev_passes.getD src 0) d),
         max st.max_depth d⟩ := rfl

theorem assign_depth_len : ∀ (fuel : Nat) (g : Graph) (src d : Nat) (st : DepthState),
    (assign_depth fuel g src d st).node_rev_passes.length = st.node_rev_passes.length := by
  intro fuel
  induction fuel with
  | zero => intro g src d st; rfl
  | succ f ih =>
    intro g src d st
    rw [assign_depth_succ]
    refine foldl_inv (P := fun (s : DepthState) => s.node_rev_passes.length = st.node_rev_passes.length)
      (g.depsOf src) _ (by simp) ?_
    intro s a _ h
    rw [ih g a (d + 1) s]
    exact h

theorem assign_depth_rev_mono : ∀ (fuel : Nat) (g : Graph) (src d : Nat) (st : DepthState)
    (j : Nat), st.node_rev_passes.getD j 0 ≤ (assign_depth fuel g src d st).node_rev_passes.getD j 0 := by
  intro fuel
  induction fuel with
  | zero => intro g src d st j; exact le_refl _
  | succ f ih =>
    intro g src d st j
    rw [assign_depth_succ]
    have h1 : st.node_rev_passes.getD j 0 ≤
        (st.node_rev_passes.set src (max (st.node_rev_passes.getD src 0) d)).getD j 0 := by
      by_cases hj : src = j
      · subst hj
        by_cases hlen : src < st.node_rev_passes.length
        · rw [listGetD_set_self _ _ _ _ hlen]
          exact Nat.le_max_left _ _
        · rw [List.set_eq_of_length_le (Nat.le_of_not_lt hlen)]
      · rw [listGetD_set_ne _ _ _ _ _ hj]
    refine le_trans h1 ?_
    refine foldl_inv
      (P := fun (s : DepthState) =>
        (st.node_rev_passes.set src (max (st.node_rev_passes.getD src 0) d)).getD j 0 ≤
        s.node_rev_passes.getD j 0)
      (g.depsOf src) _ (le_refl _) ?_
    intro s a _ h
    exact le_trans h (ih g a (d + 1) s j)

theorem assign_depth_maxd_mono : ∀ (fuel : Nat) (g : Graph) (src d : Nat) (st : DepthState),
    st.max_depth ≤ (assign_depth fuel g src d st).max_depth := by
  intro fuel
  induction fuel with
  | zero => intro g src d st; exact le_refl _
  | succ f ih =>
    intro g src d st
    rw [assign_depth_succ]
    refine le_trans (Nat.le_max_left st.max_depth d) ?_
    refine foldl_inv (P := fun (s : DepthState) => max st.max_depth d ≤ s.max_depth)
      (g.depsOf src) _ (le_refl _) ?_
    intro s a _ h
    exact le_trans h (ih g a (d + 1) s)

theorem assign_depth_le_maxd : ∀ (fuel : Nat) (g : Graph) (src d : Nat) (st : DepthState),
    (∀ j, st.node_rev_passes.getD j 0 ≤ st.max_depth) →
    ∀ j, (assign_depth fuel g src d st).node_rev_passes.getD j 0 ≤
      (assign_depth fuel g src d st).max_depth := by
  intro fuel
  induction fuel with
  | zero => intro g src d st h j; exact h j
  | succ f ih =>
    intro g src d st h j
    rw [assign_depth_succ]
    refine foldl_inv
      (P := fun (s : DepthState) => ∀ j, s.node_rev_passes.getD j 0 ≤ s.max_depth)
      (g.depsOf src) _ ?_ (fun s a _ hs => ih g a (d + 1) s hs) j
    intro j2
    show (st.node_rev_passes.set src (max (st.node_rev_passes.getD src 0) d)).getD j2 0 ≤
      max st.max_depth d
    by_cases hj : src = j2
    · subst hj
      by_cases hlen : src < st.node_rev_passes.length
      · rw [listGetD_set_self _ _ _ _ hlen]
        exact max_le_max (h src) (le_refl d)
      · rw [List.set_eq_of_length_le (Nat.le_of_not_lt hlen)]
        exact le_trans (h src) (Nat.le_max_left _ _)
    · rw [listGetD_set_ne _ _ _ _ _ hj]
      exact le_trans (h j2) (Nat.le_max_left _ _)

theorem assign_depth_untouched (g : Graph) (hWF : g.WF) :
    ∀ (fuel : Nat) (src d : Nat) (st : DepthState) (j : Nat),
    maxDistF fuel g src j = none →
    (assign_depth fuel g src d st).node_rev_passes.getD j 0 = st.node_rev_passes.getD j 0 := by
  intro fuel
  induction fuel with
  | zero => intro src d st j _; rfl
  | succ f ih =>
    intro src d st j hnone
    unfold maxDistF at hnone
    split at hnone
    · exact absurd hnone (by simp)
    · have hdeps : ∀ dep ∈ g.depsOf src, maxDistF f g dep j = none := by
        intro dep hdep
        have := foldr_omax_none hnone dep hdep
        exact Option.map_eq_none'.mp this
      rw [assign_depth_succ]
      have hne : src ≠ j := by assumption
      refine foldl_inv
        (P := fun (s : DepthState) => s.node_rev_passes.getD j 0 = st.node_rev_passes.getD j 0)
        (g.depsOf src) _ ?_ ?_
      · exact listGetD_set_ne _ _ _ _ _ hne
      · intro s a ha h
        rw [ih a (d + 1) s j (hdeps a ha)]
        exact h

theorem assign_depth_lower (g : Graph) (hWF : g.WF) :
    ∀ (fuel : Nat) (src d : Nat) (st : DepthState) (j k : Nat),
    src < g.nodes.length → st.node_rev_passes.length = g.nodes.length →
    maxDistF fuel g src j = some k →
    d + k ≤ (assign_depth fuel g src d st).node_rev_passes.getD j 0 := by
  intro fuel
  induction fuel with
  | zero => intro src d st j k _ _ h; simp [maxDistF] at h
  | succ f ih =>
    intro src d st j k hsrc hlen h
    rcases maxDistF_inv g h with ⟨heq, hk0⟩ | ⟨hne, dep, hdep, k0, hk0, hm⟩
    · subst heq
      subst hk0
      rw [assign_depth_succ]
      refine foldl_inv
        (P := fun (s : DepthState) => d + 0 ≤ s.node_rev_passes.getD src 0)
        (g.depsOf src) _ ?_ (fun s a _ hs => le_trans hs (assign_depth_rev_mono f g a (d + 1) s src))
      · show d + 0 ≤
          (st.node_rev_passes.set src (max (st.node_rev_passes.getD src 0) d)).getD src 0
        rw [listGetD_set_self _ _ _ _ (by rw [hlen]; exact hsrc)]
        omega
    · subst hm
      rw [assign_depth_succ]
      have hdn : dep < g.nodes.length := by
        have := Graph.deps_lt g hWF hdep
        omega
      refine foldl_elem (g.depsOf src) dep hdep
        (P := fun (s : DepthState) => s.node_rev_passes.length = g.nodes.length)
        (Q := fun (s : DepthState) => d + (k0 + 1) ≤ s.node_rev_passes.getD j 0)
        (fun s a _ hs => by
          show (assign_depth f g a (d + 1) s).node_rev_passes.length = g.nodes.length
          rw [assign_depth_len]
          exact hs)
        ?_
        (fun s a _ hs => le_trans hs (assign_depth_rev_mono f g a (d + 1) s j))
        _ (by simp [hlen])
      intro s hs
      have := ih dep (d + 1) s j k0 hdn hs hk0
      omega

theorem assign_depth_upper (g : Graph) (hWF : g.WF) :
    ∀ (fuel : Nat) (src d : Nat) (st : DepthState) (j K : Nat),
    maxDistF fuel g src j = some K →
    (assign_depth fuel g src d st).node_rev_passes.getD j 0 ≤
      max (st.node_rev_passes.getD j 0) (d + K) := by
  intro fuel
  induction fuel with
  | zero => intro src d st j K h; simp [maxDistF] at h
  | succ f ih =>
    intro src d st j K h
    rcases maxDistF_inv g h with ⟨heq, hK0⟩ | ⟨hne, dep, hdep, k0, hk0, hm⟩
    · subst heq
      subst hK0
      rw [assign_depth_succ]
      have hdeps_none : ∀ a ∈ g.depsOf src, maxDistF f g a src = none := by
        intro a ha
        match hmd : maxDistF f g a src with
        | none => rfl
        | some k' =>
          have h1 : src ≤ a := maxDistF_le_src g hWF f a src k' hmd
          have h2 : a < src := Graph.deps_lt g hWF ha
          omega
      refine foldl_inv
        (P := fun (s : DepthState) => s.node_rev_passes.getD src 0 ≤
          max (st.node_rev_passes.getD src 0) (d + 0))
        (g.depsOf src) _ ?_ ?_
      · show (st.node_rev_passes.set src (max (st.node_rev_passes.getD src 0) d)).getD src 0 ≤
          max (st.node_rev_passes.getD src 0) (d + 0)
        by_cases hlen : src < st.node_rev_passes.length
        · rw [listGetD_set_self _ _ _ _ hlen]
          omega
        · rw [List.set_eq_of_length_le (Nat.le_of_not_lt hlen)]
          omega
      · intro s a ha hs
        have : (assign_depth f g a (d + 1) s).node_rev_passes.getD src 0 =
            s.node_rev_passes.getD src 0 :=
          assign_depth_untouched g hWF f a (d + 1) s src (hdeps_none a ha)
        rw [this]
        exact hs
    · rw [assign_depth_succ]
      refine foldl_inv
        (P := fun (s : DepthState) => s.node_rev_passes.getD j 0 ≤
          max (st.node_rev_passes.getD j 0) (d + K))
        (g.depsOf src) _ ?_ ?_
      · show (st.node_rev_passes.set src (max (st.node_rev_passes.getD src 0) d)).getD j 0 ≤
          max (st.node_rev_passes.getD j 0) (d + K)
        rw [listGetD_set_ne _ _ _ _ _ hne]
        exact Nat.le_max_left _ _
      · intro s a ha hs
        match hmd : maxDistF f g a j with
        | none =>
          rw [assign_depth_untouched g hWF f a (d + 1) s j hmd]
          exact hs
        | some k1 =>
          obtain ⟨m, hmEq, hle⟩ := maxDistF_dep_le g hne ha hmd
          rw [h] at hmEq
          have hk1K : k1 + 1 ≤ K := by
            have : m = K := by injection hmEq.symm
            omega
          have := ih a (d + 1) s j k1 hmd
          refine le_trans this ?_
          have h1 : (d + 1) + k1 ≤ d + K := by omega
          exact max_le (le_trans hs (le_refl _)) (le_trans h1 (Nat.le_max_right _ _))

theorem depthState_len (g : Graph) :
    (depthState g).node_rev_passes.length = g.nodes.length := by
  unfold depthState
  refine foldl_inv (P := fun (s : DepthState) => s.node_rev_passes.length = g.nodes.length)
    g.roots _ (by simp) ?_
  intro s a _ h
  show (assign_depth g.nodes.length g a 0 s).node_rev_passes.length = g.nodes.length
  rw [assign_depth_len]
  exact h

theorem depthState_le_maxd (g : Graph) (j : Nat) :
    (depthState g).node_rev_passes.getD j 0 ≤ (depthState g).max_depth := by
  unfold depthState
  refine foldl_inv
    (P := fun (s : DepthState) => ∀ j2, s.node_rev_passes.getD j2 0 ≤ s.max_depth)
    g.roots _ ?_ ?_ j
  · intro j2
    rw [listGetD_replicate]
    split <;> omega
  · intro s a _ hs
    exact assign_depth_le_maxd g.nodes.length g a 0 s hs

theorem depthState_lower (g : Graph) (hWF : g.WF) {r j k : Nat}
    (hr : r ∈ g.roots) (h : maxDistF g.nodes.length g r j = some k) :
    k ≤ (depthState g).node_rev_passes.getD j 0 := by
  unfold depthState
  refine foldl_elem g.roots r hr
    (P := fun (s : DepthState) => s.node_rev_passes.length = g.nodes.length)
    (Q := fun (s : DepthState) => k ≤ s.node_rev_passes.getD j 0)
    (fun s a _ hs => by
      show (assign_depth g.nodes.length g a 0 s).node_rev_passes.length = g.nodes.length
      rw [assign_depth_len]
      exact hs)
    ?_
    (fun s a _ hs => le_trans hs (assign_depth_rev_mono g.nodes.length g a 0 s j))
    _ (by simp)
  intro s hs
  have := assign_depth_lower g hWF g.nodes.length r 0 s j k (hWF.2.1 r hr) hs h
  omega

theorem depthState_upper (g : Graph) (hWF : g.WF) (j : Nat) :
    (depthState g).node_rev_passes.getD j 0 = 0 ∨
    ∃ r ∈ g.roots, ∃ k, maxDistF g.nodes.length g r j = some k ∧
      (depthState g).node_rev_passes.getD j 0 ≤ k := by
  unfold depthState
  refine foldl_inv
    (P := fun (s : DepthState) => s.node_rev_passes.getD j 0 = 0 ∨
      ∃ r ∈ g.roots, ∃ k, maxDistF g.nodes.length g r j = some k ∧
        s.node_rev_passes.getD j 0 ≤ k)
    g.roots _ ?_ ?_
  · left
    rw [listGetD_replicate]
    split <;> rfl
  · intro s a ha hs
    match hmd : maxDistF g.nodes.length g a j with
    | none =>
      rw [assign_depth_untouched g hWF g.nodes.length a 0 s j hmd]
      exact hs
    | some K =>
      have hup := assign_depth_upper g hWF g.nodes.length a 0 s j K hmd
      rcases Nat.le_total (s.node_rev_passes.getD j 0) K with hoK | hKo
      · right
        refine ⟨a, ha, K, hmd, ?_⟩
        have hmax : max (s.node_rev_passes.getD j 0) (0 + K) = 0 + K :=
          Nat.max_eq_right (by omega)
        rw [hmax] at hup
        omega
      · have hmax : max (s.node_rev_passes.getD j 0) (0 + K) = s.node_rev_passes.getD j 0 :=
          Nat.max_eq_left (by omega)
        rw [hmax] at hup
        have hmono := assign_depth_rev_mono g.nodes.length g a 0 s j
        have heq : (assign_depth g.nodes.length g a 0 s).node_rev_passes.getD j 0 =
            s.node_rev_passes.getD j 0 := le_antisymm hup hmono
        rw [heq]
        exact hs

/-- The key edge property of the final depth labelling: for a node y
    reachable from some root, each dependency x of y has strictly larger
    reverse depth. -/
theorem rev_edge (g : Graph) (hWF : g.WF) {y x : Nat}
    (hreach : ∃ r ∈ g.roots, Reach g r y) (hx : x ∈ g.depsOf y) :
    (depthState g).node_rev_passes.getD y 0 + 1 ≤
      (depthState g).node_rev_passes.getD x 0 := by
  obtain ⟨r, hr, hre⟩ := hreach
  have hrn : r < g.nodes.length := hWF.2.1 r hr
  have hsome := maxDistF_isSome_of_reach g hWF hre g.nodes.length (by omega)
  obtain ⟨k, hk⟩ := Option.isSome_iff_exists.mp hsome
  rcases depthState_upper g hWF y with h0 | ⟨r', hr', k1, hk1, hle⟩
  · obtain ⟨k', hk', hkk'⟩ := maxDistF_edge g hWF g.nodes.length r y x k (by omega) hk hx
    have := depthState_lower g hWF hr hk'
    omega
  · have hr'n : r' < g.nodes.length := hWF.2.1 r' hr'
    obtain ⟨k1', hk1', hkk1'⟩ := maxDistF_edge g hWF g.nodes.length r' y x k1 (by omega) hk1 hx
    have := depthState_lower g hWF hr' hk1'
    omega

/- ============================================================
   Properties of cull_nodes
   ============================================================ -/

theorem cullMark_succ (f : Nat) (g : Graph) (id : Nat) (act : List Bool) :
    cullMark (f + 1) g id act =
      if act.getD id false then act
      else (g.depsOf id).foldl (fun a dep => cullMark f g dep a) (act.set id true) := rfl

theorem cullMark_len : ∀ (fuel : Nat) (g : Graph) (id : Nat) (act : List Bool),
    (cullMark fuel g id act).length = act.length := by
  intro fuel
  induction fuel with
  | zero => intro g id act; rfl
  | succ f ih =>
    intro g id act
    rw [cullMark_succ]
    split
    · rfl
    · refine foldl_inv (P := fun (s : List Bool) => s.length = act.length)
        (g.depsOf id) _ (by simp) ?_
      intro s a _ h
      rw [ih g a s]
      exact h

theorem cullMark_mono : ∀ (fuel : Nat) (g : Graph) (id : Nat) (act : List Bool) (j : Nat),
    act.getD j false = true → (cullMark fuel g id act).getD j false = true := by
  intro fuel
  induction fuel with
  | zero => intro g id act j h; exact h
  | succ f ih =>
    intro g id act j h
    rw [cullMark_succ]
    split
    · exact h
    · refine foldl_inv (P := fun (s : List Bool) => s.getD j false = true)
        (g.depsOf id) _ ?_ ?_
      · show (act.set id true).getD j false = true
        by_cases hj : id = j
        · subst hj
          by_cases hlen : id < act.length
          · rw [listGetD_set_self _ _ _ _ hlen]
          · rw [List.set_eq_of_length_le (Nat.le_of_not_lt hlen)]
            exact h
        · rw [listGetD_set_ne _ _ _ _ _ hj]
          exact h
      · intro s a _ hs
        exact ih g a s j hs

theorem cullMark_above (g : Graph) (hWF : g.WF) :
    ∀ (fuel : Nat) (id : Nat) (act : List Bool) (x : Nat), id < x →
    (cullMark fuel g id act).getD x false = act.getD x false := by
  intro fuel
  induction fuel with
  | zero => intro id act x _; rfl
  | succ f ih =>
    intro id act x hx
    rw [cullMark_succ]
    split
    · rfl
    · refine foldl_inv (P := fun (s : List Bool) => s.getD x false = act.getD x false)
        (g.depsOf id) _ ?_ ?_
      · exact listGetD_set_ne _ _ _ _ _ (by omega)
      · intro s a ha hs
        have hax : a < x := by
          have := Graph.deps_lt g hWF ha
          omega
        rw [ih a s x hax]
        exact hs

theorem cullMark_sound (g : Graph) :
    ∀ (fuel : Nat) (id : Nat) (act : List Bool) (j : Nat),
    (cullMark fuel g id act).getD j false = true →
    act.getD j false = true ∨ Reach g id j := by
  intro fuel
  induction fuel with
  | zero => intro id act j h; exact Or.inl h
  | succ f ih =>
    intro id act j h
    rw [cullMark_succ] at h
    split at h
    · exact Or.inl h
    · have hres := foldl_inv
        (P := fun (s : List Bool) =>
          s.getD j false = true → act.getD j false = true ∨ Reach g id j)
        (g.depsOf id) (act.set id true) ?_ ?_ h
      · exact hres
      · intro hs
        by_cases hj : id = j
        · subst hj
          exact Or.inr (Reach.refl id)
        · rw [listGetD_set_ne _ _ _ _ _ hj] at hs
          exact Or.inl hs
      · intro s a ha hs hs'
        rcases ih a s j hs' with hold | hreach
        · exact hs hold
        · exact Or.inr (Reach.step ha hreach)

def ClosedBelow (g : Graph) (act : List Bool) (b : Nat) : Prop :=
  ∀ x, x ≤ b → act.getD x false = true → ∀ dep ∈ g.depsOf x, act.getD dep false = true

theorem closed_reach (g : Graph) (hWF : g.WF) {act : List Bool} {b : Nat}
    (hc : ClosedBelow g act b) :
    ∀ x j, Reach g x j → x ≤ b → act.getD x false = true → act.getD j false = true := by
  intro x j hr
  induction hr with
  | refl z => exact fun _ hx => hx
  | step hdep hr ih =>
    intro hxb hx
    rename_i x' dep j'
    have hdep_true := hc x' hxb hx dep hdep
    have hdlt : dep < x' := Graph.deps_lt g hWF hdep
    exact ih (by omega) hdep_true

theorem cullMark_main (g : Graph) (hWF : g.WF) :
    ∀ (fuel : Nat) (id : Nat) (act : List Bool), id + 1 ≤ fuel → id < g.nodes.length →
    act.length = g.nodes.length → ClosedBelow g act id →
    ClosedBelow g (cullMark fuel g id act) id ∧
    (∀ j, Reach g id j → (cullMark fuel g id act).getD j false = true) := by
  intro fuel
  induction fuel with
  | zero => intro id act hf; omega
  | succ f ih =>
    intro id act hfuel hid hlen hclosed
    rw [cullMark_succ]
    by_cases hact : act.getD id false = true
    · rw [if_pos hact]
      refine ⟨hclosed, ?_⟩
      intro j hr
      exact closed_reach g hWF hclosed id j hr (le_refl id) hact
    · rw [if_neg hact]
      have haux : ∀ (L : List Nat), (∀ dep ∈ L, dep < id) →
          ∀ s : List Bool, s.length = g.nodes.length →
          (∀ x, x < id → s.getD x false = true → ∀ dep ∈ g.depsOf x, s.getD dep false = true) →
          s.getD id false = true →
          ((L.foldl (fun a dep => cullMark f g dep a) s).length = g.nodes.length ∧
           (∀ x, x < id → (L.foldl (fun a dep => cullMark f g dep a) s).getD x false = true →
             ∀ dep ∈ g.depsOf x,
               (L.foldl (fun a dep => cullMark f g dep a) s).getD dep false = true) ∧
           (L.foldl (fun a dep => cullMark f g dep a) s).getD id false = true ∧
           (∀ j, s.getD j false = true →
             (L.foldl (fun a dep => cullMark f g dep a) s).getD j false = true) ∧
           (∀ dep ∈ L, ∀ j, Reach g dep j →
             (L.foldl (fun a dep => cullMark f g dep a) s).getD j false = true)) := by
        intro L
        induction L with
        | nil =>
          intro _ s hslen hsc hsid
          exact ⟨hslen, hsc, hsid, fun j h => h, by simp⟩
        | cons a L ihL =>
          intro hLlt s hslen hsc hsid
          have halt : a < id := hLlt a (by simp)
          have han : a < g.nodes.length := by omega
          have haf : a + 1 ≤ f := by omega
          have hsca : ClosedBelow g s a := by
            intro x hxa hx dep hdep
            exact hsc x (by omega) hx dep hdep
          obtain ⟨hclosed1, hcompl1⟩ := ih a s haf han hslen hsca
          have hlen1 : (cullMark f g a s).length = g.nodes.length := by
            rw [cullMark_len]; exact hslen
          have hmono1 : ∀ j, s.getD j false = true → (cullMark f g a s).getD j false = true :=
            fun j h => cullMark_mono f g a s j h
          have hsc1 : ∀ x, x < id → (cullMark f g a s).getD x false = true →
              ∀ dep ∈ g.depsOf x, (cullMark f g a s).getD dep false = true := by
            intro x hxid hx dep hdep
            by_cases hxa : x ≤ a
            · exact hclosed1 x hxa hx dep hdep
            · have hxa' : a < x := by omega
              rw [cullMark_above g hWF f a s x hxa'] at hx
              exact hmono1 dep (hsc x hxid hx dep hdep)
          have hsid1 : (cullMark f g a s).getD id false = true := by
            rw [cullMark_above g hWF f a s id halt]
            exact hsid
          obtain ⟨hl2, hc2, hi2, hm2, hr2⟩ := ihL (fun dep hdep => hLlt dep (by simp [hdep]))
            (cullMark f g a s) hlen1 hsc1 hsid1
          refine ⟨hl2, hc2, hi2, ?_, ?_⟩
          · intro j hj
            exact hm2 j (hmono1 j hj)
          · intro dep hdep j hr
            rcases List.mem_cons.mp hdep with heq | hmem
            · subst heq
              exact hm2 j (hcompl1 j hr)
            · exact hr2 dep hmem j hr
      have hdeps_lt : ∀ dep ∈ g.depsOf id, dep < id := fun dep hdep => Graph.deps_lt g hWF hdep
      have hlen1 : (act.set id true).length = g.nodes.length := by
        rw [List.length_set]; exact hlen
      have hsc1 : ∀ x, x < id → (act.set id true).getD x false = true →
          ∀ dep ∈ g.depsOf x, (act.set id true).getD dep false = true := by
        intro x hxid hx dep hdep
        rw [listGetD_set_ne _ _ _ _ _ (by omega)] at hx
        have hdx : dep < x := Graph.deps_lt g hWF hdep
        rw [listGetD_set_ne _ _ _ _ _ (by omega)]
        exact hclosed x (by omega) hx dep hdep
      have hsid1 : (act.set id true).getD id false = true :=
        listGetD_set_self _ _ _ _ (by rw [hlen]; exact hid)
      obtain ⟨hlenf, hcf, hif, hmf, hrf⟩ := haux (g.depsOf id) hdeps_lt (act.set id true)
        hlen1 hsc1 hsid1
      refine ⟨?_, ?_⟩
      · intro x hxid hx dep hdep
        rcases Nat.lt_or_ge x id with hlt | hge
        · exact hcf x hlt hx dep hdep
        · have hxeq : x = id := by omega
          subst hxeq
          exact hrf dep hdep dep (Reach.refl dep)
      · intro j hr
        cases hr with
        | refl => exact hif
        | step hdep hr2 => exact hrf _ hdep j hr2

theorem cull_nodes_len (g : Graph) : (cull_nodes g).length = g.nodes.length := by
  unfold cull_nodes
  refine foldl_inv (P := fun (s : List Bool) => s.length = g.nodes.length)
    g.roots _ (by simp) ?_
  intro s a _ h
  rw [cullMark_len]
  exact h

def FullClosed (g : Graph) (act : List Bool) : Prop :=
  ∀ x, act.getD x false = true → ∀ dep ∈ g.depsOf x, act.getD dep false = true

theorem cull_nodes_complete (g : Graph) (hWF : g.WF) {r j : Nat}
    (hr : r ∈ g.roots) (hreach : Reach g r j) :
    (cull_nodes g).getD j false = true := by
  unfold cull_nodes
  have hrn : r < g.nodes.length := hWF.2.1 r hr
  refine foldl_elem g.roots r hr
    (P := fun (s : List Bool) => s.length = g.nodes.length ∧ FullClosed g s)
    (Q := fun (s : List Bool) => s.getD j false = true)
    ?_ ?_ (fun s a _ hs => cullMark_mono g.nodes.length g a s j hs) _ ?_
  · intro s a ha ⟨hslen, hsfc⟩
    have han : a < g.nodes.length := hWF.2.1 a ha
    have hclosed : ClosedBelow g s a := fun x _ hx dep hdep => hsfc x hx dep hdep
    obtain ⟨hcb, _⟩ := cullMark_main g hWF g.nodes.length a s (by omega) han hslen hclosed
    refine ⟨by rw [cullMark_len]; exact hslen, ?_⟩
    intro x hx dep hdep
    by_cases hxa : x ≤ a
    · exact hcb x hxa hx dep hdep
    · have hax : a < x := by omega
      rw [cullMark_above g hWF g.nodes.length a s x hax] at hx
      exact cullMark_mono _ g a s dep (hsfc x hx dep hdep)
  · intro s ⟨hslen, hsfc⟩
    have hclosed : ClosedBelow g s r := fun x _ hx dep hdep => hsfc x hx dep hdep
    obtain ⟨_, hcompl⟩ := cullMark_main g hWF g.nodes.length r s (by omega) hrn hslen hclosed
    exact hcompl j hreach
  · constructor
    · simp
    · intro x hx
      rw [listGetD_replicate] at hx
      revert hx
      split <;> simp

theorem cull_nodes_sound (g : Graph) {j : Nat}
    (h : (cull_nodes g).getD j false = true) : ∃ r ∈ g.roots, Reach g r j := by
  unfold cull_nodes at h
  have := foldl_inv
    (P := fun (s : List Bool) => s.getD j false = true → ∃ r ∈ g.roots, Reach g r j)
    g.roots (List.replicate g.nodes.length false) ?_ ?_ h
  · exact this
  · intro hx
    rw [listGetD_replicate] at hx
    revert hx
    split <;> simp
  · intro s a ha hs hs'
    rcases cullMark_sound g g.nodes.length a s j hs' with hold | hreach
    · exact hs hold
    · exact ⟨a, ha, hreach⟩

/- ============================================================
   Characterization of create_passes
   ============================================================ -/

theorem Pass.dyn_setDyn_self (p : Pass) (k : TargetKind) (t : PassTarget) :
    (p.setDyn k t).dyn k = t := by
  cases k <;> rfl

theorem Pass.dyn_setDyn_other (p : Pass) (k k' : TargetKind) (t : PassTarget) (h : k ≠ k') :
    (p.setDyn k t).dyn k' = p.dyn k' := by
  cases k <;> cases k' <;> first | exact absurd rfl h | rfl

theorem Pass.fixed_setDyn (p : Pass) (k : TargetKind) (t : PassTarget) :
    (p.setDyn k t).fixed_targets = p.fixed_targets := by
  cases k <;> rfl

/-- The pass index create_passes assigns to node idx. -/
def passIdxOf (g : Graph) (idx : Nat) : Nat :=
  (depthState g).max_depth - (depthState g).node_rev_passes.getD idx 0

theorem passIdxOf_le (g : Graph) (idx : Nat) :
    passIdxOf g idx ≤ (depthState g).max_depth := by
  unfold passIdxOf
  omega

def cpPred (g : Graph) (active : List Bool) (i : Nat) (k : TargetKind) (idx : Nat) : Bool :=
  active.getD idx false && decide ((g.node idx).alloc_kind = AllocKind.Dynamic) &&
  decide ((g.node idx).target_kind = k) && decide (passIdxOf g idx = i)

/-- The dynamic-target task list of pass i / kind k after processing the
    first m node ids. -/
def dynTasksSpec (g : Graph) (active : List Bool) (m : Nat) (i : Nat) (k : TargetKind) :
    List GTask :=
  ((List.range m).filter (cpPred g active i k)).map (fun idx => (⟨idx, Rectangle.zero⟩ : GTask))

theorem dynTasksSpec_succ (g : Graph) (active : List Bool) (m : Nat) (i : Nat) (k : TargetKind) :
    dynTasksSpec g active (m + 1) i k =
      dynTasksSpec g active m i k ++
        (if cpPred g active i k m then [(⟨m, Rectangle.zero⟩ : GTask)] else []) := by
  unfold dynTasksSpec
  rw [List.range_succ, List.filter_append, List.map_append]
  congr 1
  by_cases h : cpPred g active i k m
  · simp [h]
  · simp [h]

theorem pushFixedTask_mem {fts : List PassTarget} {tex : Nat} {task t : GTask} {ft : PassTarget}
    (hft : ft ∈ pushFixedTask fts tex task) (ht : t ∈ ft.tasks) :
    (∃ ft' ∈ fts, t ∈ ft'.tasks) ∨ t = task := by
  induction fts with
  | nil =>
    simp [pushFixedTask] at hft
    subst hft
    simp at ht
    exact Or.inr ht
  | cons f0 rest ih =>
    unfold pushFixedTask at hft
    split at hft
    · rcases List.mem_cons.mp hft with heq | hmem
      · subst heq
        simp at ht
        rcases ht with h1 | h2
        · exact Or.inl ⟨f0, by simp, h1⟩
        · exact Or.inr h2
      · exact Or.inl ⟨ft, by simp [hmem], ht⟩
    · rcases List.mem_cons.mp hft with heq | hmem
      · subst heq
        exact Or.inl ⟨ft, by simp, ht⟩
      · rcases ih hmem with ⟨ft', hft', ht'⟩ | heq
        · exact Or.inl ⟨ft', by simp [hft'], ht'⟩
        · exact Or.inr heq

def CPInv (g : Graph) (active : List Bool) (m : Nat) (acc : List Pass × List (Option Nat)) :
    Prop :=
  acc.1.length = (depthState g).max_depth + 1 ∧
  (∀ i k, ((acc.1.getD i Pass.empty).dyn k).tasks = dynTasksSpec g active m i k) ∧
  (∀ i k, ((acc.1.getD i Pass.empty).dyn k).destination = none) ∧
  (∀ i ft t, ft ∈ (acc.1.getD i Pass.empty).fixed_targets → t ∈ ft.tasks →
    t.node < m ∧ active.getD t.node false = true ∧
    (∃ tex origin, (g.node t.node).alloc_kind = .Fixed tex origin ∧
      t.rectangle = fixedTaskRect origin (g.node t.node).size) ∧
    passIdxOf g t.node = i) ∧
  acc.2.length = g.nodes.length ∧
  (∀ x, x < m → active.getD x false = true → acc.2.getD x none = some (passIdxOf g x)) ∧
  (∀ x, m ≤ x ∨ active.getD x false = false → acc.2.getD x none = none)

theorem CPInv_init (g : Graph) (active : List Bool) :
    CPInv g active 0
      (List.replicate ((depthState g).max_depth + 1) Pass.empty,
       List.replicate g.nodes.length none) := by
  refine ⟨by simp, ?_, ?_, ?_, by simp, ?_, ?_⟩
  · intro i k
    have h1 : (List.replicate ((depthState g).max_depth + 1) Pass.empty).getD i Pass.empty =
        Pass.empty := by
      rw [listGetD_replicate]; split <;> rfl
    rw [h1]
    cases k <;> rfl
  · intro i k
    have h1 : (List.replicate ((depthState g).max_depth + 1) Pass.empty).getD i Pass.empty =
        Pass.empty := by
      rw [listGetD_replicate]; split <;> rfl
    rw [h1]
    cases k <;> rfl
  · intro i ft t hft _
    have h1 : (List.replicate ((depthState g).max_depth + 1) Pass.empty).getD i Pass.empty =
        Pass.empty := by
      rw [listGetD_replicate]; split <;> rfl
    rw [h1] at hft
    exact absurd hft (by simp [Pass.empty])
  · intro x hx
    omega
  · intro x _
    rw [listGetD_replicate]
    split <;> rfl

theorem createPassesStep_inactive (g : Graph) (active : List Bool) (maxd : Nat)
    (rev : List Nat) (acc : List Pass × List (Option Nat)) (idx : Nat)
    (h : active.getD idx false = false) :
    createPassesStep g active maxd rev acc idx = acc := by
  unfold createPassesStep
  rw [if_pos h]

theorem createPassesStep_dynamic (g : Graph) (active : List Bool) (maxd : Nat)
    (rev : List Nat) (acc : List Pass × List (Option Nat)) (idx : Nat)
    (hact : active.getD idx false = true) (halloc : (g.node idx).alloc_kind = .Dynamic) :
    createPassesStep g active maxd rev acc idx =
      (acc.1.set (maxd - rev.getD idx 0)
        ((acc.1.getD (maxd - rev.getD idx 0) Pass.empty).setDyn (g.node idx).target_kind
          ⟨((acc.1.getD (maxd - rev.getD idx 0) Pass.empty).dyn
              (g.node idx).target_kind).tasks ++ [⟨idx, Rectangle.zero⟩],
            ((acc.1.getD (maxd - rev.getD idx 0) Pass.empty).dyn
              (g.node idx).target_kind).destination⟩),
       acc.2.set idx (some (maxd - rev.getD idx 0))) := by
  unfold createPassesStep
  rw [if_neg (by rw [hact]; simp)]
  simp only [halloc]

theorem createPassesStep_fixed (g : Graph) (active : List Bool) (maxd : Nat)
    (rev : List Nat) (acc : List Pass × List (Option Nat)) (idx tex : Nat)
    (origin : DeviceIntPoint)
    (hact : active.getD idx false = true) (halloc : (g.node idx).alloc_kind = .Fixed tex origin) :
    createPassesStep g active maxd rev acc idx =
      (acc.1.set (maxd - rev.getD idx 0)
        { acc.1.getD (maxd - rev.getD idx 0) Pass.empty with
          fixed_targets := pushFixedTask
            (acc.1.getD (maxd - rev.getD idx 0) Pass.empty).fixed_targets tex
            ⟨idx, fixedTaskRect origin (g.node idx).size⟩ },
       acc.2.set idx (some (maxd - rev.getD idx 0))) := by
  unfold createPassesStep
  rw [if_neg (by rw [hact]; simp)]
  simp only [halloc]

theorem CPInv_step (g : Graph) (active : List Bool) (m : Nat)
    (acc : List Pass × List (Option Nat)) (hm : m < g.nodes.length)
    (hinv : CPInv g active m acc) :
    CPInv g active (m + 1)
      (createPassesStep g active (depthState g).max_depth (depthState g).node_rev_passes
        acc m) := by
  obtain ⟨hlen, htasks, hdest, hfixed, hnplen, hnp1, hnp2⟩ := hinv
  by_cases hact : active.getD m false = false
  · rw [createPassesStep_inactive g active _ _ acc m hact]
    refine ⟨hlen, ?_, hdest, ?_, hnplen, ?_, ?_⟩
    · intro i k
      rw [htasks i k, dynTasksSpec_succ]
      have hp : cpPred g active i k m = false := by
        unfold cpPred
        rw [hact]
        rfl
      rw [hp]
      simp
    · intro i ft t hft ht
      obtain ⟨h1, h2, h3, h4⟩ := hfixed i ft t hft ht
      exact ⟨by omega, h2, h3, h4⟩
    · intro x hx hactx
      have hxm : x < m := by
        rcases Nat.lt_or_ge x m with h | h
        · exact h
        · have : x = m := by omega
          subst this
          rw [hactx] at hact
          exact absurd hact (by simp)
      exact hnp1 x hxm hactx
    · intro x hx
      rcases hx with h | h
      · by_cases hxm : x = m
        · subst hxm
          exact hnp2 x (Or.inr hact)
        · exact hnp2 x (Or.inl (by omega))
      · exact hnp2 x (Or.inr h)
  · have hactT : active.getD m false = true := by
      revert hact
      cases active.getD m false <;> simp
    have hpidx : (depthState g).max_depth - (depthState g).node_rev_passes.getD m 0 =
        passIdxOf g m := rfl
    have hpidx_lt : passIdxOf g m < acc.1.length := by
      rw [hlen]
      have := passIdxOf_le g m
      omega
    cases halloc : (g.node m).alloc_kind with
    | Dynamic =>
      rw [createPassesStep_dynamic g active _ _ acc m hactT halloc]
      rw [hpidx]
      refine ⟨by rw [List.length_set]; exact hlen, ?_, ?_, ?_,
        by rw [List.length_set]; exact hnplen, ?_, ?_⟩
      · intro i k
        by_cases hi : passIdxOf g m = i
        · subst hi
          rw [listGetD_set_self _ _ _ _ hpidx_lt]
          by_cases hk : (g.node m).target_kind = k
          · subst hk
            rw [Pass.dyn_setDyn_self]
            show ((acc.1.getD (passIdxOf g m) Pass.empty).dyn (g.node m).target_kind).tasks ++
              [(⟨m, Rectangle.zero⟩ : GTask)] = _
            rw [htasks, dynTasksSpec_succ]
            have hp : cpPred g active (passIdxOf g m) (g.node m).target_kind m = true := by
              unfold cpPred
              rw [hactT]
              simp [halloc]
            rw [hp]
            simp
          · rw [Pass.dyn_setDyn_other _ _ _ _ hk]
            rw [htasks, dynTasksSpec_succ]
            have hp : cpPred g active (passIdxOf g m) k m = false := by
              unfold cpPred
              simp [hk]
            rw [hp]
            simp
        · rw [listGetD_set_ne _ _ _ _ _ hi]
          rw [htasks, dynTasksSpec_succ]
          have hp : cpPred g active i k m = false := by
            unfold cpPred
            simp [hi]
          rw [hp]
          simp
      · intro i k
        by_cases hi : passIdxOf g m = i
        · subst hi
          rw [listGetD_set_self _ _ _ _ hpidx_lt]
          by_cases hk : (g.node m).target_kind = k
          · subst hk
            rw [Pass.dyn_setDyn_self]
            exact hdest _ _
          · rw [Pass.dyn_setDyn_other _ _ _ _ hk]
            exact hdest _ _
        · rw [listGetD_set_ne _ _ _ _ _ hi]
          exact hdest _ _
      · intro i ft t hft ht
        by_cases hi : passIdxOf g m = i
        · subst hi
          rw [listGetD_set_self _ _ _ _ hpidx_lt] at hft
          rw [Pass.fixed_setDyn] at hft
          obtain ⟨h1, h2, h3, h4⟩ := hfixed _ ft t hft ht
          exact ⟨by omega, h2, h3, h4⟩
        · rw [listGetD_set_ne _ _ _ _ _ hi] at hft
          obtain ⟨h1, h2, h3, h4⟩ := hfixed _ ft t hft ht
          exact ⟨by omega, h2, h3, h4⟩
      · intro x hx hactx
        by_cases hxm : x = m
        · subst hxm
          rw [listGetD_set_self _ _ _ _ (by rw [hnplen]; exact hm)]
        · rw [listGetD_set_ne _ _ _ _ _ (fun h => hxm h.symm)]
          exact hnp1 x (by omega) hactx
      · intro x hx
        have hxm : x ≠ m := by
          intro heq
          subst heq
          rcases hx with h | h
          · omega
          · rw [h] at hactT; exact absurd hactT (by simp)
        rw [listGetD_set_ne _ _ _ _ _ (fun h => hxm h.symm)]
        refine hnp2 x ?_
        rcases hx with h | h
        · exact Or.inl (by omega)
        · exact Or.inr h
    | Fixed tex origin =>
      rw [createPassesStep_fixed g active _ _ acc m tex origin hactT halloc]
      rw [hpidx]
      refine ⟨by rw [List.length_set]; exact hlen, ?_, ?_, ?_,
        by rw [List.length_set]; exact hnplen, ?_, ?_⟩
      · intro i k
        by_cases hi : passIdxOf g m = i
        · subst hi
          rw [listGetD_set_self _ _ _ _ hpidx_lt]
          have hdyn : ({ acc.1.getD (passIdxOf g m) Pass.empty with
              fixed_targets := pushFixedTask
                (acc.1.getD (passIdxOf g m) Pass.empty).fixed_targets tex
                ⟨m, fixedTaskRect origin (g.node m).size⟩ } : Pass).dyn k =
              (acc.1.getD (passIdxOf g m) Pass.empty).dyn k := by
            cases k <;> rfl
          rw [hdyn, htasks, dynTasksSpec_succ]
          have hp : cpPred g active (passIdxOf g m) k m = false := by
            unfold cpPred
            simp [halloc]
          rw [hp]
          simp
        · rw [listGetD_set_ne _ _ _ _ _ hi]
          rw [htasks, dynTasksSpec_succ]
          have hp : cpPred g active i k m = false := by
            unfold cpPred
            simp [halloc]
          rw [hp]
          simp
      · intro i k
        by_cases hi : passIdxOf g m = i
        · subst hi
          rw [listGetD_set_self _ _ _ _ hpidx_lt]
          have hdyn : ({ acc.1.getD (passIdxOf g m) Pass.empty with
              fixed_targets := pushFixedTask
                (acc.1.getD (passIdxOf g m) Pass.empty).fixed_targets tex
                ⟨m, fixedTaskRect origin (g.node m).size⟩ } : Pass).dyn k =
              (acc.1.getD (passIdxOf g m) Pass.empty).dyn k := by
            cases k <;> rfl
          rw [hdyn]
          exact hdest _ _
        · rw [listGetD_set_ne _ _ _ _ _ hi]
          exact hdest _ _
      · intro i ft t hft ht
        by_cases hi : passIdxOf g m = i
        · subst hi
          rw [listGetD_set_self _ _ _ _ hpidx_lt] at hft
          have hft2 : ft ∈ pushFixedTask
              (acc.1.getD (passIdxOf g m) Pass.empty).fixed_targets tex
              ⟨m, fixedTaskRect origin (g.node m).size⟩ := hft
          rcases pushFixedTask_mem hft2 ht with ⟨ft2, hft2m, ht2⟩ | heq
          · obtain ⟨h1, h2, h3, h4⟩ := hfixed _ ft2 t hft2m ht2
            exact ⟨by omega, h2, h3, h4⟩
          · subst heq
            exact ⟨by show m < m + 1; omega, hactT, ⟨tex, origin, halloc, rfl⟩, rfl⟩
        · rw [listGetD_set_ne _ _ _ _ _ hi] at hft
          obtain ⟨h1, h2, h3, h4⟩ := hfixed _ ft t hft ht
          exact ⟨by omega, h2, h3, h4⟩
      · intro x hx hactx
        by_cases hxm : x = m
        · subst hxm
          rw [listGetD_set_self _ _ _ _ (by rw [hnplen]; exact hm)]
        · rw [listGetD_set_ne _ _ _ _ _ (fun h => hxm h.symm)]
          exact hnp1 x (by omega) hactx
      · intro x hx
        have hxm : x ≠ m := by
          intro heq
          subst heq
          rcases hx with h | h
          · omega
          · rw [h] at hactT; exact absurd hactT (by simp)
        rw [listGetD_set_ne _ _ _ _ _ (fun h => hxm h.symm)]
        refine hnp2 x ?_
        rcases hx with h | h
        · exact Or.inl (by omega)
        · exact Or.inr h

theorem create_passes_char (g : Graph) (active : List Bool) :
    CPInv g active g.nodes.length (create_passes g active) := by
  unfold create_passes
  have hloop : ∀ m, CPInv g active (min m g.nodes.length)
      ((List.range (min m g.nodes.length)).foldl
        (createPassesStep g active (depthState g).max_depth (depthState g).node_rev_passes)
        (List.replicate ((depthState g).max_depth + 1) Pass.empty,
         List.replicate g.nodes.length none)) := by
    intro m
    induction m with
    | zero => simpa using CPInv_init g active
    | succ m ih =>
      by_cases hm : m < g.nodes.length
      · have h1 : min (m + 1) g.nodes.length = (min m g.nodes.length) + 1 := by omega
        have h2 : min m g.nodes.length = m := by omega
        rw [h1, List.range_succ, List.foldl_append]
        simp only [List.foldl_cons, List.foldl_nil]
        rw [h2] at ih ⊢
        exact CPInv_step g active m _ hm ih
      · have h1 : min (m + 1) g.nodes.length = min m g.nodes.length := by omega
        rw [h1]
        exact ih
  have := hloop g.nodes.length
  simpa using this

/- ============================================================
   Slice helper lemmas (dependency-vector slices)
   ============================================================ -/

theorem list_getElem?_drop {α : Type _} : ∀ (l : List α) (s i : Nat), (l.drop s)[i]? = l[s + i]? := by
  intro l s
  induction s generalizing l with
  | zero => intro i; simp
  | succ s ih =>
    intro i
    cases l with
    | nil => simp
    | cons a l =>
      show (l.drop s)[i]? = (a :: l)[s + 1 + i]?
      have : s + 1 + i = (s + i) + 1 := by omega
      rw [this, List.getElem?_cons_succ]
      exact ih l i

theorem mem_range'_iff {s cnt loc : Nat} : loc ∈ List.range' s cnt ↔ s ≤ loc ∧ loc < s + cnt := by
  rw [List.mem_range']
  constructor
  · rintro ⟨i, hi, rfl⟩
    omega
  · intro ⟨h1, h2⟩
    exact ⟨loc - s, by omega, by omega⟩

theorem slice_length {α : Type _} (l : List α) (s e : Nat) (hs : s ≤ e) (he : e ≤ l.length) :
    ((l.take e).drop s).length = e - s := by
  rw [List.length_drop, List.length_take]
  omega

theorem slice_getElem? {α : Type _} (l : List α) (s e i : Nat) (hi : s + i < e) :
    ((l.take e).drop s)[i]? = l[s + i]? := by
  rw [list_getElem?_drop, List.getElem?_take_of_lt hi]

theorem slice_getD_mem (l : List Nat) (s e loc : Nat) (h1 : s ≤ loc) (h2 : loc < e)
    (h3 : e ≤ l.length) : l.getD loc 0 ∈ (l.take e).drop s := by
  rw [List.mem_iff_getElem?]
  refine ⟨loc - s, ?_⟩
  have : s + (loc - s) = loc := by omega
  rw [slice_getElem? l s e (loc - s) (by omega), this]
  rw [List.getD_eq_getElem?_getD]
  have hlt : loc < l.length := by omega
  rw [List.getElem?_eq_getElem hlt]
  rfl

theorem slice_mem_getD {l : List Nat} {s e : Nat} {x : Nat} (he : e ≤ l.length)
    (hx : x ∈ (l.take e).drop s) : ∃ loc, s ≤ loc ∧ loc < e ∧ l.getD loc 0 = x := by
  rw [List.mem_iff_getElem?] at hx
  obtain ⟨i, hi⟩ := hx
  have hie : s + i < e := by
    by_contra hc
    rw [list_getElem?_drop] at hi
    rw [List.getElem?_take] at hi
    rw [if_neg (by omega)] at hi
    exact absurd hi (by simp)
  refine ⟨s + i, by omega, hie, ?_⟩
  rw [slice_getElem? l s e i hie] at hi
  rw [List.getD_eq_getElem?_getD, hi]
  rfl

theorem slice_set_outside {α : Type _} (l : List α) (i : Nat) (v : α) (s e : Nat)
    (h : i < s ∨ e ≤ i) : ((l.set i v).take e).drop s = (l.take e).drop s := by
  apply List.ext_getElem?
  intro j
  by_cases hj : s + j < e
  · rw [slice_getElem? _ s e j hj, slice_getElem? l s e j hj]
    rw [List.getElem?_set_ne (by omega)]
  · rw [list_getElem?_drop, list_getElem?_drop]
    rw [List.getElem?_take, List.getElem?_take]
    rw [if_neg (by omega), if_neg (by omega)]

theorem slice_append_left {α : Type _} (l l2 : List α) (s e : Nat) (he : e ≤ l.length) :
    (((l ++ l2).take e).drop s) = (l.take e).drop s := by
  rw [List.take_append_of_le_length he]

theorem slice_concat_self {α : Type _} [Inhabited α] (l : List α) (x : α) :
    (((l ++ [x]).take (l.length + 1)).drop l.length) = [x] := by
  apply List.ext_getElem?
  intro j
  rw [list_getElem?_drop]
  cases j with
  | zero =>
    rw [List.getElem?_take_of_lt (by omega)]
    rw [Nat.add_zero, List.getElem?_concat_length]
    rfl
  | succ j =>
    rw [List.getElem?_take]
    rw [if_neg (by omega)]
    simp

/- ============================================================
   Graph access bridges and dependency-slice facts
   ============================================================ -/

theorem listGetD_eq_getElem {α : Type _} (l : List α) (i : Nat) (d : α) (h : i < l.length) :
    l.getD i d = l[i] := by
  rw [List.getD_eq_getElem?_getD, List.getElem?_eq_getElem h]
  rfl

theorem listGetD_append_left {α : Type _} (l l2 : List α) (i : Nat) (d : α) (h : i < l.length) :
    (l ++ l2).getD i d = l.getD i d := by
  rw [List.getD_eq_getElem?_getD, List.getD_eq_getElem?_getD, List.getElem?_append_left h]

theorem listGetD_concat_self {α : Type _} (l : List α) (x : α) (d : α) :
    (l ++ [x]).getD l.length d = x := by
  rw [List.getD_eq_getElem?_getD, List.getElem?_concat_length]
  rfl

theorem listGetD_oob {α : Type _} (l : List α) (i : Nat) (d : α) (h : l.length ≤ i) :
    l.getD i d = d := by
  rw [List.getD_eq_getElem?_getD, List.getElem?_eq_none h]
  rfl

theorem Graph.node_congr {g1 g2 : Graph} (i : Nat) (h : g1.nodes[i]? = g2.nodes[i]?) :
    g1.node i = g2.node i := by
  unfold Graph.node
  rw [List.getD_eq_getElem?_getD, List.getD_eq_getElem?_getD, h]

theorem Graph.node_oob (g : Graph) (i : Nat) (h : g.nodes.length ≤ i) :
    g.node i = default := listGetD_oob _ _ _ h

theorem mem_depLocs_iff (g : Graph) {y loc : Nat}
    (hse : (g.node y).deps_start ≤ (g.node y).deps_end) :
    loc ∈ g.depLocs y ↔ (g.node y).deps_start ≤ loc ∧ loc < (g.node y).deps_end := by
  unfold Graph.depLocs
  rw [mem_range'_iff]
  omega

theorem depLocs_lt (g : Graph) (hWF : g.WF) {y loc : Nat} (hy : y < g.nodes.length)
    (hloc : loc ∈ g.depLocs y) : loc < g.dependencies.length := by
  obtain ⟨hse, he, _⟩ := hWF.1 y hy
  rw [mem_depLocs_iff g hse] at hloc
  omega

theorem depLocs_oob (g : Graph) {y : Nat} (hy : g.nodes.length ≤ y) : g.depLocs y = [] := by
  unfold Graph.depLocs
  rw [Graph.node_oob g y hy]
  rfl

theorem depLocs_disjoint (g : Graph) (hWF : g.WF) {y y' loc : Nat}
    (hy : y < g.nodes.length) (hne : y ≠ y') (hloc : loc ∈ g.depLocs y) :
    loc ∉ g.depLocs y' := by
  by_cases hy' : y' < g.nodes.length
  · obtain ⟨hse, _, _⟩ := hWF.1 y hy
    obtain ⟨hse', _, _⟩ := hWF.1 y' hy'
    rw [mem_depLocs_iff g hse] at hloc
    rw [mem_depLocs_iff g hse']
    rcases Nat.lt_or_ge y y' with hlt | hge
    · have := hWF.2.2 y' hy' y hlt
      omega
    · have hlt : y' < y := by omega
      have := hWF.2.2 y hy y' hlt
      omega
  · rw [depLocs_oob g (by omega)]
    exact List.not_mem_nil loc

theorem Graph.depsOf_getD_mem (g : Graph) {y loc : Nat}
    (he : (g.node y).deps_end ≤ g.dependencies.length)
    (hloc : loc ∈ g.depLocs y) : g.dependencies.getD loc 0 ∈ g.depsOf y := by
  unfold Graph.depLocs at hloc
  rw [mem_range'_iff] at hloc
  exact slice_getD_mem g.dependencies _ _ loc hloc.1 (by omega) he

theorem Graph.mem_depsOf_loc (g : Graph) {y x : Nat}
    (he : (g.node y).deps_end ≤ g.dependencies.length)
    (hx : x ∈ g.depsOf y) : ∃ loc, loc ∈ g.depLocs y ∧ g.dependencies.getD loc 0 = x := by
  obtain ⟨loc, h1, h2, h3⟩ := slice_mem_getD he hx
  refine ⟨loc, ?_, h3⟩
  unfold Graph.depLocs
  rw [mem_range'_iff]
  omega

/- ============================================================
   cpPred and dynTasksSpec membership facts
   ============================================================ -/

theorem cpPred_spec {g : Graph} {active : List Bool} {i : Nat} {k : TargetKind} {idx : Nat} :
    cpPred g active i k idx = true ↔
      active.getD idx false = true ∧ (g.node idx).alloc_kind = AllocKind.Dynamic ∧
      (g.node idx).target_kind = k ∧ passIdxOf g idx = i := by
  unfold cpPred
  simp [Bool.and_eq_true, and_assoc]

theorem dynTasksSpec_mem {g : Graph} {active : List Bool} {m i : Nat} {k : TargetKind}
    {t : GTask} :
    t ∈ dynTasksSpec g active m i k ↔
      ∃ idx, idx < m ∧ cpPred g active i k idx = true ∧ t = ⟨idx, Rectangle.zero⟩ := by
  unfold dynTasksSpec
  simp only [List.mem_map, List.mem_filter, List.mem_range]
  constructor
  · rintro ⟨idx, ⟨h1, h2⟩, h3⟩
    exact ⟨idx, h1, h2, h3.symm⟩
  · rintro ⟨idx, h1, h2, h3⟩
    exact ⟨idx, ⟨h1, h2⟩, h3.symm⟩

theorem dynTasksSpec_node_lt {g : Graph} {active : List Bool} {m i : Nat} {k : TargetKind}
    {t : GTask} (ht : t ∈ dynTasksSpec g active m i k) : t.node < m := by
  obtain ⟨idx, h1, _, h3⟩ := dynTasksSpec_mem.mp ht
  rw [h3]
  exact h1

theorem dynTasksSpec_nodes {g : Graph} {active : List Bool} {m i : Nat} {k : TargetKind} :
    (dynTasksSpec g active m i k).map GTask.node = (List.range m).filter (cpPred g active i k) := by
  unfold dynTasksSpec
  rw [List.map_map]
  exact List.map_id ((List.range m).filter (cpPred g active i k))

theorem dynTasksSpec_node_inj {g : Graph} {active : List Bool} {m i : Nat} {k : TargetKind}
    {n1 n2 : Nat} (h1 : n1 < (dynTasksSpec g active m i k).length)
    (h2 : n2 < (dynTasksSpec g active m i k).length)
    (h : ((dynTasksSpec g active m i k)[n1]).node = ((dynTasksSpec g active m i k)[n2]).node) :
    n1 = n2 := by
  have hnodup : ((dynTasksSpec g active m i k).map GTask.node).Nodup := by
    rw [dynTasksSpec_nodes]
    exact (List.nodup_range m).filter _
  have h1' : n1 < ((dynTasksSpec g active m i k).map GTask.node).length := by
    simpa using h1
  have h2' : n2 < ((dynTasksSpec g active m i k).map GTask.node).length := by
    simpa using h2
  have hm : ((dynTasksSpec g active m i k).map GTask.node)[n1] =
      ((dynTasksSpec g active m i k).map GTask.node)[n2] := by
    rw [List.getElem_map, List.getElem_map]
    exact h
  exact (List.Nodup.getElem_inj_iff hnodup).mp hm

/- ============================================================
   Fixed-target completeness of create_passes
   ============================================================ -/

theorem pushFixedTask_preserves {fts : List PassTarget} {tex : Nat} {task t : GTask}
    {ft : PassTarget} (hft : ft ∈ fts) (ht : t ∈ ft.tasks) :
    ∃ ft' ∈ pushFixedTask fts tex task, t ∈ ft'.tasks := by
  induction fts with
  | nil => exact absurd hft (List.not_mem_nil ft)
  | cons f0 rest ih =>
    unfold pushFixedTask
    split
    · rcases List.mem_cons.mp hft with rfl | hmem
      · exact ⟨{ ft with tasks := ft.tasks ++ [task] }, by simp, by simp [ht]⟩
      · exact ⟨ft, by simp [hmem], ht⟩
    · rcases List.mem_cons.mp hft with rfl | hmem
      · exact ⟨ft, by simp, ht⟩
      · obtain ⟨ft', hft', ht'⟩ := ih hmem
        exact ⟨ft', by simp [hft'], ht'⟩

theorem pushFixedTask_adds (fts : List PassTarget) (tex : Nat) (task : GTask) :
    ∃ ft ∈ pushFixedTask fts tex task, task ∈ ft.tasks := by
  induction fts with
  | nil => exact ⟨⟨[task], some tex⟩, by simp [pushFixedTask], by simp⟩
  | cons f0 rest ih =>
    unfold pushFixedTask
    split
    · exact ⟨{ f0 with tasks := f0.tasks ++ [task] }, by simp, by simp⟩
    · obtain ⟨ft, hft, ht⟩ := ih
      exact ⟨ft, by simp [hft], ht⟩

theorem createPassesStep_len (g : Graph) (active : List Bool) (maxd : Nat) (rev : List Nat)
    (acc : List Pass × List (Option Nat)) (idx : Nat) :
    (createPassesStep g active maxd rev acc idx).1.length = acc.1.length := by
  by_cases hact : active.getD idx false = false
  · rw [createPassesStep_inactive g active maxd rev acc idx hact]
  · have hact' : active.getD idx false = true := by
      revert hact
      cases active.getD idx false <;> simp
    match halloc : (g.node idx).alloc_kind with
    | AllocKind.Dynamic =>
      rw [createPassesStep_dynamic g active maxd rev acc idx hact' halloc]
      simp
    | AllocKind.Fixed t o =>
      rw [createPassesStep_fixed g active maxd rev acc idx t o hact' halloc]
      simp

def cpFixedComplete (g : Graph) (active : List Bool) (m : Nat)
    (acc : List Pass × List (Option Nat)) : Prop :=
  ∀ x, x < m → active.getD x false = true → ∀ tex origin,
    (g.node x).alloc_kind = AllocKind.Fixed tex origin →
    ∃ ft ∈ (acc.1.getD (passIdxOf g x) Pass.empty).fixed_targets, ∃ t ∈ ft.tasks, t.node = x

theorem cpFixedComplete_step (g : Graph) (active : List Bool) (m : Nat)
    (acc : List Pass × List (Option Nat))
    (hlen : acc.1.length = (depthState g).max_depth + 1)
    (hinv : cpFixedComplete g active m acc) :
    cpFixedComplete g active (m + 1)
      (createPassesStep g active (depthState g).max_depth (depthState g).node_rev_passes
        acc m) := by
  have hpi : ∀ z : Nat, passIdxOf g z < acc.1.length := by
    intro z
    have := passIdxOf_le g z
    omega
  by_cases hact : active.getD m false = false
  · rw [createPassesStep_inactive g active _ _ acc m hact]
    intro x hx hxact tex origin hxk
    have hxm : x < m := by
      rcases Nat.lt_or_ge x m with h | h
      · exact h
      · have : x = m := by omega
        rw [this] at hxact
        rw [hxact] at hact
        exact absurd hact (by simp)
    exact hinv x hxm hxact tex origin hxk
  · have hact' : active.getD m false = true := by
      revert hact
      cases active.getD m false <;> simp
    match halloc : (g.node m).alloc_kind with
    | AllocKind.Dynamic =>
      rw [createPassesStep_dynamic g active _ _ acc m hact' halloc]
      intro x hx hxact tex origin hxk
      have hxm : x < m := by
        rcases Nat.lt_or_ge x m with h | h
        · exact h
        · have : x = m := by omega
          rw [this, halloc] at hxk
          exact absurd hxk (by simp)
      obtain ⟨ft, hft, ht⟩ := hinv x hxm hxact tex origin hxk
      by_cases hpeq : passIdxOf g x =
          (depthState g).max_depth - (depthState g).node_rev_passes.getD m 0
      · refine ⟨ft, ?_, ht⟩
        rw [hpeq, listGetD_set_self _ _ _ _ (hpeq ▸ hpi x)]
        rw [Pass.fixed_setDyn]
        rw [hpeq] at hft
        exact hft
      · refine ⟨ft, ?_, ht⟩
        rw [listGetD_set_ne _ _ _ _ _ (by intro hc; exact hpeq hc.symm)]
        exact hft
    | AllocKind.Fixed ftex forigin =>
      rw [createPassesStep_fixed g active _ _ acc m ftex forigin hact' halloc]
      intro x hx hxact tex origin hxk
      rcases Nat.lt_or_ge x m with hxm | hxm
      · obtain ⟨ft, hft, ht⟩ := hinv x hxm hxact tex origin hxk
        obtain ⟨t, hti, htn⟩ := ht
        by_cases hpeq : passIdxOf g x =
            (depthState g).max_depth - (depthState g).node_rev_passes.getD m 0
        · rw [hpeq, listGetD_set_self _ _ _ _ (hpeq ▸ hpi x)]
          show ∃ ft' ∈ pushFixedTask _ ftex _, ∃ t ∈ ft'.tasks, t.node = x
          rw [hpeq] at hft
          obtain ⟨ft', hft', ht'⟩ := pushFixedTask_preserves hft hti
          exact ⟨ft', hft', ⟨_, ht', htn⟩⟩
        · rw [listGetD_set_ne _ _ _ _ _ (by intro hc; exact hpeq hc.symm)]
          exact ⟨ft, hft, ⟨_, hti, htn⟩⟩
      · have hxeq : x = m := by omega
        subst hxeq
        have hpx : (depthState g).max_depth - (depthState g).node_rev_passes.getD x 0 =
            passIdxOf g x := rfl
        rw [hpx, listGetD_set_self _ _ _ _ (hpi x)]
        show ∃ ft' ∈ pushFixedTask _ ftex _, ∃ t ∈ ft'.tasks, t.node = x
        obtain ⟨ft', hft', ht'⟩ := pushFixedTask_adds
          (acc.1.getD (passIdxOf g x) Pass.empty).fixed_targets ftex
          ⟨x, fixedTaskRect forigin (g.node x).size⟩
        exact ⟨ft', hft', ⟨_, ht', rfl⟩⟩

theorem create_passes_fixed_complete (g : Graph) (active : List Bool) :
    cpFixedComplete g active g.nodes.length (create_passes g active) := by
  unfold create_passes
  have hloop : ∀ m, (((List.range (min m g.nodes.length)).foldl
        (createPassesStep g active (depthState g).max_depth (depthState g).node_rev_passes)
        (List.replicate ((depthState g).max_depth + 1) Pass.empty,
         List.replicate g.nodes.length none)).1.length = (depthState g).max_depth + 1) ∧
      cpFixedComplete g active (min m g.nodes.length)
      ((List.range (min m g.nodes.length)).foldl
        (createPassesStep g active (depthState g).max_depth (depthState g).node_rev_passes)
        (List.replicate ((depthState g).max_depth + 1) Pass.empty,
         List.replicate g.nodes.length none)) := by
    intro m
    induction m with
    | zero =>
      refine ⟨by simp, ?_⟩
      intro x hx
      simp at hx
    | succ m ih =>
      by_cases hm : m < g.nodes.length
      · have h1 : min (m + 1) g.nodes.length = (min m g.nodes.length) + 1 := by omega
        have h2 : min m g.nodes.length = m := by omega
        rw [h1, List.range_succ, List.foldl_append]
        simp only [List.foldl_cons, List.foldl_nil]
        rw [h2] at ih ⊢
        have hstep := cpFixedComplete_step g active m _ ih.1 ih.2
        refine ⟨?_, hstep⟩
        rw [createPassesStep_len]
        exact ih.1
      · have h1 : min (m + 1) g.nodes.length = min m g.nodes.length := by omega
        rw [h1]
        exact ih
  have := (hloop g.nodes.length).2
  simpa using this

/- ============================================================
   Task membership in the create_passes output
   ============================================================ -/

theorem cp_dyn_mem (g : Graph) (active : List Bool) {p : Nat} {k : TargetKind} {t : GTask}
    (ht : t ∈ (((create_passes g active).1.getD p Pass.empty).dyn k).tasks) :
    t.node < g.nodes.length ∧ active.getD t.node false = true ∧
    (g.node t.node).alloc_kind = AllocKind.Dynamic ∧ (g.node t.node).target_kind = k ∧
    passIdxOf g t.node = p ∧ t = ⟨t.node, Rectangle.zero⟩ := by
  have hchar := create_passes_char g active
  rw [hchar.2.1 p k] at ht
  obtain ⟨idx, h1, h2, h3⟩ := dynTasksSpec_mem.mp ht
  obtain ⟨ha, hd, hk, hp⟩ := cpPred_spec.mp h2
  have hnode : t.node = idx := by rw [h3]
  rw [hnode]
  refine ⟨h1, ha, hd, hk, hp, ?_⟩
  rw [h3]

theorem cp_fixed_mem (g : Graph) (active : List Bool) {p : Nat} {ft : PassTarget} {t : GTask}
    (hft : ft ∈ ((create_passes g active).1.getD p Pass.empty).fixed_targets)
    (ht : t ∈ ft.tasks) :
    t.node < g.nodes.length ∧ active.getD t.node false = true ∧
    (∃ tex origin, (g.node t.node).alloc_kind = AllocKind.Fixed tex origin) ∧
    passIdxOf g t.node = p := by
  have hchar := create_passes_char g active
  obtain ⟨h1, h2, h3, h4⟩ := hchar.2.2.2.1 p ft t hft ht
  exact ⟨h1, h2, ⟨h3.choose, h3.choose_spec.choose, h3.choose_spec.choose_spec.1⟩, h4⟩

theorem TaskIn_cp_sound (g : Graph) (active : List Bool) {p x : Nat}
    (h : TaskIn (create_passes g active).1 p x) :
    x < g.nodes.length ∧ active.getD x false = true ∧ passIdxOf g x = p := by
  rcases h with ⟨t, ht, htn⟩ | ⟨t, ht, htn⟩ | ⟨ft, hft, t, ht, htn⟩
  · obtain ⟨h1, h2, _, _, h5, _⟩ := cp_dyn_mem g active ht
    rw [htn] at h1 h2 h5
    exact ⟨h1, h2, h5⟩
  · obtain ⟨h1, h2, _, _, h5, _⟩ := cp_dyn_mem g active ht
    rw [htn] at h1 h2 h5
    exact ⟨h1, h2, h5⟩
  · obtain ⟨h1, h2, _, h4⟩ := cp_fixed_mem g active hft ht
    rw [htn] at h1 h2 h4
    exact ⟨h1, h2, h4⟩

theorem TaskIn_cp_complete (g : Graph) (active : List Bool) {x : Nat}
    (hx : x < g.nodes.length) (hact : active.getD x false = true) :
    TaskIn (create_passes g active).1 (passIdxOf g x) x := by
  have hchar := create_passes_char g active
  match halloc : (g.node x).alloc_kind with
  | AllocKind.Dynamic =>
    match hk : (g.node x).target_kind with
    | TargetKind.Color =>
      refine Or.inl ⟨⟨x, Rectangle.zero⟩, ?_, rfl⟩
      rw [hchar.2.1 (passIdxOf g x) TargetKind.Color]
      exact dynTasksSpec_mem.mpr ⟨x, hx, cpPred_spec.mpr ⟨hact, halloc, hk, rfl⟩, rfl⟩
    | TargetKind.Alpha =>
      refine Or.inr (Or.inl ⟨⟨x, Rectangle.zero⟩, ?_, rfl⟩)
      rw [hchar.2.1 (passIdxOf g x) TargetKind.Alpha]
      exact dynTasksSpec_mem.mpr ⟨x, hx, cpPred_spec.mpr ⟨hact, halloc, hk, rfl⟩, rfl⟩
  | AllocKind.Fixed tex origin =>
    obtain ⟨ft, hft, t, ht, htn⟩ :=
      create_passes_fixed_complete g active x hx hact tex origin halloc
    exact Or.inr (Or.inr ⟨ft, hft, t, ht, htn⟩)

/- ============================================================
   Context for the target-assignment invariants: the graph, its
   activity map (culling), the create_passes output and the
   texture-naming function, with the facts proved so far.
   ============================================================ -/

structure PPCtx where
  g : Graph
  active : List Bool
  np : List (Option Nat)
  tex : TargetKind → Nat → Nat
  passes0 : List Pass
  hWF : g.WF
  hact : ∀ x, active.getD x false = true ↔ ∃ r ∈ g.roots, Reach g r x
  hcp : (passes0, np) = create_passes g active
  htex : ∀ k k' i i', i < 2 → i' < 2 → tex k i = tex k' i' → k = k' ∧ i = i'

theorem PPCtx.htasks0 (C : PPCtx) (i : Nat) (k : TargetKind) :
    ((C.passes0.getD i Pass.empty).dyn k).tasks =
      dynTasksSpec C.g C.active C.g.nodes.length i k := by
  have hchar := create_passes_char C.g C.active
  rw [← C.hcp] at hchar
  exact hchar.2.1 i k

theorem PPCtx.hdest0 (C : PPCtx) (i : Nat) (k : TargetKind) :
    ((C.passes0.getD i Pass.empty).dyn k).destination = none := by
  have hchar := create_passes_char C.g C.active
  rw [← C.hcp] at hchar
  exact hchar.2.2.1 i k

theorem PPCtx.hplen0 (C : PPCtx) : C.passes0.length = (depthState C.g).max_depth + 1 := by
  have hchar := create_passes_char C.g C.active
  rw [← C.hcp] at hchar
  exact hchar.1

theorem PPCtx.hnp1 (C : PPCtx) {x : Nat} (hx : x < C.g.nodes.length)
    (hact : C.active.getD x false = true) : C.np.getD x none = some (passIdxOf C.g x) := by
  have hchar := create_passes_char C.g C.active
  rw [← C.hcp] at hchar
  exact hchar.2.2.2.2.2.1 x hx hact

theorem PPCtx.active_lt (C : PPCtx) {x : Nat} (hx : C.active.getD x false = true) :
    x < C.g.nodes.length := by
  obtain ⟨r, hr, hre⟩ := (C.hact x).mp hx
  have h1 : x ≤ r := Reach_le C.g C.hWF hre
  have h2 : r < C.g.nodes.length := C.hWF.2.1 r hr
  omega

theorem PPCtx.activeClosed (C : PPCtx) {y d : Nat} (hy : C.active.getD y false = true)
    (hd : d ∈ C.g.depsOf y) : C.active.getD d false = true := by
  obtain ⟨r, hr, hre⟩ := (C.hact y).mp hy
  exact (C.hact d).mpr ⟨r, hr, Reach_snoc C.g hre hd⟩

theorem PPCtx.edge_lt (C : PPCtx) {y x : Nat} (hy : C.active.getD y false = true)
    (hx : x ∈ C.g.depsOf y) : passIdxOf C.g x < passIdxOf C.g y ∧ 1 ≤ passIdxOf C.g y := by
  have hre := (C.hact y).mp hy
  have hedge := rev_edge C.g C.hWF hre hx
  have hux : (depthState C.g).node_rev_passes.getD x 0 ≤ (depthState C.g).max_depth :=
    depthState_le_maxd C.g x
  have huy : (depthState C.g).node_rev_passes.getD y 0 ≤ (depthState C.g).max_depth :=
    depthState_le_maxd C.g y
  unfold passIdxOf
  omega

theorem PPCtx.passIdx_lt (C : PPCtx) (x : Nat) : passIdxOf C.g x < C.passes0.length := by
  rw [C.hplen0]
  have := passIdxOf_le C.g x
  omega

theorem PPCtx.tasks0_mem (C : PPCtx) {p : Nat} {k : TargetKind} {t : GTask}
    (ht : t ∈ ((C.passes0.getD p Pass.empty).dyn k).tasks) :
    t.node < C.g.nodes.length ∧ C.active.getD t.node false = true ∧
    (C.g.node t.node).alloc_kind = AllocKind.Dynamic ∧ (C.g.node t.node).target_kind = k ∧
    passIdxOf C.g t.node = p ∧ t = ⟨t.node, Rectangle.zero⟩ := by
  have h := ht
  rw [show C.passes0 = (create_passes C.g C.active).1 from congrArg Prod.fst C.hcp] at h
  exact cp_dyn_mem C.g C.active h

/- ============================================================
   Destination bookkeeping for the ping-pong strategy: the
   passes whose dynamic target of kind k has received a
   destination, in increasing order, with alternating parity.
   ============================================================ -/

theorem pairwise_lt_getElem {ds : List Nat} (h : List.Pairwise (· < ·) ds) {i j x y : Nat}
    (hij : i < j) (hx : ds[i]? = some x) (hy : ds[j]? = some y) : x < y := by
  obtain ⟨hil, hie⟩ := List.getElem?_eq_some.mp hx
  obtain ⟨hjl, hje⟩ := List.getElem?_eq_some.mp hy
  have hmono := List.pairwise_iff_get.mp h ⟨i, hil⟩ ⟨j, hjl⟩ hij
  have hgx : ds.get ⟨i, hil⟩ = x := hie
  have hgy : ds.get ⟨j, hjl⟩ = y := hje
  rw [hgx, hgy] at hmono
  exact hmono

theorem mem_index_of_mem {ds : List Nat} {a : Nat} (h : a ∈ ds) :
    ∃ j : Nat, ds[j]? = some a := by
  obtain ⟨i, hi, he⟩ := List.mem_iff_getElem.mp h
  exact ⟨i, by rw [List.getElem?_eq_getElem hi, he]⟩

def DestsInv (tex : TargetKind → Nat → Nat) (passes : List Pass) (k : TargetKind)
    (c : Nat) (P : Nat) : Prop :=
  ∃ ds : List Nat, ds.length = c ∧ List.Pairwise (· < ·) ds ∧ (∀ x ∈ ds, x < P) ∧
    (∀ j x, ds[j]? = some x →
      ((passes.getD x Pass.empty).dyn k).destination = some (tex k (j % 2))) ∧
    (∀ i, i ∉ ds → ((passes.getD i Pass.empty).dyn k).destination = none)

theorem DestsInv_weaken {tex : TargetKind → Nat → Nat} {passes : List Pass} {k : TargetKind}
    {c P P' : Nat} (h : P ≤ P') (D : DestsInv tex passes k c P) :
    DestsInv tex passes k c P' := by
  obtain ⟨ds, h1, h2, h3, h4, h5⟩ := D
  exact ⟨ds, h1, h2, fun x hx => lt_of_lt_of_le (h3 x hx) h, h4, h5⟩

theorem DestsInv_congr {tex : TargetKind → Nat → Nat} {passes passes' : List Pass}
    {k : TargetKind} {c P : Nat}
    (h : ∀ i, ((passes'.getD i Pass.empty).dyn k).destination =
      ((passes.getD i Pass.empty).dyn k).destination)
    (D : DestsInv tex passes k c P) : DestsInv tex passes' k c P := by
  obtain ⟨ds, h1, h2, h3, h4, h5⟩ := D
  refine ⟨ds, h1, h2, h3, ?_, ?_⟩
  · intro j x hx
    rw [h]
    exact h4 j x hx
  · intro i hi
    rw [h]
    exact h5 i hi

theorem DestsInv_lookup {tex : TargetKind → Nat → Nat} {passes : List Pass} {k : TargetKind}
    {c P : Nat} (D : DestsInv tex passes k c P) {q v : Nat}
    (hq : ((passes.getD q Pass.empty).dyn k).destination = some v) :
    ∃ j, j < c ∧ v = tex k (j % 2) ∧ q < P := by
  obtain ⟨ds, h1, _, h3, h4, h5⟩ := D
  have hqm : q ∈ ds := by
    by_contra hc
    rw [h5 q hc] at hq
    exact Option.noConfusion hq
  obtain ⟨j, hj⟩ := mem_index_of_mem hqm
  have hv := h4 j q hj
  rw [hq] at hv
  have hjl : j < ds.length := (List.getElem?_eq_some.mp hj).1
  exact ⟨j, by omega, Option.some_injective _ hv, h3 q hqm⟩

theorem DestsInv_extend {tex : TargetKind → Nat → Nat} {passes passes' : List Pass}
    {k : TargetKind} {c p : Nat} (D : DestsInv tex passes k c p)
    (hset : ((passes'.getD p Pass.empty).dyn k).destination = some (tex k (c % 2)))
    (hothers : ∀ i, i ≠ p → ((passes'.getD i Pass.empty).dyn k).destination =
      ((passes.getD i Pass.empty).dyn k).destination) :
    DestsInv tex passes' k (c + 1) (p + 1) := by
  obtain ⟨ds, h1, h2, h3, h4, h5⟩ := D
  refine ⟨ds ++ [p], by simp [h1], ?_, ?_, ?_, ?_⟩
  · rw [List.pairwise_append]
    refine ⟨h2, by simp, ?_⟩
    intro a ha b hb
    have : b = p := by simpa using hb
    rw [this]
    exact h3 a ha
  · intro x hx
    rcases List.mem_append.mp hx with hx1 | hx2
    · have := h3 x hx1
      omega
    · have : x = p := by simpa using hx2
      omega
  · intro j x hx
    by_cases hjd : j < ds.length
    · rw [List.getElem?_append_left hjd] at hx
      have hxm : x ∈ ds := by
        obtain ⟨hl, he⟩ := List.getElem?_eq_some.mp hx
        rw [← he]
        exact List.getElem_mem hl
      have hne : x ≠ p := by
        have := h3 x hxm
        omega
      rw [hothers x hne]
      exact h4 j x hx
    · by_cases hje : j = ds.length
      · rw [hje, List.getElem?_concat_length] at hx
        have hxp : x = p := Option.some_injective _ hx.symm
        rw [hxp, hset, hje, h1]
      · have hoob : (ds ++ [p]).length ≤ j := by
          simp only [List.length_append, List.length_cons, List.length_nil]
          omega
        rw [List.getElem?_eq_none hoob] at hx
        exact absurd hx (by simp)
  · intro i hi
    have hi1 : i ∉ ds := fun hc => hi (List.mem_append.mpr (Or.inl hc))
    have hi2 : i ≠ p := fun hc => hi (List.mem_append.mpr (Or.inr (by simp [hc])))
    rw [hothers i hi2]
    exact h5 i hi1

theorem DestsInv_gap {tex : TargetKind → Nat → Nat} {passes : List Pass} {k : TargetKind}
    {c p : Nat}
    (htex : ∀ k1 k2 i1 i2, i1 < 2 → i2 < 2 → tex k1 i1 = tex k2 i2 → k1 = k2 ∧ i1 = i2)
    (D : DestsInv tex passes k c (p + 1)) {cd : Nat}
    (hp : ((passes.getD p Pass.empty).dyn k).destination = some cd) :
    ∀ q, q < p → ((passes.getD q Pass.empty).dyn k).destination = some cd → q + 2 ≤ p := by
  obtain ⟨ds, h1, h2, h3, h4, h5⟩ := D
  have hpm : p ∈ ds := by
    by_contra hc
    rw [h5 p hc] at hp
    exact Option.noConfusion hp
  obtain ⟨n, hn⟩ := mem_index_of_mem hpm
  have hvp := h4 n p hn
  rw [hp] at hvp
  have hcdn : cd = tex k (n % 2) := Option.some_injective _ hvp
  intro q hq hqd
  have hqm : q ∈ ds := by
    by_contra hc
    rw [h5 q hc] at hqd
    exact Option.noConfusion hqd
  obtain ⟨m, hm⟩ := mem_index_of_mem hqm
  have hvq := h4 m q hm
  rw [hqd] at hvq
  have hcdm : cd = tex k (m % 2) := Option.some_injective _ hvq
  have hpar : m % 2 = n % 2 := by
    have := htex k k (m % 2) (n % 2) (Nat.mod_lt _ (by omega)) (Nat.mod_lt _ (by omega))
      (by rw [← hcdm, ← hcdn])
    exact this.2
  have hmn : m < n := by
    rcases lt_trichotomy m n with h | h | h
    · exact h
    · rw [h, hn] at hm
      have : p = q := Option.some_injective _ hm
      omega
    · have := pairwise_lt_getElem h2 h hn hm
      omega
  have hm2n : m + 2 ≤ n := by omega
  have hnl : n < ds.length := (List.getElem?_eq_some.mp hn).1
  have hmid : n - 1 < ds.length := by omega
  obtain ⟨z, hz⟩ : ∃ z : Nat, ds[n - 1]? = some z :=
    ⟨_, List.getElem?_eq_getElem hmid⟩
  have h1' : q < z := pairwise_lt_getElem h2 (by omega) hm hz
  have h2' : z < p := pairwise_lt_getElem h2 (by omega) hz hn
  omega

/- ============================================================
   State access shorthands and the transition pack for the
   ping-pong fold
   ============================================================ -/

def pdest (passes : List Pass) (i : Nat) (k : TargetKind) : Option Nat :=
  ((passes.getD i Pass.empty).dyn k).destination

def ptasks (passes : List Pass) (i : Nat) (k : TargetKind) : List GTask :=
  ((passes.getD i Pass.empty).dyn k).tasks

theorem slice_eq_of_agree {α : Type _} [Inhabited α] (l l' : List α) (s e : Nat)
    (he : e ≤ l.length) (he' : e ≤ l'.length)
    (hagree : ∀ i, s ≤ i → i < e → l'[i]? = l[i]?) :
    (l'.take e).drop s = (l.take e).drop s := by
  apply List.ext_getElem?
  intro j
  by_cases hj : s + j < e
  · rw [slice_getElem? l s e j hj, slice_getElem? l' s e j hj]
    exact hagree (s + j) (by omega) hj
  · rw [list_getElem?_drop, list_getElem?_drop, List.getElem?_take, List.getElem?_take]
    rw [if_neg (by omega), if_neg (by omega)]

/-- Every location of C.g-node y still holds its original dependency value. -/
def sliceOrig (C : PPCtx) (st : PPState) (y : Nat) : Prop :=
  ∀ loc ∈ C.g.depLocs y, st.graph.dependencies.getD loc 0 = C.g.dependencies.getD loc 0

/-- Node b occurs as a task of the dynamic target of pass tp, kind k. -/
def BlitIn (st : PPState) (tp : Nat) (k : TargetKind) (b : Nat) : Prop :=
  ∃ t ∈ ptasks st.passes tp k, t.node = b

/-- The record attached to a redirect entry a ↦ b produced by
    handle_conflict_using_bit_task: b is the copy task inserted for
    dependency a, placed in a pass strictly between a's pass and every
    pass that reads it, with a destination that cannot collide with the
    destination of a's pass. -/
def BlitRec (C : PPCtx) (st : PPState) (B : Nat) (a b : Nat) : Prop :=
  a < C.g.nodes.length ∧ C.active.getD a false = true ∧
  C.g.nodes.length ≤ b ∧ b < st.graph.nodes.length ∧
  (st.graph.node b).target_kind = (C.g.node a).target_kind ∧
  st.graph.depsOf b = [a] ∧
  ((st.graph.node b).deps_end = (st.graph.node b).deps_start + 1 ∧
    C.g.dependencies.length ≤ (st.graph.node b).deps_start ∧
    (st.graph.node b).deps_end ≤ st.graph.dependencies.length) ∧
  ∃ tp dv,
    tp + 1 ≤ B ∧ passIdxOf C.g a < tp ∧
    BlitIn st tp (C.g.node a).target_kind b ∧
    (∀ i k, BlitIn st i k b → i = tp ∧ k = (C.g.node a).target_kind) ∧
    pdest st.passes (passIdxOf C.g a) (C.g.node a).target_kind = some dv ∧
    (pdest st.passes tp (C.g.node a).target_kind = none ∨
     ∃ w, pdest st.passes tp (C.g.node a).target_kind = some w ∧ w ≠ dv)

/-- What the scan records for a scanned dependency location loc of
    consumer y: either the location kept its original value and the
    conflict test failed (the destinations of the two passes differ
    when the kinds agree), or the location was redirected to a copy
    task placed strictly between the producer's and the consumer's
    passes, and both passes had the same destination. -/
def FullVal (C : PPCtx) (st : PPState) (y loc : Nat) : Prop :=
  (st.graph.dependencies.getD loc 0 = C.g.dependencies.getD loc 0 ∧
   ((C.g.node (C.g.dependencies.getD loc 0)).target_kind = (C.g.node y).target_kind →
     pdest st.passes (passIdxOf C.g y) (C.g.node y).target_kind ≠
     pdest st.passes (passIdxOf C.g (C.g.dependencies.getD loc 0))
       (C.g.node y).target_kind)) ∨
  (st.node_redirects.getD (C.g.dependencies.getD loc 0) none =
     some (st.graph.dependencies.getD loc 0) ∧
   (C.g.node (C.g.dependencies.getD loc 0)).target_kind = (C.g.node y).target_kind ∧
   ∃ tp, tp < passIdxOf C.g y ∧
     BlitIn st tp (C.g.node y).target_kind (st.graph.dependencies.getD loc 0) ∧
     pdest st.passes (passIdxOf C.g y) (C.g.node y).target_kind =
     pdest st.passes (passIdxOf C.g (C.g.dependencies.getD loc 0))
       (C.g.node y).target_kind)

/-- Monotone part of a ping-pong fold step: the graph only grows, the
    redirect map only gains entries, task lists only gain copy tasks. -/
structure PPStep (st st' : PPState) : Prop where
  nlen : st.graph.nodes.length ≤ st'.graph.nodes.length
  nodes : ∀ i, i < st.graph.nodes.length → st'.graph.nodes[i]? = st.graph.nodes[i]?
  dplen : st.graph.dependencies.length ≤ st'.graph.dependencies.length
  plen : st'.passes.length = st.passes.length
  fixed : ∀ i, (st'.passes.getD i Pass.empty).fixed_targets =
    (st.passes.getD i Pass.empty).fixed_targets
  rdlen : st'.node_redirects.length = st.node_redirects.length
  rdmono : ∀ a b, st.node_redirects.getD a none = some b →
    st'.node_redirects.getD a none = some b
  tmono : ∀ i k t, t ∈ ptasks st.passes i k → t ∈ ptasks st'.passes i k
  tnew : ∀ i k t, t ∈ ptasks st'.passes i k → t ∈ ptasks st.passes i k ∨
    st.graph.nodes.length ≤ t.node

theorem PPStep_rfl (st : PPState) : PPStep st st :=
  ⟨le_refl _, fun _ _ => rfl, le_refl _, rfl, fun _ => rfl, rfl, fun _ _ h => h,
   fun _ _ _ h => h, fun _ _ _ h => Or.inl h⟩

theorem PPStep_trans {st1 st2 st3 : PPState} (h12 : PPStep st1 st2) (h23 : PPStep st2 st3) :
    PPStep st1 st3 := by
  refine ⟨le_trans h12.nlen h23.nlen, ?_, le_trans h12.dplen h23.dplen,
    h23.plen.trans h12.plen, fun i => (h23.fixed i).trans (h12.fixed i),
    h23.rdlen.trans h12.rdlen, fun a b h => h23.rdmono a b (h12.rdmono a b h),
    fun i k t h => h23.tmono i k t (h12.tmono i k t h), ?_⟩
  · intro i hi
    rw [h23.nodes i (lt_of_lt_of_le hi h12.nlen), h12.nodes i hi]
  · intro i k t h
    rcases h23.tnew i k t h with h2 | h2
    · exact h12.tnew i k t h2
    · right
      have := h12.nlen
      omega

theorem FullVal_mono (C : PPCtx) {st st' : PPState} {y loc : Nat} (h : FullVal C st y loc)
    (E : PPStep st st')
    (hval : st'.graph.dependencies.getD loc 0 = st.graph.dependencies.getD loc 0)
    (hdest : ∀ i, i ≤ passIdxOf C.g y →
      pdest st'.passes i ((C.g.node y).target_kind) =
      pdest st.passes i ((C.g.node y).target_kind))
    (hpa : passIdxOf C.g (C.g.dependencies.getD loc 0) ≤ passIdxOf C.g y) :
    FullVal C st' y loc := by
  rcases h with ⟨h1, h2⟩ | ⟨h1, h2, tp, h3, h4, h5⟩
  · left
    refine ⟨by rw [hval, h1], ?_⟩
    intro hk
    rw [hdest _ (le_refl _), hdest _ hpa]
    exact h2 hk
  · right
    refine ⟨?_, h2, tp, h3, ?_, ?_⟩
    · rw [hval]
      exact E.rdmono _ _ h1
    · obtain ⟨t, ht, htn⟩ := h4
      rw [hval]
      exact ⟨t, E.tmono _ _ _ ht, htn⟩
    · rw [hdest _ (le_refl _), hdest _ hpa]
      exact h5

theorem BlitRec_mono (C : PPCtx) {st st' : PPState} {B B' a b : Nat}
    (h : BlitRec C st B a b) (E : PPStep st st') (hB : B ≤ B')
    (hvals : ∀ loc, C.g.dependencies.length ≤ loc → loc < st.graph.dependencies.length →
      st'.graph.dependencies[loc]? = st.graph.dependencies[loc]?)
    (hdest : ∀ i k', i < B → pdest st'.passes i k' = pdest st.passes i k') :
    BlitRec C st' B' a b := by
  obtain ⟨h1, h2, h3, h4, h5, h6, ⟨hr1, hr2, hr3⟩, tp, dv, hb1, hb2, hb3, hb4, hb5, hb6⟩ := h
  have hnode : st'.graph.node b = st.graph.node b :=
    Graph.node_congr b (E.nodes b h4)
  have hpa_lt : passIdxOf C.g a < B := by omega
  have htp_lt : tp < B := by omega
  refine ⟨h1, h2, h3, lt_of_lt_of_le h4 E.nlen, by rw [hnode]; exact h5, ?_,
    by rw [hnode]; exact ⟨hr1, hr2, le_trans hr3 E.dplen⟩, tp, dv, by omega, hb2, ?_, ?_, ?_, ?_⟩
  · unfold Graph.depsOf
    rw [hnode]
    rw [← h6]
    unfold Graph.depsOf
    exact slice_eq_of_agree _ _ _ _ hr3 (le_trans hr3 E.dplen)
      (fun i hi1 hi2 => hvals i (le_trans hr2 hi1) (by omega))
  · obtain ⟨t, ht, htn⟩ := hb3
    exact ⟨t, E.tmono _ _ _ ht, htn⟩
  · intro i k hik
    obtain ⟨t, ht, htn⟩ := hik
    rcases E.tnew i k t ht with hold | hnew
    · exact hb4 i k ⟨t, hold, htn⟩
    · rw [htn] at hnew
      omega
  · rw [hdest _ _ hpa_lt]
    exact hb5
  · rcases hb6 with hn | ⟨w, hw, hwd⟩
    · left
      rw [hdest _ _ htp_lt]
      exact hn
    · right
      exact ⟨w, by rw [hdest _ _ htp_lt]; exact hw, hwd⟩

/- ============================================================
   The ping-pong fold invariants: PPInv holds between passes,
   SInv holds while scanning the tasks of pass p, kind k, after
   the destination of (p, k) has been set to cd.
   ============================================================ -/

structure PPInv (C : PPCtx) (P : Nat) (st : PPState) : Prop where
  glen : C.g.nodes.length ≤ st.graph.nodes.length
  gnodes : ∀ i, i < C.g.nodes.length → st.graph.nodes[i]? = C.g.nodes[i]?
  dlen : C.g.dependencies.length ≤ st.graph.dependencies.length
  rdlen : st.node_redirects.length = C.g.nodes.length
  plen : st.passes.length = C.passes0.length
  fixedEq : ∀ i, (st.passes.getD i Pass.empty).fixed_targets =
    (C.passes0.getD i Pass.empty).fixed_targets
  tasksHi : ∀ i k, P ≤ i → ptasks st.passes i k = ptasks C.passes0 i k
  origSub : ∀ i k, ∀ t ∈ ptasks C.passes0 i k, t ∈ ptasks st.passes i k
  tasksBound : ∀ i k, ∀ t ∈ ptasks st.passes i k, t.node < st.graph.nodes.length
  occ : ∀ i k, ∀ t ∈ ptasks st.passes i k,
    t ∈ ptasks C.passes0 i k ∨
    (C.g.nodes.length ≤ t.node ∧ ∃ a, st.node_redirects.getD a none = some t.node)
  redir : ∀ a b, st.node_redirects.getD a none = some b → BlitRec C st P a b
  dests : ∀ k, DestsInv C.tex st.passes k (st.nth k) P
  deps : ∀ y, y < C.g.nodes.length → ∀ loc ∈ C.g.depLocs y,
    (C.active.getD y false = true ∧ (C.g.node y).alloc_kind = AllocKind.Dynamic ∧
      passIdxOf C.g y < P → FullVal C st y loc) ∧
    (¬(C.active.getD y false = true ∧ (C.g.node y).alloc_kind = AllocKind.Dynamic ∧
      passIdxOf C.g y < P) →
      st.graph.dependencies.getD loc 0 = C.g.dependencies.getD loc 0)

structure SInv (C : PPCtx) (p : Nat) (k : TargetKind) (cd : Nat) (st : PPState) : Prop where
  glen : C.g.nodes.length ≤ st.graph.nodes.length
  gnodes : ∀ i, i < C.g.nodes.length → st.graph.nodes[i]? = C.g.nodes[i]?
  dlen : C.g.dependencies.length ≤ st.graph.dependencies.length
  rdlen : st.node_redirects.length = C.g.nodes.length
  plen : st.passes.length = C.passes0.length
  fixedEq : ∀ i, (st.passes.getD i Pass.empty).fixed_targets =
    (C.passes0.getD i Pass.empty).fixed_targets
  tasksHi : ∀ i k', p ≤ i → ptasks st.passes i k' = ptasks C.passes0 i k'
  origSub : ∀ i k', ∀ t ∈ ptasks C.passes0 i k', t ∈ ptasks st.passes i k'
  tasksBound : ∀ i k', ∀ t ∈ ptasks st.passes i k', t.node < st.graph.nodes.length
  occ : ∀ i k', ∀ t ∈ ptasks st.passes i k',
    t ∈ ptasks C.passes0 i k' ∨
    (C.g.nodes.length ≤ t.node ∧ ∃ a, st.node_redirects.getD a none = some t.node)
  redir : ∀ a b, st.node_redirects.getD a none = some b → BlitRec C st p a b
  destsK : DestsInv C.tex st.passes k (st.nth k) (p + 1)
  destsO : ∀ k', k' ≠ k → DestsInv C.tex st.passes k' (st.nth k') (p + 1)
  cdv : pdest st.passes p k = some cd
  depsLow : ∀ y, y < C.g.nodes.length → C.active.getD y false = true →
    (C.g.node y).alloc_kind = AllocKind.Dynamic → passIdxOf C.g y < p →
    ∀ loc ∈ C.g.depLocs y, FullVal C st y loc
  depsElse : ∀ y, y < C.g.nodes.length →
    ¬(C.active.getD y false = true ∧ (C.g.node y).alloc_kind = AllocKind.Dynamic) →
    ∀ loc ∈ C.g.depLocs y, st.graph.dependencies.getD loc 0 = C.g.dependencies.getD loc 0

/- ============================================================
   Pass-list update helpers
   ============================================================ -/

theorem dyn_setDyn (p : Pass) (ka k' : TargetKind) (pt : PassTarget) :
    (p.setDyn ka pt).dyn k' = if k' = ka then pt else p.dyn k' := by
  by_cases h : k' = ka
  · subst h
    rw [if_pos rfl]
    exact Pass.dyn_setDyn_self p k' pt
  · rw [if_neg h]
    exact Pass.dyn_setDyn_other p ka k' pt (fun hc => h hc.symm)

theorem pdest_after_set (passes : List Pass) {i : Nat} {p2 : Pass} (hlt : i < passes.length)
    (j : Nat) (k' : TargetKind) :
    pdest (passes.set i p2) j k' =
      if j = i then (p2.dyn k').destination else pdest passes j k' := by
  unfold pdest
  by_cases h : j = i
  · subst h
    rw [listGetD_set_self _ _ _ _ hlt, if_pos rfl]
  · rw [listGetD_set_ne _ _ _ _ _ (fun hc => h hc.symm), if_neg h]

theorem ptasks_after_set (passes : List Pass) {i : Nat} {p2 : Pass} (hlt : i < passes.length)
    (j : Nat) (k' : TargetKind) :
    ptasks (passes.set i p2) j k' =
      if j = i then (p2.dyn k').tasks else ptasks passes j k' := by
  unfold ptasks
  by_cases h : j = i
  · subst h
    rw [listGetD_set_self _ _ _ _ hlt, if_pos rfl]
  · rw [listGetD_set_ne _ _ _ _ _ (fun hc => h hc.symm), if_neg h]

/- ============================================================
   Output bundle of a scan step inside pass p, kind k: the scan
   invariant is maintained, the state only grows, destinations
   are untouched, task lists of passes at or after p are
   untouched, and dependency values are preserved outside the
   written set W.
   ============================================================ -/

structure ScanOut (C : PPCtx) (p : Nat) (k : TargetKind) (cd : Nat) (W : Nat → Prop)
    (st st' : PPState) : Prop where
  inv : SInv C p k cd st'
  step : PPStep st st'
  nth : ∀ k', st'.nth k' = st.nth k'
  vpres : ∀ loc', ¬ W loc' → loc' < C.g.dependencies.length →
    st'.graph.dependencies.getD loc' 0 = st.graph.dependencies.getD loc' 0
  dpres : ∀ i k', pdest st'.passes i k' = pdest st.passes i k'
  tpres : ∀ i k', p ≤ i → ptasks st'.passes i k' = ptasks st.passes i k'

theorem ScanOut_rfl (C : PPCtx) (p : Nat) (k : TargetKind) (cd : Nat) (W : Nat → Prop)
    {st : PPState} (h : SInv C p k cd st) : ScanOut C p k cd W st st :=
  ⟨h, PPStep_rfl st, fun _ => rfl, fun _ _ _ => rfl, fun _ _ => rfl, fun _ _ _ => rfl⟩

theorem ScanOut_trans (C : PPCtx) {p : Nat} {k : TargetKind} {cd : Nat} {W1 W2 : Nat → Prop}
    {st st1 st2 : PPState} (h1 : ScanOut C p k cd W1 st st1)
    (h2 : ScanOut C p k cd W2 st1 st2) :
    ScanOut C p k cd (fun l => W1 l ∨ W2 l) st st2 := by
  refine ⟨h2.inv, PPStep_trans h1.step h2.step, ?_, ?_, ?_, ?_⟩
  · intro k'
    rw [h2.nth k', h1.nth k']
  · intro loc' hw hlt
    rw [h2.vpres loc' (fun hc => hw (Or.inr hc)) hlt, h1.vpres loc' (fun hc => hw (Or.inl hc)) hlt]
  · intro i k'
    rw [h2.dpres i k', h1.dpres i k']
  · intro i k' hi
    rw [h2.tpres i k' hi, h1.tpres i k' hi]

theorem ScanOut_weaken (C : PPCtx) {p : Nat} {k : TargetKind} {cd : Nat} {W1 W2 : Nat → Prop}
    {st st' : PPState} (hW : ∀ l, W1 l → W2 l) (h : ScanOut C p k cd W1 st st') :
    ScanOut C p k cd W2 st st' :=
  ⟨h.inv, h.step, h.nth, fun l hl => h.vpres l (fun hc => hl (hW l hc)), h.dpres, h.tpres⟩

/- ============================================================
   Preservation of the per-node dependency facts under a write
   confined to one location of the task being scanned
   ============================================================ -/

theorem deps_pres (C : PPCtx) {p : Nat} {k : TargetKind} {cd : Nat} {st st' : PPState}
    (hS : SInv C p k cd st) (E : PPStep st st') {loc y : Nat}
    (hy : y < C.g.nodes.length) (hyact : C.active.getD y false = true)
    (hydyn : (C.g.node y).alloc_kind = AllocKind.Dynamic)
    (hyp : passIdxOf C.g y = p) (hloc : loc ∈ C.g.depLocs y)
    (hval : ∀ loc', loc' ≠ loc → loc' < C.g.dependencies.length →
      st'.graph.dependencies.getD loc' 0 = st.graph.dependencies.getD loc' 0)
    (hdest : ∀ i k', pdest st'.passes i k' = pdest st.passes i k') :
    (∀ y', y' < C.g.nodes.length → C.active.getD y' false = true →
      (C.g.node y').alloc_kind = AllocKind.Dynamic → passIdxOf C.g y' < p →
      ∀ loc' ∈ C.g.depLocs y', FullVal C st' y' loc') ∧
    (∀ y', y' < C.g.nodes.length →
      ¬(C.active.getD y' false = true ∧ (C.g.node y').alloc_kind = AllocKind.Dynamic) →
      ∀ loc' ∈ C.g.depLocs y',
        st'.graph.dependencies.getD loc' 0 = C.g.dependencies.getD loc' 0) := by
  constructor
  · intro y' hy' hact' hdyn' hplt' loc' hloc'
    have hne : y ≠ y' := by
      intro hc
      rw [hc] at hyp
      omega
    have hlocne : loc' ≠ loc := by
      intro hc
      rw [hc] at hloc'
      exact depLocs_disjoint C.g C.hWF hy hne hloc hloc'
    have hlt' : loc' < C.g.dependencies.length := depLocs_lt C.g C.hWF hy' hloc'
    have hNW' := C.hWF.1 y' hy'
    have hmem' : C.g.dependencies.getD loc' 0 ∈ C.g.depsOf y' :=
      Graph.depsOf_getD_mem C.g hNW'.2.1 hloc'
    have hpa' := (C.edge_lt hact' hmem').1
    exact FullVal_mono C (hS.depsLow y' hy' hact' hdyn' hplt' loc' hloc') E
      (hval loc' hlocne hlt') (fun i _ => hdest i _) (by omega)
  · intro y' hy' hnot loc' hloc'
    have hne : y ≠ y' := by
      intro hc
      rw [← hc] at hnot
      exact hnot ⟨hyact, hydyn⟩
    have hlocne : loc' ≠ loc := by
      intro hc
      rw [hc] at hloc'
      exact depLocs_disjoint C.g C.hWF hy hne hloc hloc'
    have hlt' : loc' < C.g.dependencies.length := depLocs_lt C.g C.hWF hy' hloc'
    rw [hval loc' hlocne hlt']
    exact hS.depsElse y' hy' hnot loc' hloc'

theorem pdest_fold (passes : List Pass) (i : Nat) (k : TargetKind) :
    ((passes.getD i Pass.empty).dyn k).destination = pdest passes i k := rfl

theorem ptasks_fold (passes : List Pass) (i : Nat) (k : TargetKind) :
    ((passes.getD i Pass.empty).dyn k).tasks = ptasks passes i k := rfl

theorem ppScanLoc_ok (C : PPCtx) {p : Nat} {k : TargetKind} {cd : Nat} {st : PPState}
    (hS : SInv C p k cd st) {y loc : Nat}
    (hy : y < C.g.nodes.length) (hyact : C.active.getD y false = true)
    (hydyn : (C.g.node y).alloc_kind = AllocKind.Dynamic)
    (hyk : (C.g.node y).target_kind = k)
    (hyp : passIdxOf C.g y = p)
    (hloc : loc ∈ C.g.depLocs y)
    (hval : st.graph.dependencies.getD loc 0 = C.g.dependencies.getD loc 0) :
    ∃ st', ppScanLoc C.np cd p st loc = some st' ∧
      ScanOut C p k cd (fun l => l = loc) st st' ∧ FullVal C st' y loc := by
  obtain ⟨a, hA⟩ : ∃ a, C.g.dependencies.getD loc 0 = a := ⟨_, rfl⟩
  rw [hA] at hval
  have hNW := C.hWF.1 y hy
  have ha_mem : a ∈ C.g.depsOf y := by
    rw [← hA]
    exact Graph.depsOf_getD_mem C.g hNW.2.1 hloc
  have hay : a < y := hNW.2.2 a ha_mem
  have ha_lt : a < C.g.nodes.length := by omega
  have ha_act : C.active.getD a false = true := C.activeClosed hyact ha_mem
  have hedge := C.edge_lt hyact ha_mem
  rw [hyp] at hedge
  have hpa_lt : passIdxOf C.g a < p := hedge.1
  have hp1 : 1 ≤ p := hedge.2
  have hp_lt : p < C.passes0.length := by
    rw [← hyp]
    exact C.passIdx_lt y
  have hp_lt' : p < st.passes.length := by
    rw [hS.plen]
    exact hp_lt
  have hloc_lt : loc < C.g.dependencies.length := depLocs_lt C.g C.hWF hy hloc
  have hloc_lt' : loc < st.graph.dependencies.length := lt_of_lt_of_le hloc_lt hS.dlen
  have hnp : C.np.getD a none = some (passIdxOf C.g a) := C.hnp1 ha_lt ha_act
  have hget : st.graph.nodes.get? a = some (C.g.node a) := by
    rw [List.get?_eq_getElem?, hS.gnodes a ha_lt, List.getElem?_eq_getElem ha_lt]
    unfold Graph.node
    rw [listGetD_eq_getElem _ _ _ ha_lt]
  by_cases hconf : ((st.passes.getD (passIdxOf C.g a) Pass.empty).dyn
      (C.g.node a).target_kind).destination = some cd
  case neg =>
    refine ⟨st, ?_, ScanOut_rfl C p k cd _ hS, ?_⟩
    · simp only [ppScanLoc, hval, hnp, hget]
      rw [if_neg hconf]
    · unfold FullVal
      rw [hA]
      left
      refine ⟨hval, ?_⟩
      intro hk
      rw [hyp, hyk]
      rw [show pdest st.passes p k = some cd from hS.cdv]
      intro heq
      have hka : (C.g.node a).target_kind = k := hk.trans hyk
      exact hconf (by rw [hka]; exact heq.symm)
  case pos =>
    have hka : (C.g.node a).target_kind = k := by
      by_cases hkk : (C.g.node a).target_kind = k
      · exact hkk
      · obtain ⟨j, hj, hjv, _⟩ := DestsInv_lookup (hS.destsO _ hkk) hconf
        obtain ⟨j2, hj2, hjv2, _⟩ := DestsInv_lookup hS.destsK
          (show ((st.passes.getD p Pass.empty).dyn k).destination = some cd from hS.cdv)
        have hteq : C.tex (C.g.node a).target_kind (j % 2) = C.tex k (j2 % 2) := by
          rw [← hjv, ← hjv2]
        have := C.htex _ _ _ _ (Nat.mod_lt _ (by omega)) (Nat.mod_lt _ (by omega)) hteq
        exact absurd this.1 hkk
    have hconf' : pdest st.passes (passIdxOf C.g a) k = some cd := by
      rw [← hka]
      exact hconf
    have hgap : passIdxOf C.g a + 2 ≤ p :=
      DestsInv_gap C.htex hS.destsK
        (show ((st.passes.getD p Pass.empty).dyn k).destination = some cd from hS.cdv)
        (passIdxOf C.g a) hpa_lt hconf'
    have htpd : ∀ w, pdest st.passes (p - 1) k = some w → w ≠ cd := by
      intro w hw hwc
      rw [hwc] at hw
      have := DestsInv_gap C.htex hS.destsK
        (show ((st.passes.getD p Pass.empty).dyn k).destination = some cd from hS.cdv)
        (p - 1) (by omega) hw
      omega
    have hkay : (C.g.node a).target_kind = (C.g.node y).target_kind := hka.trans hyk.symm
    rcases hrd : st.node_redirects.getD a none with _ | b
    · -- no redirect yet: a new copy task is inserted in pass p - 1
      have htp_lt : p - 1 < st.passes.length := by omega
      have htasks_at : ptasks (st.passes.set (p - 1) ((st.passes.getD (p - 1) Pass.empty).setDyn (C.g.node a).target_kind
            ⟨((st.passes.getD (p - 1) Pass.empty).dyn (C.g.node a).target_kind).tasks ++
              [⟨st.graph.nodes.length, Rectangle.zero⟩],
             ((st.passes.getD (p - 1) Pass.empty).dyn
               (C.g.node a).target_kind).destination⟩))
          (p - 1) (C.g.node a).target_kind =
          ptasks st.passes (p - 1) (C.g.node a).target_kind ++
            [⟨st.graph.nodes.length, Rectangle.zero⟩] := by
        rw [ptasks_after_set st.passes htp_lt (p - 1) (C.g.node a).target_kind,
          if_pos rfl, dyn_setDyn, if_pos rfl]
        rfl
      have htasks_ne : ∀ i k', ¬(i = p - 1 ∧ k' = (C.g.node a).target_kind) →
          ptasks (st.passes.set (p - 1) ((st.passes.getD (p - 1) Pass.empty).setDyn (C.g.node a).target_kind
            ⟨((st.passes.getD (p - 1) Pass.empty).dyn (C.g.node a).target_kind).tasks ++
              [⟨st.graph.nodes.length, Rectangle.zero⟩],
             ((st.passes.getD (p - 1) Pass.empty).dyn
               (C.g.node a).target_kind).destination⟩)) i k' = ptasks st.passes i k' := by
        intro i k' hne
        rw [ptasks_after_set st.passes htp_lt i k']
        by_cases hi : i = p - 1
        · rw [if_pos hi, dyn_setDyn, if_neg (fun hc => hne ⟨hi, hc⟩), hi]
          rfl
        · rw [if_neg hi]
      have hdpres : ∀ i k', pdest (st.passes.set (p - 1) ((st.passes.getD (p - 1) Pass.empty).setDyn (C.g.node a).target_kind
            ⟨((st.passes.getD (p - 1) Pass.empty).dyn (C.g.node a).target_kind).tasks ++
              [⟨st.graph.nodes.length, Rectangle.zero⟩],
             ((st.passes.getD (p - 1) Pass.empty).dyn
               (C.g.node a).target_kind).destination⟩)) i k' =
          pdest st.passes i k' := by
        intro i k'
        rw [pdest_after_set st.passes htp_lt i k']
        by_cases hi : i = p - 1
        · rw [if_pos hi, dyn_setDyn]
          by_cases hk' : k' = (C.g.node a).target_kind
          · rw [if_pos hk', hi, hk']
            rfl
          · rw [if_neg hk', hi]
            rfl
        · rw [if_neg hi]
      have hfixp : ∀ i, (((st.passes.set (p - 1) ((st.passes.getD (p - 1) Pass.empty).setDyn (C.g.node a).target_kind
            ⟨((st.passes.getD (p - 1) Pass.empty).dyn (C.g.node a).target_kind).tasks ++
              [⟨st.graph.nodes.length, Rectangle.zero⟩],
             ((st.passes.getD (p - 1) Pass.empty).dyn
               (C.g.node a).target_kind).destination⟩)).getD i Pass.empty)).fixed_targets =
          (st.passes.getD i Pass.empty).fixed_targets := by
        intro i
        by_cases hi : i = p - 1
        · rw [hi, listGetD_set_self _ _ _ _ htp_lt, Pass.fixed_setDyn]
        · rw [listGetD_set_ne _ _ _ _ _ (fun hc => hi hc.symm)]
      have hvloc' : ∀ loc', loc' ≠ loc → loc' < st.graph.dependencies.length →
          ((st.graph.dependencies ++ [a]).set loc st.graph.nodes.length).getD loc' 0 =
          st.graph.dependencies.getD loc' 0 := by
        intro loc' hne hlt
        rw [listGetD_set_ne _ _ _ _ _ (fun hc => hne hc.symm),
          listGetD_append_left _ _ _ _ hlt]
      have hvq : ∀ loc', C.g.dependencies.length ≤ loc' →
          loc' < st.graph.dependencies.length →
          ((st.graph.dependencies ++ [a]).set loc st.graph.nodes.length)[loc']? =
          st.graph.dependencies[loc']? := by
        intro loc' h1 h2
        rw [List.getElem?_set_ne (by omega), List.getElem?_append_left h2]
      have hnodesp : ∀ i, i < st.graph.nodes.length →
          (st.graph.nodes ++ [(⟨TaskKind.Blit, (C.g.node a).size, AllocKind.Dynamic,
          st.graph.dependencies.length, st.graph.dependencies.length + 1,
          (C.g.node a).target_kind⟩ : Node)])[i]? = st.graph.nodes[i]? :=
        fun i hi => List.getElem?_append_left hi
      have hnL : (⟨st.graph.nodes ++ [(⟨TaskKind.Blit, (C.g.node a).size, AllocKind.Dynamic,
          st.graph.dependencies.length, st.graph.dependencies.length + 1,
          (C.g.node a).target_kind⟩ : Node)],
          (st.graph.dependencies ++ [a]).set loc st.graph.nodes.length,
          st.graph.roots⟩ : Graph).node st.graph.nodes.length = (⟨TaskKind.Blit, (C.g.node a).size, AllocKind.Dynamic,
          st.graph.dependencies.length, st.graph.dependencies.length + 1,
          (C.g.node a).target_kind⟩ : Node) := by
        unfold Graph.node
        exact listGetD_concat_self _ _ _
      have hnlen1 : (st.graph.nodes ++ [(⟨TaskKind.Blit, (C.g.node a).size, AllocKind.Dynamic,
          st.graph.dependencies.length, st.graph.dependencies.length + 1,
          (C.g.node a).target_kind⟩ : Node)]).length = st.graph.nodes.length + 1 := by
        simp
      have hdlen1 : ((st.graph.dependencies ++ [a]).set loc
          st.graph.nodes.length).length = st.graph.dependencies.length + 1 := by
        rw [List.length_set, List.length_append]
        rfl
      have E : PPStep st ⟨⟨st.graph.nodes ++ [(⟨TaskKind.Blit, (C.g.node a).size, AllocKind.Dynamic,
          st.graph.dependencies.length, st.graph.dependencies.length + 1,
          (C.g.node a).target_kind⟩ : Node)],
          (st.graph.dependencies ++ [a]).set loc st.graph.nodes.length, st.graph.roots⟩,
          st.passes.set (p - 1) ((st.passes.getD (p - 1) Pass.empty).setDyn (C.g.node a).target_kind
            ⟨((st.passes.getD (p - 1) Pass.empty).dyn (C.g.node a).target_kind).tasks ++
              [⟨st.graph.nodes.length, Rectangle.zero⟩],
             ((st.passes.getD (p - 1) Pass.empty).dyn
               (C.g.node a).target_kind).destination⟩),
          st.node_redirects.set a (some st.graph.nodes.length),
          st.nth_color, st.nth_alpha⟩ := by
        refine ⟨by rw [hnlen1]; omega, hnodesp, by rw [hdlen1]; omega,
          by rw [List.length_set], hfixp, by rw [List.length_set], ?_, ?_, ?_⟩
        · intro a' b' h'
          have hne : a' ≠ a := by
            intro hc
            rw [hc, hrd] at h'
            exact Option.noConfusion h'
          rw [listGetD_set_ne _ _ _ _ _ (fun hc => hne hc.symm)]
          exact h'
        · intro i k' t ht
          by_cases hik : i = p - 1 ∧ k' = (C.g.node a).target_kind
          · rw [hik.1, hik.2] at ht ⊢
            rw [htasks_at]
            exact List.mem_append_left _ ht
          · rw [htasks_ne i k' hik]
            exact ht
        · intro i k' t ht
          by_cases hik : i = p - 1 ∧ k' = (C.g.node a).target_kind
          · rw [hik.1, hik.2] at ht ⊢
            rw [htasks_at] at ht
            rcases List.mem_append.mp ht with h1 | h2
            · exact Or.inl h1
            · right
              have : t = ⟨st.graph.nodes.length, Rectangle.zero⟩ := by simpa using h2
              rw [this]
          · rw [htasks_ne i k' hik] at ht
            exact Or.inl ht
      have hdp := deps_pres C hS E hy hyact hydyn hyp hloc
        (fun loc' hne hlt => hvloc' loc' hne (lt_of_lt_of_le hlt hS.dlen)) hdpres
      refine ⟨⟨⟨st.graph.nodes ++
          [(⟨TaskKind.Blit, (C.g.node a).size, AllocKind.Dynamic,
            st.graph.dependencies.length, st.graph.dependencies.length + 1,
            (C.g.node a).target_kind⟩ : Node)],
          (st.graph.dependencies ++ [a]).set loc st.graph.nodes.length, st.graph.roots⟩,
          st.passes.set (p - 1)
            ((st.passes.getD (p - 1) Pass.empty).setDyn (C.g.node a).target_kind
              ⟨((st.passes.getD (p - 1) Pass.empty).dyn (C.g.node a).target_kind).tasks ++
                [⟨st.graph.nodes.length, Rectangle.zero⟩],
               ((st.passes.getD (p - 1) Pass.empty).dyn
                 (C.g.node a).target_kind).destination⟩),
          st.node_redirects.set a (some st.graph.nodes.length),
          st.nth_color, st.nth_alpha⟩, ?_, ?_, ?_⟩
      · simp only [ppScanLoc, hval, hnp, hget]
        rw [if_pos hconf]
        simp only [handle_conflict_using_bit_task, hrd, hget]
        rw [if_neg (show ¬p = 0 by omega),
          if_neg (show ¬st.passes.length ≤ p - 1 by omega)]
      · refine ⟨⟨?_, ?_, ?_, ?_, ?_, ?_, ?_, ?_, ?_, ?_, ?_, ?_, ?_, ?_, hdp.1, hdp.2⟩,
          E, fun k' => by cases k' <;> rfl,
          fun loc' h hlt => hvloc' loc' h (lt_of_lt_of_le hlt hS.dlen), hdpres,
          fun i k' hi => htasks_ne i k' (fun hc => absurd hc.1 (by omega))⟩
        · rw [hnlen1]
          have := hS.glen
          omega
        · intro i hi
          rw [hnodesp i (lt_of_lt_of_le hi hS.glen)]
          exact hS.gnodes i hi
        · rw [hdlen1]
          have := hS.dlen
          omega
        · rw [List.length_set]
          exact hS.rdlen
        · rw [List.length_set]
          exact hS.plen
        · intro i
          rw [hfixp i]
          exact hS.fixedEq i
        · intro i k' hi
          rw [htasks_ne i k' (fun hc => absurd hc.1 (by omega))]
          exact hS.tasksHi i k' hi
        · intro i k' t ht
          by_cases hik : i = p - 1 ∧ k' = (C.g.node a).target_kind
          · rw [hik.1, hik.2] at ht ⊢
            rw [htasks_at]
            exact List.mem_append_left _ (hS.origSub _ _ t ht)
          · rw [htasks_ne i k' hik]
            exact hS.origSub i k' t ht
        · intro i k' t ht
          rw [hnlen1]
          by_cases hik : i = p - 1 ∧ k' = (C.g.node a).target_kind
          · rw [hik.1, hik.2] at ht
            rw [htasks_at] at ht
            rcases List.mem_append.mp ht with h1 | h2
            · have := hS.tasksBound _ _ t h1
              omega
            · have hteq2 : t = ⟨st.graph.nodes.length, Rectangle.zero⟩ := by simpa using h2
              rw [hteq2]
              show st.graph.nodes.length < st.graph.nodes.length + 1
              omega
          · rw [htasks_ne i k' hik] at ht
            have := hS.tasksBound i k' t ht
            omega
        · intro i k' t ht
          by_cases hik : i = p - 1 ∧ k' = (C.g.node a).target_kind
          · rw [hik.1, hik.2] at ht ⊢
            rw [htasks_at] at ht
            rcases List.mem_append.mp ht with h1 | h2
            · rcases hS.occ _ _ t h1 with ho | ⟨hl2, a', ha'⟩
              · exact Or.inl ho
              · have hne : a' ≠ a := by
                  intro hc
                  rw [hc, hrd] at ha'
                  exact Option.noConfusion ha'
                right
                refine ⟨hl2, a', ?_⟩
                rw [listGetD_set_ne _ _ _ _ _ (fun hc => hne hc.symm)]
                exact ha'
            · have hteq : t = ⟨st.graph.nodes.length, Rectangle.zero⟩ := by simpa using h2
              rw [hteq]
              right
              refine ⟨hS.glen, a, ?_⟩
              rw [listGetD_set_self _ _ _ _ (by rw [hS.rdlen]; exact ha_lt)]
          · rw [htasks_ne i k' hik] at ht
            rcases hS.occ i k' t ht with ho | ⟨hl2, a', ha'⟩
            · exact Or.inl ho
            · have hne : a' ≠ a := by
                intro hc
                rw [hc, hrd] at ha'
                exact Option.noConfusion ha'
              right
              refine ⟨hl2, a', ?_⟩
              rw [listGetD_set_ne _ _ _ _ _ (fun hc => hne hc.symm)]
              exact ha'
        · intro a' b' h'
          by_cases ha' : a' = a
          · rw [ha'] at h' ⊢
            rw [listGetD_set_self _ _ _ _ (by rw [hS.rdlen]; exact ha_lt)] at h'
            have hb' : st.graph.nodes.length = b' := Option.some_injective _ h'
            subst hb'
            refine ⟨ha_lt, ha_act, hS.glen, by rw [hnlen1]; omega, ?_, ?_, ?_,
              p - 1, cd, by omega, by omega, ?_, ?_, ?_, ?_⟩
            · rw [hnL]
            · unfold Graph.depsOf
              rw [hnL]
              show (((st.graph.dependencies ++ [a]).set loc
                st.graph.nodes.length).take (st.graph.dependencies.length + 1)).drop
                  st.graph.dependencies.length = [a]
              rw [slice_set_outside _ _ _ _ _ (Or.inl (by omega))]
              exact slice_concat_self _ _
            · rw [hnL]
              refine ⟨rfl, hS.dlen, ?_⟩
              rw [hdlen1]
            · refine ⟨⟨st.graph.nodes.length, Rectangle.zero⟩, ?_, rfl⟩
              rw [htasks_at]
              exact List.mem_append_right _ (by simp)
            · intro i k2 hik2
              obtain ⟨t, ht, htn⟩ := hik2
              by_cases hik : i = p - 1 ∧ k2 = (C.g.node a).target_kind
              · exact ⟨hik.1, hik.2⟩
              · rw [htasks_ne i k2 hik] at ht
                have := hS.tasksBound i k2 t ht
                rw [htn] at this
                omega
            · rw [hdpres]
              exact hconf
            · rw [hdpres, hka]
              match hw : pdest st.passes (p - 1) k with
              | none => exact Or.inl rfl
              | some w => exact Or.inr ⟨w, rfl, htpd w hw⟩
          · rw [listGetD_set_ne _ _ _ _ _ (fun hc => ha' hc.symm)] at h'
            exact BlitRec_mono C (hS.redir a' b' h') E (le_refl p) hvq
              (fun i k' _ => hdpres i k')
        · exact DestsInv_congr (fun i => hdpres i k) hS.destsK
        · intro k' hk'
          exact DestsInv_congr (fun i => hdpres i k') (hS.destsO k' hk')
        · show pdest (st.passes.set (p - 1) ((st.passes.getD (p - 1) Pass.empty).setDyn (C.g.node a).target_kind
              ⟨((st.passes.getD (p - 1) Pass.empty).dyn (C.g.node a).target_kind).tasks ++
                [⟨st.graph.nodes.length, Rectangle.zero⟩],
               ((st.passes.getD (p - 1) Pass.empty).dyn
                 (C.g.node a).target_kind).destination⟩)) p k = some cd
          rw [hdpres]
          exact hS.cdv
      · unfold FullVal
        rw [hA]
        right
        have hvloc : ((st.graph.dependencies ++ [a]).set loc
            st.graph.nodes.length).getD loc 0 = st.graph.nodes.length := by
          refine listGetD_set_self _ _ _ _ ?_
          rw [List.length_append]
          omega
        refine ⟨?_, hkay, p - 1, ?_, ?_, ?_⟩
        · rw [hvloc]
          rw [listGetD_set_self _ _ _ _ (by rw [hS.rdlen]; exact ha_lt)]
        · rw [hyp]
          omega
        · rw [hvloc, ← hkay]
          refine ⟨⟨st.graph.nodes.length, Rectangle.zero⟩, ?_, rfl⟩
          show (⟨st.graph.nodes.length, Rectangle.zero⟩ : GTask) ∈
            ptasks (st.passes.set (p - 1) ((st.passes.getD (p - 1) Pass.empty).setDyn (C.g.node a).target_kind
              ⟨((st.passes.getD (p - 1) Pass.empty).dyn (C.g.node a).target_kind).tasks ++
                [⟨st.graph.nodes.length, Rectangle.zero⟩],
               ((st.passes.getD (p - 1) Pass.empty).dyn
                 (C.g.node a).target_kind).destination⟩)) (p - 1) (C.g.node a).target_kind
          rw [htasks_at]
          exact List.mem_append_right _ (by simp)
        · rw [hyp, hyk]
          show pdest (st.passes.set (p - 1) ((st.passes.getD (p - 1) Pass.empty).setDyn (C.g.node a).target_kind
              ⟨((st.passes.getD (p - 1) Pass.empty).dyn (C.g.node a).target_kind).tasks ++
                [⟨st.graph.nodes.length, Rectangle.zero⟩],
               ((st.passes.getD (p - 1) Pass.empty).dyn
                 (C.g.node a).target_kind).destination⟩)) p k =
            pdest (st.passes.set (p - 1) ((st.passes.getD (p - 1) Pass.empty).setDyn (C.g.node a).target_kind
              ⟨((st.passes.getD (p - 1) Pass.empty).dyn (C.g.node a).target_kind).tasks ++
                [⟨st.graph.nodes.length, Rectangle.zero⟩],
               ((st.passes.getD (p - 1) Pass.empty).dyn
                 (C.g.node a).target_kind).destination⟩)) (passIdxOf C.g a) k
          rw [hdpres, hdpres]
          rw [show pdest st.passes p k = some cd from hS.cdv, hconf']
    · -- existing redirect: reuse the copy task b
      have hrec := hS.redir a b hrd
      obtain ⟨hb1, hb2, hb3, hb4, hb5, hb6, hb7, tp, dv, hc1, hc2, hc3, hc4, hc5, hc6⟩ := hrec
      refine ⟨⟨⟨st.graph.nodes, st.graph.dependencies.set loc b, st.graph.roots⟩,
          st.passes, st.node_redirects, st.nth_color, st.nth_alpha⟩, ?_, ?_, ?_⟩
      · simp only [ppScanLoc, hval, hnp, hget]
        rw [if_pos hconf]
        simp only [handle_conflict_using_bit_task, hrd]
      · have E : PPStep st ⟨⟨st.graph.nodes, st.graph.dependencies.set loc b,
            st.graph.roots⟩, st.passes, st.node_redirects, st.nth_color, st.nth_alpha⟩ :=
          ⟨le_refl _, fun _ _ => rfl, le_of_eq (by rw [List.length_set]), rfl, fun _ => rfl,
           rfl, fun _ _ h => h, fun _ _ _ h => h, fun _ _ _ h => Or.inl h⟩
        have hval' : ∀ loc', loc' ≠ loc → loc' < C.g.dependencies.length →
            (st.graph.dependencies.set loc b).getD loc' 0 =
            st.graph.dependencies.getD loc' 0 := by
          intro loc' hne _
          exact listGetD_set_ne _ _ _ _ _ (fun hc => hne hc.symm)
        have hdest' : ∀ i k', pdest st.passes i k' = pdest st.passes i k' := fun _ _ => rfl
        have hdp := deps_pres C hS E hy hyact hydyn hyp hloc hval' hdest'
        refine ⟨⟨hS.glen, hS.gnodes, ?_, hS.rdlen, hS.plen, hS.fixedEq, hS.tasksHi,
          hS.origSub, hS.tasksBound, hS.occ, ?_, hS.destsK, hS.destsO, hS.cdv,
          hdp.1, hdp.2⟩, E, fun k' => by cases k' <;> rfl,
          fun loc' h hlt => hval' loc' h hlt, fun _ _ => rfl, fun _ _ _ => rfl⟩
        · rw [List.length_set]
          exact hS.dlen
        · intro a' b' h'
          refine BlitRec_mono C (hS.redir a' b' h') E (le_refl p) ?_ (fun _ _ _ => rfl)
          intro loc' h1 _
          exact List.getElem?_set_ne (by omega)
      · unfold FullVal
        rw [hA]
        right
        have hvloc : (st.graph.dependencies.set loc b).getD loc 0 = b :=
          listGetD_set_self _ _ _ _ hloc_lt'
        refine ⟨?_, hkay, tp, ?_, ?_, ?_⟩
        · rw [hvloc]
          exact hrd
        · rw [hyp]
          omega
        · rw [hvloc, ← hkay]
          exact hc3
        · rw [hyp, hyk]
          rw [show pdest st.passes p k = some cd from hS.cdv, hconf']

/- ============================================================
   Scanning all dependency locations of one task
   ============================================================ -/

theorem range'_nodup (s n : Nat) : (List.range' s n).Nodup := by
  induction n generalizing s with
  | zero => exact List.nodup_nil
  | succ n ih =>
    rw [List.range'_succ]
    refine List.nodup_cons.mpr ⟨?_, ih (s + 1)⟩
    intro hc
    rw [mem_range'_iff] at hc
    omega

theorem ppScanLocs_fold (C : PPCtx) {p : Nat} {k : TargetKind} {cd : Nat} {y : Nat}
    (hy : y < C.g.nodes.length) (hyact : C.active.getD y false = true)
    (hydyn : (C.g.node y).alloc_kind = AllocKind.Dynamic)
    (hyk : (C.g.node y).target_kind = k) (hyp : passIdxOf C.g y = p) :
    ∀ (L : List Nat) (st : PPState), SInv C p k cd st →
    (∀ loc ∈ L, loc ∈ C.g.depLocs y) → L.Nodup →
    (∀ loc ∈ L, st.graph.dependencies.getD loc 0 = C.g.dependencies.getD loc 0) →
    ∃ st', L.foldlM (ppScanLoc C.np cd p) st = some st' ∧
      ScanOut C p k cd (fun l => l ∈ L) st st' ∧
      (∀ loc ∈ L, FullVal C st' y loc) := by
  intro L
  induction L with
  | nil =>
    intro st hS _ _ _
    refine ⟨st, rfl, ScanOut_rfl C p k cd _ hS, ?_⟩
    intro loc hl
    exact absurd hl (List.not_mem_nil loc)
  | cons l0 rest ih =>
    intro st hS hsub hnd horig
    have hnd' := List.nodup_cons.mp hnd
    have hl0 : l0 ∈ C.g.depLocs y := hsub l0 (List.mem_cons_self l0 rest)
    obtain ⟨st1, he1, hout1, hfv1⟩ := ppScanLoc_ok C hS hy hyact hydyn hyk hyp hl0
      (horig l0 (List.mem_cons_self l0 rest))
    have horig1 : ∀ loc ∈ rest, st1.graph.dependencies.getD loc 0 =
        C.g.dependencies.getD loc 0 := by
      intro loc hl
      have hne : ¬loc = l0 := by
        intro hc
        rw [hc] at hl
        exact hnd'.1 hl
      have hlt : loc < C.g.dependencies.length :=
        depLocs_lt C.g C.hWF hy (hsub loc (List.mem_cons_of_mem l0 hl))
      rw [hout1.vpres loc hne hlt]
      exact horig loc (List.mem_cons_of_mem l0 hl)
    obtain ⟨st2, he2, hout2, hfv2⟩ := ih st1 hout1.inv
      (fun loc hl => hsub loc (List.mem_cons_of_mem l0 hl)) hnd'.2 horig1
    refine ⟨st2, ?_, ?_, ?_⟩
    · rw [List.foldlM_cons, he1]
      exact he2
    · refine ScanOut_weaken C ?_ (ScanOut_trans C hout1 hout2)
      intro l h
      exact List.mem_cons.mpr h
    · intro loc hmem
      rcases List.mem_cons.mp hmem with rfl | hr
      · have hloclt : loc < C.g.dependencies.length := depLocs_lt C.g C.hWF hy hl0
        have hmem' : C.g.dependencies.getD loc 0 ∈ C.g.depsOf y :=
          Graph.depsOf_getD_mem C.g (C.hWF.1 y hy).2.1 hl0
        exact FullVal_mono C hfv1 hout2.step (hout2.vpres loc hnd'.1 hloclt)
          (fun i _ => hout2.dpres i _) (le_of_lt (C.edge_lt hyact hmem').1)
      · exact hfv2 loc hr

theorem ppScanTask_ok (C : PPCtx) {p : Nat} {k : TargetKind} {cd : Nat} {st : PPState}
    (hS : SInv C p k cd st) {y : Nat}
    (hy : y < C.g.nodes.length) (hyact : C.active.getD y false = true)
    (hydyn : (C.g.node y).alloc_kind = AllocKind.Dynamic)
    (hyk : (C.g.node y).target_kind = k) (hyp : passIdxOf C.g y = p)
    (horig : sliceOrig C st y) :
    ∃ st', ppScanTask C.np cd p st y = some st' ∧
      ScanOut C p k cd (fun l => l ∈ C.g.depLocs y) st st' ∧
      (∀ loc ∈ C.g.depLocs y, FullVal C st' y loc) := by
  have hdl : st.graph.depLocs y = C.g.depLocs y := by
    unfold Graph.depLocs
    rw [Graph.node_congr y (hS.gnodes y hy)]
  unfold ppScanTask
  rw [hdl]
  refine ppScanLocs_fold C hy hyact hydyn hyk hyp (C.g.depLocs y) st hS (fun _ h => h) ?_ horig
  unfold Graph.depLocs
  exact range'_nodup _ _

/- ============================================================
   Kind-agnostic invariant between target-kind processing steps
   ============================================================ -/

structure KInv (C : PPCtx) (p : Nat) (st : PPState) : Prop where
  glen : C.g.nodes.length ≤ st.graph.nodes.length
  gnodes : ∀ i, i < C.g.nodes.length → st.graph.nodes[i]? = C.g.nodes[i]?
  dlen : C.g.dependencies.length ≤ st.graph.dependencies.length
  rdlen : st.node_redirects.length = C.g.nodes.length
  plen : st.passes.length = C.passes0.length
  fixedEq : ∀ i, (st.passes.getD i Pass.empty).fixed_targets =
    (C.passes0.getD i Pass.empty).fixed_targets
  tasksHi : ∀ i k', p ≤ i → ptasks st.passes i k' = ptasks C.passes0 i k'
  origSub : ∀ i k', ∀ t ∈ ptasks C.passes0 i k', t ∈ ptasks st.passes i k'
  tasksBound : ∀ i k', ∀ t ∈ ptasks st.passes i k', t.node < st.graph.nodes.length
  occ : ∀ i k', ∀ t ∈ ptasks st.passes i k',
    t ∈ ptasks C.passes0 i k' ∨
    (C.g.nodes.length ≤ t.node ∧ ∃ a, st.node_redirects.getD a none = some t.node)
  redir : ∀ a b, st.node_redirects.getD a none = some b → BlitRec C st p a b
  depsLow : ∀ y, y < C.g.nodes.length → C.active.getD y false = true →
    (C.g.node y).alloc_kind = AllocKind.Dynamic → passIdxOf C.g y < p →
    ∀ loc ∈ C.g.depLocs y, FullVal C st y loc
  depsElse : ∀ y, y < C.g.nodes.length →
    ¬(C.active.getD y false = true ∧ (C.g.node y).alloc_kind = AllocKind.Dynamic) →
    ∀ loc ∈ C.g.depLocs y, st.graph.dependencies.getD loc 0 = C.g.dependencies.getD loc 0

theorem SInv.toK {C : PPCtx} {p : Nat} {k : TargetKind} {cd : Nat} {st : PPState}
    (h : SInv C p k cd st) : KInv C p st :=
  ⟨h.glen, h.gnodes, h.dlen, h.rdlen, h.plen, h.fixedEq, h.tasksHi, h.origSub,
   h.tasksBound, h.occ, h.redir, h.depsLow, h.depsElse⟩

theorem KInv.toS {C : PPCtx} {p : Nat} {k : TargetKind} {cd : Nat} {st : PPState}
    (h : KInv C p st) (hdK : DestsInv C.tex st.passes k (st.nth k) (p + 1))
    (hdO : ∀ k', k' ≠ k → DestsInv C.tex st.passes k' (st.nth k') (p + 1))
    (hcd : pdest st.passes p k = some cd) : SInv C p k cd st :=
  ⟨h.glen, h.gnodes, h.dlen, h.rdlen, h.plen, h.fixedEq, h.tasksHi, h.origSub,
   h.tasksBound, h.occ, h.redir, hdK, hdO, hcd, h.depsLow, h.depsElse⟩

/- ============================================================
   Scanning all tasks of pass p, kind k
   ============================================================ -/

theorem ppScanTasks_fold (C : PPCtx) {p : Nat} {k : TargetKind} {cd : Nat} (T : List GTask)
    (hT : T = ptasks C.passes0 p k) :
    ∀ (ns : List Nat) (st : PPState), SInv C p k cd st →
    ns.Nodup → (∀ n ∈ ns, n < T.length) →
    ((st.passes.getD p Pass.empty).dyn k).tasks = T →
    (∀ n ∈ ns, ∀ hn : n < T.length, sliceOrig C st (T[n]).node) →
    ∃ st', ns.foldlM (fun s nth_node => ppScanTask C.np cd p s
        (((s.passes.getD p Pass.empty).dyn k).tasks.getD nth_node default).node) st =
          some st' ∧
      SInv C p k cd st' ∧ PPStep st st' ∧ (∀ k', st'.nth k' = st.nth k') ∧
      (∀ i k', pdest st'.passes i k' = pdest st.passes i k') ∧
      (∀ i k', p ≤ i → ptasks st'.passes i k' = ptasks st.passes i k') ∧
      (∀ loc', (∀ n ∈ ns, ∀ hn : n < T.length, loc' ∉ C.g.depLocs (T[n]).node) →
        loc' < C.g.dependencies.length →
        st'.graph.dependencies.getD loc' 0 = st.graph.dependencies.getD loc' 0) ∧
      (∀ n ∈ ns, ∀ hn : n < T.length, ∀ loc ∈ C.g.depLocs (T[n]).node,
        FullVal C st' (T[n]).node loc) := by
  have hTd : T = dynTasksSpec C.g C.active C.g.nodes.length p k :=
    hT.trans (C.htasks0 p k)
  have hinj : ∀ n1 n2, n1 < T.length → n2 < T.length →
      ∀ h1 : n1 < T.length, ∀ h2 : n2 < T.length,
      (T[n1]).node = (T[n2]).node → n1 = n2 := by
    intro n1 n2 _ _ h1 h2 heq
    have hb1 : n1 < (dynTasksSpec C.g C.active C.g.nodes.length p k).length := by
      rw [← hTd]
      exact h1
    have hb2 : n2 < (dynTasksSpec C.g C.active C.g.nodes.length p k).length := by
      rw [← hTd]
      exact h2
    refine dynTasksSpec_node_inj hb1 hb2 ?_
    rw [← List.getElem_of_eq hTd h1, ← List.getElem_of_eq hTd h2]
    exact heq
  have hprops : ∀ n, ∀ hn : n < T.length,
      (T[n]).node < C.g.nodes.length ∧ C.active.getD (T[n]).node false = true ∧
      (C.g.node (T[n]).node).alloc_kind = AllocKind.Dynamic ∧
      (C.g.node (T[n]).node).target_kind = k ∧ passIdxOf C.g (T[n]).node = p := by
    intro n hn
    have hmem : T[n] ∈ T := List.getElem_mem hn
    have hmem2 : T[n] ∈ ptasks C.passes0 p k := by
      rw [← hT]
      exact hmem
    obtain ⟨h1, h2, h3, h4, h5, _⟩ := C.tasks0_mem hmem2
    exact ⟨h1, h2, h3, h4, h5⟩
  intro ns
  induction ns with
  | nil =>
    intro st hS _ _ _ _
    exact ⟨st, rfl, hS, PPStep_rfl st, fun _ => rfl, fun _ _ => rfl, fun _ _ _ => rfl,
      fun _ _ _ => rfl, fun n hn => absurd hn (List.not_mem_nil n)⟩
  | cons n0 rest ih =>
    intro st hS hnd hbnd hpT hfresh
    have hnd' := List.nodup_cons.mp hnd
    have hn0 : n0 < T.length := hbnd n0 (List.mem_cons_self n0 rest)
    obtain ⟨hy1, hy2, hy3, hy4, hy5⟩ := hprops n0 hn0
    have hgd : ((st.passes.getD p Pass.empty).dyn k).tasks.getD n0 default = T[n0] := by
      rw [hpT]
      exact listGetD_eq_getElem T n0 default hn0
    obtain ⟨st1, he1, hout1, hfv1⟩ := ppScanTask_ok C hS hy1 hy2 hy3 hy4 hy5
      (hfresh n0 (List.mem_cons_self n0 rest) hn0)
    have hdisj : ∀ n, n ∈ rest → ∀ hn : n < T.length, ∀ loc ∈ C.g.depLocs (T[n]).node,
        loc ∉ C.g.depLocs (T[n0]).node := by
      intro n hnr hn loc hloc
      have hne : (T[n]).node ≠ (T[n0]).node := by
        intro hc
        exact hnd'.1 (by rw [hinj n n0 hn hn0 hn hn0 hc] at hnr; exact hnr)
      exact depLocs_disjoint C.g C.hWF (hprops n hn).1 hne hloc
    have hfresh1 : ∀ n ∈ rest, ∀ hn : n < T.length, sliceOrig C st1 (T[n]).node := by
      intro n hnr hn loc hloc
      rw [hout1.vpres loc (hdisj n hnr hn loc hloc)
        (depLocs_lt C.g C.hWF (hprops n hn).1 hloc)]
      exact hfresh n (List.mem_cons_of_mem n0 hnr) hn loc hloc
    have hpT1 : ((st1.passes.getD p Pass.empty).dyn k).tasks = T := by
      rw [ptasks_fold, hout1.tpres p k (le_refl p), ← ptasks_fold]
      exact hpT
    obtain ⟨st2, he2, hS2, hstep2, hnth2, hdpres2, htpres2, hvpres2, hfv2⟩ :=
      ih st1 hout1.inv hnd'.2 (fun n hn => hbnd n (List.mem_cons_of_mem n0 hn)) hpT1 hfresh1
    refine ⟨st2, ?_, hS2, PPStep_trans hout1.step hstep2, ?_, ?_, ?_, ?_, ?_⟩
    · rw [List.foldlM_cons, hgd, he1]
      exact he2
    · intro k'
      rw [hnth2 k', hout1.nth k']
    · intro i k'
      rw [hdpres2 i k', hout1.dpres i k']
    · intro i k' hi
      rw [htpres2 i k' hi, hout1.tpres i k' hi]
    · intro loc' hnot hlt
      rw [hvpres2 loc' (fun n hn hb => hnot n (List.mem_cons_of_mem n0 hn) hb) hlt]
      exact hout1.vpres loc'
        (hnot n0 (List.mem_cons_self n0 rest) hn0) hlt
    · intro n hn hb loc hloc
      rcases List.mem_cons.mp hn with rfl | hr
      · have hloclt : loc < C.g.dependencies.length :=
          depLocs_lt C.g C.hWF hy1 hloc
        have hmem' : C.g.dependencies.getD loc 0 ∈ C.g.depsOf (T[n]).node :=
          Graph.depsOf_getD_mem C.g (C.hWF.1 _ hy1).2.1 hloc
        refine FullVal_mono C (hfv1 loc hloc) hstep2 ?_
          (fun i _ => hdpres2 i _) (le_of_lt (C.edge_lt hy2 hmem').1)
        refine hvpres2 loc ?_ hloclt
        intro n2 hn2 hb2 hc
        exact hdisj n2 hn2 hb2 loc hc hloc
      · exact hfv2 n hr hb loc hloc

/- ============================================================
   Processing one target kind of one pass
   ============================================================ -/

theorem bumpNth_passes (st : PPState) (k : TargetKind) : (st.bumpNth k).passes = st.passes := by
  cases k <;> rfl

theorem bumpNth_graph (st : PPState) (k : TargetKind) : (st.bumpNth k).graph = st.graph := by
  cases k <;> rfl

theorem bumpNth_redirects (st : PPState) (k : TargetKind) :
    (st.bumpNth k).node_redirects = st.node_redirects := by
  cases k <;> rfl

theorem bumpNth_nth_self (st : PPState) (k : TargetKind) :
    (st.bumpNth k).nth k = st.nth k + 1 := by
  cases k <;> rfl

theorem bumpNth_nth_other (st : PPState) (k k' : TargetKind) (h : k' ≠ k) :
    (st.bumpNth k).nth k' = st.nth k' := by
  cases k <;> cases k' <;> first | rfl | exact absurd rfl h

theorem ppKindCore (C : PPCtx) {p : Nat} (k : TargetKind) {st st2 : PPState}
    (hp : p < C.passes0.length) (hK : KInv C p st)
    (hdK : DestsInv C.tex st.passes k (st.nth k) p)
    (hdO : ∀ k', k' ≠ k → DestsInv C.tex st.passes k' (st.nth k') (p + 1))
    (hfresh : ∀ y', y' < C.g.nodes.length → C.active.getD y' false = true →
      (C.g.node y').alloc_kind = AllocKind.Dynamic →
      (C.g.node y').target_kind = k → passIdxOf C.g y' = p → sliceOrig C st y')
    (hst2g : st2.graph = st.graph) (hst2r : st2.node_redirects = st.node_redirects)
    (hst2p : st2.passes = st.passes.set p ((st.passes.getD p Pass.empty).setDyn k
      ⟨((st.passes.getD p Pass.empty).dyn k).tasks,
       some (C.tex k (st.nth k % 2))⟩))
    (hst2nk : st2.nth k = st.nth k + 1)
    (hst2no : ∀ k', k' ≠ k → st2.nth k' = st.nth k')
    (ns : List Nat) (hnsd : ns.Nodup)
    (hnsb : ∀ n ∈ ns, n < (ptasks C.passes0 p k).length)
    (hnsc : ∀ n, n < (ptasks C.passes0 p k).length → n ∈ ns) :
    ∃ st', ns.foldlM (fun s nth_node => ppScanTask C.np (C.tex k (st.nth k % 2)) p s
        (((s.passes.getD p Pass.empty).dyn k).tasks.getD nth_node default).node) st2 =
          some st' ∧
      KInv C p st' ∧ PPStep st st' ∧
      (∀ k', k' ≠ k → st'.nth k' = st.nth k') ∧
      DestsInv C.tex st'.passes k (st'.nth k) (p + 1) ∧
      (∀ i k', ¬(i = p ∧ k' = k) → pdest st'.passes i k' = pdest st.passes i k') ∧
      (∀ i k', p ≤ i → ptasks st'.passes i k' = ptasks st.passes i k') ∧
      (∀ loc', (∀ y', y' < C.g.nodes.length → C.active.getD y' false = true →
        (C.g.node y').alloc_kind = AllocKind.Dynamic → (C.g.node y').target_kind = k →
        passIdxOf C.g y' = p → loc' ∉ C.g.depLocs y') →
        loc' < C.g.dependencies.length →
        st'.graph.dependencies.getD loc' 0 = st.graph.dependencies.getD loc' 0) ∧
      (∀ y', y' < C.g.nodes.length → C.active.getD y' false = true →
        (C.g.node y').alloc_kind = AllocKind.Dynamic → (C.g.node y').target_kind ≠ k →
        passIdxOf C.g y' = p → ∀ loc ∈ C.g.depLocs y', FullVal C st y' loc →
        FullVal C st' y' loc) ∧
      (∀ y', y' < C.g.nodes.length → C.active.getD y' false = true →
        (C.g.node y').alloc_kind = AllocKind.Dynamic → (C.g.node y').target_kind = k →
        passIdxOf C.g y' = p → ∀ loc ∈ C.g.depLocs y', FullVal C st' y' loc) := by
  have hplen' : p < st.passes.length := by
    rw [hK.plen]
    exact hp
  have hd2 : ∀ i k'', pdest st2.passes i k'' =
      if i = p ∧ k'' = k then some (C.tex k (st.nth k % 2)) else pdest st.passes i k'' := by
    intro i k''
    rw [hst2p, pdest_after_set st.passes hplen' i k'']
    by_cases hi : i = p
    · rw [if_pos hi, dyn_setDyn]
      by_cases hk'' : k'' = k
      · rw [if_pos hk'', if_pos ⟨hi, hk''⟩]
      · rw [if_neg hk'', if_neg (fun hc => hk'' hc.2), hi]
        rfl
    · rw [if_neg hi, if_neg (fun hc => hi hc.1)]
  have ht2 : ∀ i k'', ptasks st2.passes i k'' = ptasks st.passes i k'' := by
    intro i k''
    rw [hst2p, ptasks_after_set st.passes hplen' i k'']
    by_cases hi : i = p
    · rw [if_pos hi, dyn_setDyn]
      by_cases hk'' : k'' = k
      · rw [if_pos hk'', hi, hk'']
        rfl
      · rw [if_neg hk'', hi]
        rfl
    · rw [if_neg hi]
  have hf2 : ∀ i, (st2.passes.getD i Pass.empty).fixed_targets =
      (st.passes.getD i Pass.empty).fixed_targets := by
    intro i
    rw [hst2p]
    by_cases hi : i = p
    · rw [hi, listGetD_set_self _ _ _ _ hplen', Pass.fixed_setDyn]
    · rw [listGetD_set_ne _ _ _ _ _ (fun hc => hi hc.symm)]
  have E2 : PPStep st st2 := by
    refine ⟨le_of_eq (by rw [hst2g]), fun i _ => by rw [hst2g], le_of_eq (by rw [hst2g]),
      by rw [hst2p, List.length_set], hf2, by rw [hst2r], fun a b h => by rw [hst2r]; exact h,
      fun i k'' t ht => by rw [ht2]; exact ht, fun i k'' t ht => Or.inl (by rw [← ht2]; exact ht)⟩
  have hS2 : SInv C p k (C.tex k (st.nth k % 2)) st2 := by
    refine ⟨?_, ?_, ?_, ?_, ?_, ?_, ?_, ?_, ?_, ?_, ?_, ?_, ?_, ?_, ?_, ?_⟩
    · rw [hst2g]
      exact hK.glen
    · intro i hi
      rw [hst2g]
      exact hK.gnodes i hi
    · rw [hst2g]
      exact hK.dlen
    · rw [hst2r]
      exact hK.rdlen
    · rw [hst2p, List.length_set]
      exact hK.plen
    · intro i
      rw [hf2 i]
      exact hK.fixedEq i
    · intro i k' hi
      rw [ht2 i k']
      exact hK.tasksHi i k' hi
    · intro i k' t ht
      rw [ht2 i k']
      exact hK.origSub i k' t ht
    · intro i k' t ht
      rw [hst2g]
      rw [ht2 i k'] at ht
      exact hK.tasksBound i k' t ht
    · intro i k' t ht
      rw [ht2 i k'] at ht
      rcases hK.occ i k' t ht with h | ⟨h1, a, ha⟩
      · exact Or.inl h
      · exact Or.inr ⟨h1, a, by rw [hst2r]; exact ha⟩
    · intro a b h
      rw [hst2r] at h
      refine BlitRec_mono C (hK.redir a b h) E2 (le_refl p) ?_ ?_
      · intro loc _ _
        rw [hst2g]
      · intro i k' hi
        rw [hd2 i k', if_neg (fun hc => absurd hc.1 (by omega))]
    · rw [hst2nk]
      refine DestsInv_extend hdK ?_ ?_
      · show ((st2.passes.getD p Pass.empty).dyn k).destination =
          some (C.tex k (st.nth k % 2))
        rw [pdest_fold, hd2, if_pos ⟨rfl, rfl⟩]
      · intro i hi
        show ((st2.passes.getD i Pass.empty).dyn k).destination =
          ((st.passes.getD i Pass.empty).dyn k).destination
        rw [pdest_fold, pdest_fold, hd2, if_neg (fun hc => hi hc.1)]
    · intro k' hk'
      rw [hst2no k' hk']
      refine DestsInv_congr ?_ (hdO k' hk')
      intro i
      show ((st2.passes.getD i Pass.empty).dyn k').destination =
        ((st.passes.getD i Pass.empty).dyn k').destination
      rw [pdest_fold, pdest_fold, hd2, if_neg (fun hc => hk' hc.2)]
    · rw [hd2, if_pos ⟨rfl, rfl⟩]
    · intro y hy hact hdyn hplt loc hloc
      have hmem' : C.g.dependencies.getD loc 0 ∈ C.g.depsOf y :=
        Graph.depsOf_getD_mem C.g (C.hWF.1 y hy).2.1 hloc
      refine FullVal_mono C (hK.depsLow y hy hact hdyn hplt loc hloc) E2 (by rw [hst2g]) ?_
        (le_of_lt (C.edge_lt hact hmem').1)
      intro i hi
      rw [hd2, if_neg (fun hc => by rw [hc.1] at hi; omega)]
    · intro y hy hnot loc hloc
      rw [hst2g]
      exact hK.depsElse y hy hnot loc hloc
  have hT : ((st2.passes.getD p Pass.empty).dyn k).tasks = ptasks C.passes0 p k := by
    rw [ptasks_fold, ht2, hK.tasksHi p k (le_refl p)]
  have hfresh2 : ∀ n ∈ ns, ∀ hn : n < (ptasks C.passes0 p k).length,
      sliceOrig C st2 ((ptasks C.passes0 p k)[n]).node := by
    intro n hnn hn loc hloc
    have hmem : (ptasks C.passes0 p k)[n] ∈ ptasks C.passes0 p k := List.getElem_mem hn
    obtain ⟨h1, h2, h3, h4, h5, _⟩ := C.tasks0_mem hmem
    show st2.graph.dependencies.getD loc 0 = C.g.dependencies.getD loc 0
    rw [hst2g]
    exact hfresh _ h1 h2 h3 h4 h5 loc hloc
  obtain ⟨st', heq, hS', hstep', hnth', hdpres', htpres', hvpres', hfv'⟩ :=
    ppScanTasks_fold C (ptasks C.passes0 p k) rfl ns st2 hS2 hnsd hnsb hT hfresh2
  refine ⟨st', heq, hS'.toK, PPStep_trans E2 hstep', ?_, ?_, ?_, ?_, ?_, ?_, ?_⟩
  · intro k' hk'
    rw [hnth' k', hst2no k' hk']
  · exact hS'.destsK
  · intro i k' hik
    rw [hdpres' i k', hd2, if_neg hik]
  · intro i k' hi
    rw [htpres' i k' hi, ht2]
  · intro loc' hnot hlt
    have hcond : ∀ n ∈ ns, ∀ hn : n < (ptasks C.passes0 p k).length,
        loc' ∉ C.g.depLocs ((ptasks C.passes0 p k)[n]).node := by
      intro n hnn hn
      have hmem : (ptasks C.passes0 p k)[n] ∈ ptasks C.passes0 p k := List.getElem_mem hn
      obtain ⟨h1, h2, h3, h4, h5, _⟩ := C.tasks0_mem hmem
      exact hnot _ h1 h2 h3 h4 h5
    rw [hvpres' loc' hcond hlt, hst2g]
  · intro y' h1 h2 h3 h4 h5 loc hloc hFV
    have hloclt : loc < C.g.dependencies.length := depLocs_lt C.g C.hWF h1 hloc
    have hmem' : C.g.dependencies.getD loc 0 ∈ C.g.depsOf y' :=
      Graph.depsOf_getD_mem C.g (C.hWF.1 y' h1).2.1 hloc
    refine FullVal_mono C hFV (PPStep_trans E2 hstep') ?_ ?_
      (le_of_lt (C.edge_lt h2 hmem').1)
    · have hcond : ∀ n ∈ ns, ∀ hn : n < (ptasks C.passes0 p k).length,
          loc ∉ C.g.depLocs ((ptasks C.passes0 p k)[n]).node := by
        intro n hnn hn hc
        have hmem : (ptasks C.passes0 p k)[n] ∈ ptasks C.passes0 p k := List.getElem_mem hn
        obtain ⟨g1, g2, g3, g4, g5, _⟩ := C.tasks0_mem hmem
        have hne : y' ≠ ((ptasks C.passes0 p k)[n]).node := by
          intro hceq
          rw [← hceq] at g4
          exact h4 g4
        exact depLocs_disjoint C.g C.hWF h1 hne hloc hc
      rw [hvpres' loc hcond hloclt, hst2g]
    · intro i hi
      rw [hdpres' i _, hd2, if_neg (fun hc => h4 hc.2)]
  · intro y' h1 h2 h3 h4 h5 loc hloc
    have hmem : (⟨y', Rectangle.zero⟩ : GTask) ∈ ptasks C.passes0 p k := by
      rw [show ptasks C.passes0 p k = dynTasksSpec C.g C.active C.g.nodes.length p k
        from C.htasks0 p k]
      exact dynTasksSpec_mem.mpr ⟨y', h1, cpPred_spec.mpr ⟨h2, h3, h4, h5⟩, rfl⟩
    obtain ⟨n, hn, hne⟩ := List.mem_iff_getElem.mp hmem
    have hnode : ((ptasks C.passes0 p k)[n]).node = y' := by
      rw [hne]
    have hres := hfv' n (hnsc n hn) hn loc (by rw [hnode]; exact hloc)
    rw [hnode] at hres
    exact hres

theorem ppProcessKind_eq (np : List (Option Nat)) (tex : TargetKind → Nat → Nat)
    (p : Nat) (st : PPState) (k : TargetKind)
    (h : ((st.passes.getD p Pass.empty).dyn k).tasks.isEmpty = false) :
    ppProcessKind np tex p st k =
      (List.range (((st.passes.set p ((st.passes.getD p Pass.empty).setDyn k
          ⟨((st.passes.getD p Pass.empty).dyn k).tasks,
           some (tex k (st.nth k % 2))⟩)).getD p Pass.empty).dyn k).tasks.length).foldlM
        (fun s nth_node => ppScanTask np (tex k (st.nth k % 2)) p s
          (((s.passes.getD p Pass.empty).dyn k).tasks.getD nth_node default).node)
        ⟨st.graph, st.passes.set p ((st.passes.getD p Pass.empty).setDyn k
          ⟨((st.passes.getD p Pass.empty).dyn k).tasks,
           some (tex k (st.nth k % 2))⟩), st.node_redirects,
         (st.bumpNth k).nth_color, (st.bumpNth k).nth_alpha⟩ := by
  cases k <;> (unfold ppProcessKind; rw [if_neg (by rw [h]; exact Bool.false_ne_true)]) <;> rfl

theorem ppProcessKind_ok (C : PPCtx) {p : Nat} (k : TargetKind) {st : PPState}
    (hp : p < C.passes0.length)
    (hK : KInv C p st)
    (hdK : DestsInv C.tex st.passes k (st.nth k) p)
    (hdO : ∀ k', k' ≠ k → DestsInv C.tex st.passes k' (st.nth k') (p + 1))
    (hfresh : ∀ y', y' < C.g.nodes.length → C.active.getD y' false = true →
      (C.g.node y').alloc_kind = AllocKind.Dynamic →
      (C.g.node y').target_kind = k → passIdxOf C.g y' = p → sliceOrig C st y') :
    ∃ st', ppProcessKind C.np C.tex p st k = some st' ∧
      KInv C p st' ∧ PPStep st st' ∧
      (∀ k', k' ≠ k → st'.nth k' = st.nth k') ∧
      DestsInv C.tex st'.passes k (st'.nth k) (p + 1) ∧
      (∀ i k', ¬(i = p ∧ k' = k) → pdest st'.passes i k' = pdest st.passes i k') ∧
      (∀ i k', p ≤ i → ptasks st'.passes i k' = ptasks st.passes i k') ∧
      (∀ loc', (∀ y', y' < C.g.nodes.length → C.active.getD y' false = true →
        (C.g.node y').alloc_kind = AllocKind.Dynamic → (C.g.node y').target_kind = k →
        passIdxOf C.g y' = p → loc' ∉ C.g.depLocs y') →
        loc' < C.g.dependencies.length →
        st'.graph.dependencies.getD loc' 0 = st.graph.dependencies.getD loc' 0) ∧
      (∀ y', y' < C.g.nodes.length → C.active.getD y' false = true →
        (C.g.node y').alloc_kind = AllocKind.Dynamic → (C.g.node y').target_kind ≠ k →
        passIdxOf C.g y' = p → ∀ loc ∈ C.g.depLocs y', FullVal C st y' loc →
        FullVal C st' y' loc) ∧
      (∀ y', y' < C.g.nodes.length → C.active.getD y' false = true →
        (C.g.node y').alloc_kind = AllocKind.Dynamic → (C.g.node y').target_kind = k →
        passIdxOf C.g y' = p → ∀ loc ∈ C.g.depLocs y', FullVal C st' y' loc) := by
  by_cases hemp : ((st.passes.getD p Pass.empty).dyn k).tasks.isEmpty = true
  · refine ⟨st, ?_, hK, PPStep_rfl st, fun _ _ => rfl, DestsInv_weaken (by omega) hdK,
      fun _ _ _ => rfl, fun _ _ _ => rfl, fun _ _ _ => rfl, fun _ _ _ _ _ _ _ _ h => h, ?_⟩
    · unfold ppProcessKind
      rw [if_pos hemp]
    · intro y' h1 h2 h3 h4 h5 loc hloc
      exfalso
      have hmem : (⟨y', Rectangle.zero⟩ : GTask) ∈ ptasks C.passes0 p k := by
        rw [show ptasks C.passes0 p k =
          dynTasksSpec C.g C.active C.g.nodes.length p k from C.htasks0 p k]
        exact dynTasksSpec_mem.mpr ⟨y', h1, cpPred_spec.mpr ⟨h2, h3, h4, h5⟩, rfl⟩
      have hempty : ptasks st.passes p k = [] := by
        have := List.isEmpty_iff.mp hemp
        exact this
      have hsub := hK.origSub p k _ hmem
      rw [hempty] at hsub
      exact absurd hsub (List.not_mem_nil _)
  · have hemp' : ((st.passes.getD p Pass.empty).dyn k).tasks.isEmpty = false := by
      revert hemp
      cases ((st.passes.getD p Pass.empty).dyn k).tasks.isEmpty <;> simp
    have hplen' : p < st.passes.length := by
      rw [hK.plen]
      exact hp
    rw [ppProcessKind_eq C.np C.tex p st k hemp']
    have hNT : (((st.passes.set p ((st.passes.getD p Pass.empty).setDyn k
        ⟨((st.passes.getD p Pass.empty).dyn k).tasks,
         some (C.tex k (st.nth k % 2))⟩)).getD p Pass.empty).dyn k).tasks.length =
        (ptasks C.passes0 p k).length := by
      rw [listGetD_set_self _ _ _ _ hplen', dyn_setDyn, if_pos rfl]
      show (ptasks st.passes p k).length = (ptasks C.passes0 p k).length
      rw [hK.tasksHi p k (le_refl p)]
    obtain ⟨st', heq, h1, h2, h3, h4, h5, h6, h7, h8, h9⟩ :=
      @ppKindCore C p k st
        ⟨st.graph, st.passes.set p ((st.passes.getD p Pass.empty).setDyn k
          ⟨((st.passes.getD p Pass.empty).dyn k).tasks,
           some (C.tex k (st.nth k % 2))⟩), st.node_redirects,
         (st.bumpNth k).nth_color, (st.bumpNth k).nth_alpha⟩
        hp hK hdK hdO hfresh rfl rfl rfl (bumpNth_nth_self st k)
        (fun k' hk' => bumpNth_nth_other st k k' hk')
        (List.range (((st.passes.set p ((st.passes.getD p Pass.empty).setDyn k
          ⟨((st.passes.getD p Pass.empty).dyn k).tasks,
           some (C.tex k (st.nth k % 2))⟩)).getD p Pass.empty).dyn k).tasks.length)
        (List.nodup_range _)
        (fun n hn => by rw [← hNT]; exact List.mem_range.mp hn)
        (fun n hn => List.mem_range.mpr (by rw [hNT]; exact hn))
    exact ⟨st', heq, h1, h2, h3, h4, h5, h6, h7, h8, h9⟩


/- ============================================================
   Processing a whole pass, and the fold over all passes
   ============================================================ -/

theorem ppPass_ok (C : PPCtx) {p : Nat} {st : PPState} (hp : p < C.passes0.length)
    (hP : PPInv C p st) :
    ∃ st', (match ppProcessKind C.np C.tex p st TargetKind.Color with
      | none => none
      | some stc => ppProcessKind C.np C.tex p stc TargetKind.Alpha) = some st' ∧
      PPInv C (p + 1) st' := by
  have hK : KInv C p st :=
    ⟨hP.glen, hP.gnodes, hP.dlen, hP.rdlen, hP.plen, hP.fixedEq, hP.tasksHi, hP.origSub,
     hP.tasksBound, hP.occ, hP.redir,
     fun y hy hact hdyn hplt loc hloc => (hP.deps y hy loc hloc).1 ⟨hact, hdyn, hplt⟩,
     fun y hy hnot loc hloc => (hP.deps y hy loc hloc).2 (fun hc => hnot ⟨hc.1, hc.2.1⟩)⟩
  have hfreshC : ∀ y', y' < C.g.nodes.length → C.active.getD y' false = true →
      (C.g.node y').alloc_kind = AllocKind.Dynamic →
      (C.g.node y').target_kind = TargetKind.Color → passIdxOf C.g y' = p →
      sliceOrig C st y' := by
    intro y' h1 h2 h3 _ h5 loc hloc
    refine (hP.deps y' h1 loc hloc).2 ?_
    intro hc
    rw [h5] at hc
    exact absurd hc.2.2 (lt_irrefl p)
  obtain ⟨stc, heqC, hc1, hc2, hc3, hc4, hc5, hc6, hc7, hc8, hc9⟩ :=
    ppProcessKind_ok C TargetKind.Color hp hK (hP.dests TargetKind.Color)
      (fun k' _ => DestsInv_weaken (by omega) (hP.dests k')) hfreshC
  have hdKA : DestsInv C.tex stc.passes TargetKind.Alpha (stc.nth TargetKind.Alpha) p := by
    rw [hc3 TargetKind.Alpha (by intro hc; exact TargetKind.noConfusion hc)]
    refine DestsInv_congr ?_ (hP.dests TargetKind.Alpha)
    intro i
    show pdest stc.passes i TargetKind.Alpha = pdest st.passes i TargetKind.Alpha
    exact hc5 i TargetKind.Alpha (fun hc => TargetKind.noConfusion hc.2)
  have hdOA : ∀ k', k' ≠ TargetKind.Alpha →
      DestsInv C.tex stc.passes k' (stc.nth k') (p + 1) := by
    intro k' hk'
    cases k' with
    | Color => exact hc4
    | Alpha => exact absurd rfl hk'
  have hfreshA : ∀ y', y' < C.g.nodes.length → C.active.getD y' false = true →
      (C.g.node y').alloc_kind = AllocKind.Dynamic →
      (C.g.node y').target_kind = TargetKind.Alpha → passIdxOf C.g y' = p →
      sliceOrig C stc y' := by
    intro y' h1 h2 h3 h4 h5 loc hloc
    have hlt : loc < C.g.dependencies.length := depLocs_lt C.g C.hWF h1 hloc
    have hcond : ∀ y'', y'' < C.g.nodes.length → C.active.getD y'' false = true →
        (C.g.node y'').alloc_kind = AllocKind.Dynamic →
        (C.g.node y'').target_kind = TargetKind.Color → passIdxOf C.g y'' = p →
        loc ∉ C.g.depLocs y'' := by
      intro y'' g1 _ _ g4 _ hc
      have hne : y' ≠ y'' := by
        intro hceq
        rw [hceq, g4] at h4
        exact TargetKind.noConfusion h4
      exact depLocs_disjoint C.g C.hWF h1 hne hloc hc
    rw [hc7 loc hcond hlt]
    refine (hP.deps y' h1 loc hloc).2 ?_
    intro hc
    rw [h5] at hc
    exact absurd hc.2.2 (lt_irrefl p)
  obtain ⟨st', heqA, ha1, ha2, ha3, ha4, ha5, ha6, ha7, ha8, ha9⟩ :=
    ppProcessKind_ok C TargetKind.Alpha hp hc1 hdKA hdOA hfreshA
  refine ⟨st', by rw [heqC]; exact heqA, ?_⟩
  refine ⟨ha1.glen, ha1.gnodes, ha1.dlen, ha1.rdlen, ha1.plen, ha1.fixedEq,
    fun i k hi => ha1.tasksHi i k (by omega), ha1.origSub, ha1.tasksBound, ha1.occ,
    fun a b h => BlitRec_mono C (ha1.redir a b h) (PPStep_rfl st') (by omega)
      (fun _ _ _ => rfl) (fun _ _ _ => rfl), ?_, ?_⟩
  · intro k
    cases k with
    | Color =>
      rw [ha3 TargetKind.Color (by intro hc; exact TargetKind.noConfusion hc)]
      refine DestsInv_congr ?_ hc4
      intro i
      show pdest st'.passes i TargetKind.Color = pdest stc.passes i TargetKind.Color
      exact ha5 i TargetKind.Color (fun hc => TargetKind.noConfusion hc.2)
    | Alpha => exact ha4
  · intro y hy loc hloc
    constructor
    · rintro ⟨hact, hdyn, hplt⟩
      by_cases hlow : passIdxOf C.g y < p
      · exact ha1.depsLow y hy hact hdyn hlow loc hloc
      · have hpe : passIdxOf C.g y = p := by omega
        match hky : (C.g.node y).target_kind with
        | TargetKind.Alpha => exact ha9 y hy hact hdyn hky hpe loc hloc
        | TargetKind.Color =>
          refine ha8 y hy hact hdyn (by rw [hky]; intro hc; exact TargetKind.noConfusion hc)
            hpe loc hloc ?_
          exact hc9 y hy hact hdyn hky hpe loc hloc
    · intro hnot
      by_cases had : C.active.getD y false = true ∧
          (C.g.node y).alloc_kind = AllocKind.Dynamic
      · have hge : p + 1 ≤ passIdxOf C.g y := by
          by_contra hc
          exact hnot ⟨had.1, had.2, by omega⟩
        have hlt : loc < C.g.dependencies.length := depLocs_lt C.g C.hWF hy hloc
        have hcondA : ∀ y'', y'' < C.g.nodes.length → C.active.getD y'' false = true →
            (C.g.node y'').alloc_kind = AllocKind.Dynamic →
            (C.g.node y'').target_kind = TargetKind.Alpha → passIdxOf C.g y'' = p →
            loc ∉ C.g.depLocs y'' := by
          intro y'' g1 _ _ _ g5 hc
          have hne : y ≠ y'' := by
            intro hceq
            rw [hceq, g5] at hge
            omega
          exact depLocs_disjoint C.g C.hWF hy hne hloc hc
        have hcondC : ∀ y'', y'' < C.g.nodes.length → C.active.getD y'' false = true →
            (C.g.node y'').alloc_kind = AllocKind.Dynamic →
            (C.g.node y'').target_kind = TargetKind.Color → passIdxOf C.g y'' = p →
            loc ∉ C.g.depLocs y'' := by
          intro y'' g1 _ _ _ g5 hc
          have hne : y ≠ y'' := by
            intro hceq
            rw [hceq, g5] at hge
            omega
          exact depLocs_disjoint C.g C.hWF hy hne hloc hc
        rw [ha7 loc hcondA hlt, hc7 loc hcondC hlt]
        refine (hP.deps y hy loc hloc).2 ?_
        intro hc
        omega
      · exact ha1.depsElse y hy had loc hloc

theorem PPInv_init (C : PPCtx) :
    PPInv C 0 ⟨C.g, C.passes0, List.replicate C.g.nodes.length none, 0, 0⟩ := by
  refine ⟨le_refl _, fun _ _ => rfl, le_refl _, by simp, rfl, fun _ => rfl,
    fun _ _ _ => rfl, fun _ _ _ h => h, ?_, fun i k t ht => Or.inl ht, ?_, ?_, ?_⟩
  · intro i k t ht
    exact (C.tasks0_mem ht).1
  · intro a b h
    rw [listGetD_replicate] at h
    revert h
    split <;> intro h <;> exact Option.noConfusion h
  · intro k
    refine ⟨[], by cases k <;> rfl, List.Pairwise.nil, by simp, ?_, ?_⟩
    · intro j x hx
      rw [List.getElem?_eq_none (by simp)] at hx
      exact absurd hx (by simp)
    · intro i _
      exact C.hdest0 i k
  · intro y hy loc hloc
    constructor
    · rintro ⟨_, _, h⟩
      exact absurd h (Nat.not_lt_zero _)
    · intro _
      rfl

theorem ppFold_ok (C : PPCtx) : ∀ P, P ≤ C.passes0.length →
    ∃ st, (List.range P).foldlM (fun st p =>
        match ppProcessKind C.np C.tex p st TargetKind.Color with
        | none => none
        | some stc => ppProcessKind C.np C.tex p stc TargetKind.Alpha)
      (⟨C.g, C.passes0, List.replicate C.g.nodes.length none, 0, 0⟩ : PPState) = some st ∧
      PPInv C P st := by
  intro P
  induction P with
  | zero => exact fun _ => ⟨_, rfl, PPInv_init C⟩
  | succ P ih =>
    intro hP1
    obtain ⟨st, heq, hinv⟩ := ih (by omega)
    obtain ⟨st', heq', hinv'⟩ := ppPass_ok C (by omega) hinv
    refine ⟨st', ?_, hinv'⟩
    rw [List.range_succ, List.foldlM_append, heq]
    show (List.foldlM (fun st p =>
        match ppProcessKind C.np C.tex p st TargetKind.Color with
        | none => none
        | some stc => ppProcessKind C.np C.tex p stc TargetKind.Alpha) st [P]) = some st'
    rw [List.foldlM_cons, heq']
    rfl

/-- Texture names handed out by assign_targets_ping_pong: four distinct
    fresh ids from the allocator, one per (kind, parity) pair. -/
def pingTex (alloc : SpecTextureAllocator) : TargetKind → Nat → Nat := fun k i =>
  match k with
  | TargetKind.Color => if i = 0 then alloc.next_texture else alloc.next_texture + 1
  | TargetKind.Alpha => if i = 0 then alloc.next_texture + 2 else alloc.next_texture + 3

theorem pingTex_inj (alloc : SpecTextureAllocator) :
    ∀ k k' i i', i < 2 → i' < 2 → pingTex alloc k i = pingTex alloc k' i' →
      k = k' ∧ i = i' := by
  have hv : ∀ (kk : TargetKind) (j : Nat), j < 2 → pingTex alloc kk j =
      alloc.next_texture + 2 * kk.idx + j := by
    intro kk j hj
    match j, hj with
    | 0, _ => cases kk <;> simp [pingTex, TargetKind.idx]
    | 1, _ => cases kk <;> simp [pingTex, TargetKind.idx] <;> omega
  intro k k' i i' hi hi' h
  rw [hv k i hi, hv k' i' hi'] at h
  cases k <;> cases k' <;> simp [TargetKind.idx] at h <;>
    first
      | exact ⟨rfl, by omega⟩
      | (exfalso; omega)

theorem cull_active_iff (g : Graph) (hWF : g.WF) :
    ∀ x, (cull_nodes g).getD x false = true ↔ ∃ r ∈ g.roots, Reach g r x := by
  intro x
  constructor
  · exact cull_nodes_sound g
  · rintro ⟨r, hr, hre⟩
    exact cull_nodes_complete g hWF hr hre

/-- The verification context for the ping-pong stage of a culled build. -/
def mkPPCtx (g : Graph) (hWF : g.WF) (alloc : SpecTextureAllocator) : PPCtx :=
  ⟨g, cull_nodes g, (create_passes g (cull_nodes g)).2, pingTex alloc,
   (create_passes g (cull_nodes g)).1, hWF, cull_active_iff g hWF, rfl, pingTex_inj alloc⟩

theorem pingpong_stage_char (g : Graph) (hWF : g.WF) (alloc : SpecTextureAllocator) :
    ∃ st : PPState,
      targetStage ⟨TargetOptions.PingPong, true⟩ g alloc =
        some (st.graph, st.passes,
          ((((alloc.add_texture).1.add_texture).1.add_texture).1.add_texture).1) ∧
      PPInv (mkPPCtx g hWF alloc) (create_passes g (cull_nodes g)).1.length st := by
  obtain ⟨st, heq, hinv⟩ :=
    ppFold_ok (mkPPCtx g hWF alloc) (mkPPCtx g hWF alloc).passes0.length (le_refl _)
  refine ⟨st, ?_, hinv⟩
  have heq' : (List.range (create_passes g (cull_nodes g)).1.length).foldlM
      (fun st p =>
        match ppProcessKind (create_passes g (cull_nodes g)).2 (pingTex alloc) p st
            TargetKind.Color with
        | none => none
        | some stc => ppProcessKind (create_passes g (cull_nodes g)).2 (pingTex alloc) p stc
            TargetKind.Alpha)
      (⟨g, (create_passes g (cull_nodes g)).1, List.replicate g.nodes.length none, 0, 0⟩ :
        PPState) = some st := heq
  show (match (List.range (create_passes g (cull_nodes g)).1.length).foldlM
      (fun st p =>
        match ppProcessKind (create_passes g (cull_nodes g)).2 (pingTex alloc) p st
            TargetKind.Color with
        | none => none
        | some stc => ppProcessKind (create_passes g (cull_nodes g)).2 (pingTex alloc) p stc
            TargetKind.Alpha)
      (⟨g, (create_passes g (cull_nodes g)).1, List.replicate g.nodes.length none, 0, 0⟩ :
        PPState) with
    | none => none
    | some st => some (st.graph, st.passes,
        ((((alloc.add_texture).1.add_texture).1.add_texture).1.add_texture).1)) =
    some (st.graph, st.passes,
      ((((alloc.add_texture).1.add_texture).1.add_texture).1.add_texture).1)
  rw [heq']

/- ============================================================
   The Direct target-assignment strategy: destinations are
   chosen to avoid the destinations read by the pass's tasks.
   ============================================================ -/

theorem collectDep_char (g : Graph) (np : List (Option Nat)) (passesD : List Pass) :
    ∀ (L : List Nat) (acc res : List Nat),
    L.foldlM (fun acc2 dep =>
      match np.getD dep none with
      | none => none
      | some dep_pass =>
        match g.nodes.get? dep with
        | none => none
        | some dnode =>
          match ((passesD.getD dep_pass Pass.empty).dyn dnode.target_kind).destination with
          | none => some acc2
          | some id => some (acc2 ++ [id])) acc = some res →
    (∀ v ∈ acc, v ∈ res) ∧
    (∀ x ∈ L, ∀ dp dn v, np.getD x none = some dp → g.nodes.get? x = some dn →
      ((passesD.getD dp Pass.empty).dyn dn.target_kind).destination = some v → v ∈ res) := by
  intro L
  induction L with
  | nil =>
    intro acc res h
    have hres : acc = res := Option.some_injective _ h
    subst hres
    exact ⟨fun v hv => hv, fun x hx => absurd hx (List.not_mem_nil x)⟩
  | cons x L' ih =>
    intro acc res h
    rw [List.foldlM_cons] at h
    obtain ⟨acc1, hx, hrest⟩ := Option.bind_eq_some.mp h
    obtain ⟨hsub, hmem⟩ := ih acc1 res hrest
    split at hx
    · exact absurd hx (by simp)
    · rename_i dp hnp
      split at hx
      · exact absurd hx (by simp)
      · rename_i dn hgn
        split at hx
        · rename_i hdst
          have hacc1 : acc = acc1 := Option.some_injective _ hx
          subst hacc1
          refine ⟨hsub, ?_⟩
          intro x2 hx2 dp2 dn2 v2 hnp2 hgn2 hdst2
          rcases List.mem_cons.mp hx2 with rfl | hmem2
          · rw [hnp2] at hnp
            have hdp : dp = dp2 := Option.some_injective _ hnp.symm
            rw [hgn2] at hgn
            have hdn : dn = dn2 := Option.some_injective _ hgn.symm
            rw [← hdp, ← hdn, hdst] at hdst2
            exact absurd hdst2 (by simp)
          · exact hmem x2 hmem2 dp2 dn2 v2 hnp2 hgn2 hdst2
        · rename_i id hdst
          have hacc1 : acc ++ [id] = acc1 := Option.some_injective _ hx
          refine ⟨fun v hv => hsub v (by rw [← hacc1]; exact List.mem_append_left _ hv), ?_⟩
          intro x2 hx2 dp2 dn2 v2 hnp2 hgn2 hdst2
          rcases List.mem_cons.mp hx2 with rfl | hmem2
          · rw [hnp2] at hnp
            have hdp : dp = dp2 := Option.some_injective _ hnp.symm
            rw [hgn2] at hgn
            have hdn : dn = dn2 := Option.some_injective _ hgn.symm
            rw [← hdp, ← hdn, hdst] at hdst2
            have hv : id = v2 := Option.some_injective _ hdst2
            refine hsub v2 ?_
            rw [← hacc1, hv]
            exact List.mem_append_right _ (by simp)
          · exact hmem x2 hmem2 dp2 dn2 v2 hnp2 hgn2 hdst2

theorem collect_char (g : Graph) (np : List (Option Nat)) (passesD : List Pass) (p : Nat)
    {res : List Nat} (h : directCollectDeps g np passesD p = some res) :
    ∀ t, (t ∈ ((passesD.getD p Pass.empty).dyn TargetKind.Color).tasks ∨
      t ∈ ((passesD.getD p Pass.empty).dyn TargetKind.Alpha).tasks) →
    ∀ x ∈ g.depsOf t.node, ∀ dp dn v, np.getD x none = some dp → g.nodes.get? x = some dn →
      ((passesD.getD dp Pass.empty).dyn dn.target_kind).destination = some v → v ∈ res := by
  unfold directCollectDeps at h
  have hgen : ∀ (TL : List GTask) (acc : List Nat),
      TL.foldlM (fun acc task => (g.depsOf task.node).foldlM
        (fun acc2 dep =>
          match np.getD dep none with
          | none => none
          | some dep_pass =>
            match g.nodes.get? dep with
            | none => none
            | some dnode =>
              match ((passesD.getD dep_pass Pass.empty).dyn
                  dnode.target_kind).destination with
              | none => some acc2
              | some id => some (acc2 ++ [id])) acc) acc = some res →
      ∀ t ∈ TL, ∀ x ∈ g.depsOf t.node, ∀ dp dn v, np.getD x none = some dp →
        g.nodes.get? x = some dn →
        ((passesD.getD dp Pass.empty).dyn dn.target_kind).destination = some v →
        v ∈ res := by
    intro TL
    induction TL with
    | nil =>
      intro acc _ t ht
      exact absurd ht (List.not_mem_nil t)
    | cons t0 TL' ih =>
      intro acc hfold t ht x hx dp dn v h1 h2 h3
      rw [List.foldlM_cons] at hfold
      obtain ⟨acc1, hin, hrest⟩ := Option.bind_eq_some.mp hfold
      rcases List.mem_cons.mp ht with rfl | hmem
      · have hres1 : ∀ v ∈ acc1, v ∈ res := by
          have hgen2 : ∀ (TL2 : List GTask) (a r : List Nat),
              TL2.foldlM (fun acc task => (g.depsOf task.node).foldlM
                (fun acc2 dep =>
                  match np.getD dep none with
                  | none => none
                  | some dep_pass =>
                    match g.nodes.get? dep with
                    | none => none
                    | some dnode =>
                      match ((passesD.getD dep_pass Pass.empty).dyn
                          dnode.target_kind).destination with
                      | none => some acc2
                      | some id => some (acc2 ++ [id])) acc) a = some r →
              ∀ v ∈ a, v ∈ r := by
            intro TL2
            induction TL2 with
            | nil =>
              intro a r hh
              have : a = r := Option.some_injective _ hh
              subst this
              exact fun v hv => hv
            | cons s TL3 ih3 =>
              intro a r hh
              rw [List.foldlM_cons] at hh
              obtain ⟨a1, hs, hrest2⟩ := Option.bind_eq_some.mp hh
              intro v hv
              exact ih3 a1 r hrest2 v ((collectDep_char g np passesD _ a a1 hs).1 v hv)
          exact hgen2 TL' acc1 res hrest
        exact hres1 v ((collectDep_char g np passesD _ acc acc1 hin).2 x hx dp dn v h1 h2 h3)
      · exact ih acc1 hrest t hmem x hx dp dn v h1 h2 h3
  exact fun t ht => hgen _ _ h t (List.mem_append.mpr ht)

theorem graph_get?_node (g : Graph) {x : Nat} (hx : x < g.nodes.length) :
    g.nodes.get? x = some (g.node x) := by
  rw [List.get?_eq_getElem?, List.getElem?_eq_getElem hx]
  unfold Graph.node
  rw [listGetD_eq_getElem _ _ _ hx]

theorem directSetDest_passes (st : DirectState) (p : Nat) (k : TargetKind) (tid : Nat) :
    (directSetDest st p k tid).passes =
      st.passes.set p ((st.passes.getD p Pass.empty).setDyn k
        { (st.passes.getD p Pass.empty).dyn k with destination := some tid }) := rfl

theorem directSetDest_alloc (st : DirectState) (p : Nat) (k : TargetKind) (tid : Nat) :
    (directSetDest st p k tid).alloc = st.alloc := rfl

theorem directSetDest_allocated (st : DirectState) (p : Nat) (k : TargetKind) (tid : Nat)
    (kk : TargetKind) : (directSetDest st p k tid).allocated kk = st.allocated kk := by
  cases kk <;> rfl

theorem directSetDest_len (st : DirectState) (p : Nat) (k : TargetKind) (tid : Nat) :
    (directSetDest st p k tid).passes.length = st.passes.length := by
  rw [directSetDest_passes, List.length_set]

theorem directSetDest_pdest (st : DirectState) {p : Nat} (k : TargetKind) (tid : Nat)
    (hp : p < st.passes.length) (j : Nat) (k' : TargetKind) :
    pdest (directSetDest st p k tid).passes j k' =
      if j = p ∧ k' = k then some tid else pdest st.passes j k' := by
  rw [directSetDest_passes, pdest_after_set st.passes hp j k', dyn_setDyn]
  by_cases hj : j = p
  · subst hj
    by_cases hk : k' = k
    · subst hk
      simp [pdest]
    · simp [hk, pdest]
  · simp [hj]

theorem directSetDest_ptasks (st : DirectState) {p : Nat} (k : TargetKind) (tid : Nat)
    (hp : p < st.passes.length) (j : Nat) (k' : TargetKind) :
    ptasks (directSetDest st p k tid).passes j k' = ptasks st.passes j k' := by
  rw [directSetDest_passes, ptasks_after_set st.passes hp j k', dyn_setDyn]
  by_cases hj : j = p
  · subst hj
    by_cases hk : k' = k
    · subst hk
      simp [ptasks]
    · simp [hk, ptasks]
  · simp [hj]

theorem directSetDest_fixed (st : DirectState) {p : Nat} (k : TargetKind) (tid : Nat)
    (hp : p < st.passes.length) (j : Nat) :
    ((directSetDest st p k tid).passes.getD j Pass.empty).fixed_targets =
      (st.passes.getD j Pass.empty).fixed_targets := by
  rw [directSetDest_passes]
  by_cases hj : j = p
  · subst hj
    rw [listGetD_set_self _ _ _ _ hp, Pass.fixed_setDyn]
  · rw [listGetD_set_ne _ _ _ _ _ (fun hc => hj hc.symm)]

/-- Per-pass edge invariant of the Direct strategy: the destination of the
    producer's pass (in the producer's kind) differs from the destination
    assigned to the dynamic target (i, k). -/
def DEdge (C : PPCtx) (stP : List Pass) (i : Nat) (k : TargetKind) : Prop :=
  ∀ t ∈ ptasks C.passes0 i k, ∀ x ∈ C.g.depsOf t.node,
    pdest stP (passIdxOf C.g x) ((C.g.node x).target_kind) ≠ pdest stP i k

/-- Invariant of the fold in assign_targets_direct after processing passes
    0..P: tasks and fixed targets are untouched, destinations and
    allocated texture ids are bounded by the allocator counter,
    unprocessed passes have no destination, and processed passes satisfy
    the edge invariant. -/
structure DInv (C : PPCtx) (P : Nat) (st : DirectState) : Prop where
  plen : st.passes.length = C.passes0.length
  tasksEq : ∀ i k, ptasks st.passes i k = ptasks C.passes0 i k
  fixedEq : ∀ i, (st.passes.getD i Pass.empty).fixed_targets =
    (C.passes0.getD i Pass.empty).fixed_targets
  destBound : ∀ i k v, pdest st.passes i k = some v → v < st.alloc.next_texture
  allocBound : ∀ k, ∀ v ∈ st.allocated k, v < st.alloc.next_texture
  destHi : ∀ i k, P ≤ i → pdest st.passes i k = none
  edges : ∀ i k, i < P → DEdge C st.passes i k

/-- Output of one directAssignKind call relative to its input state. -/
def DOut (C : PPCtx) (st st2 : DirectState) (P : Nat) (k : TargetKind) : Prop :=
  st2.passes.length = C.passes0.length ∧
  (∀ i k', ptasks st2.passes i k' = ptasks C.passes0 i k') ∧
  (∀ i, (st2.passes.getD i Pass.empty).fixed_targets =
    (C.passes0.getD i Pass.empty).fixed_targets) ∧
  (∀ i k' v, pdest st2.passes i k' = some v → v < st2.alloc.next_texture) ∧
  (∀ k', ∀ v ∈ st2.allocated k', v < st2.alloc.next_texture) ∧
  (∀ i k', ¬(i = P ∧ k' = k) → pdest st2.passes i k' = pdest st.passes i k') ∧
  st.alloc.next_texture ≤ st2.alloc.next_texture ∧
  (∀ t ∈ ptasks C.passes0 P k, ∀ x ∈ C.g.depsOf t.node,
    pdest st2.passes (passIdxOf C.g x) ((C.g.node x).target_kind) ≠ pdest st2.passes P k)

theorem direct_prod_lt (C : PPCtx) {P : Nat} {k : TargetKind} {t : GTask}
    (ht : t ∈ ptasks C.passes0 P k) {x : Nat} (hx : x ∈ C.g.depsOf t.node) :
    x < C.g.nodes.length ∧ C.active.getD x false = true ∧ passIdxOf C.g x < P := by
  have h0 := C.tasks0_mem (by rw [ptasks_fold]; exact ht)
  have hxact := C.activeClosed h0.2.1 hx
  have hxlt := C.active_lt hxact
  have hlt := (C.edge_lt h0.2.1 hx).1
  rw [h0.2.2.2.2.1] at hlt
  exact ⟨hxlt, hxact, hlt⟩

theorem directFresh_ok (C : PPCtx) (st st2' : DirectState) (P : Nat) (k : TargetKind)
    (hlen : st.passes.length = C.passes0.length)
    (htasks : ∀ i k', ptasks st.passes i k' = ptasks C.passes0 i k')
    (hfix : ∀ i, (st.passes.getD i Pass.empty).fixed_targets =
      (C.passes0.getD i Pass.empty).fixed_targets)
    (hdb : ∀ i k' v, pdest st.passes i k' = some v → v < st.alloc.next_texture)
    (hab : ∀ k', ∀ v ∈ st.allocated k', v < st.alloc.next_texture)
    (hP : P < C.passes0.length)
    (hp2 : st2'.passes = st.passes)
    (hna : st2'.alloc.next_texture = st.alloc.next_texture + 1)
    (hak : ∀ k', st2'.allocated k' =
      if k' = k then st.allocated k' ++ [st.alloc.next_texture] else st.allocated k') :
    DOut C st (directSetDest st2' P k st.alloc.next_texture) P k := by
  have hp2len : P < st2'.passes.length := by rw [hp2, hlen]; exact hP
  have hpdest : ∀ j k', pdest (directSetDest st2' P k st.alloc.next_texture).passes j k' =
      if j = P ∧ k' = k then some st.alloc.next_texture else pdest st.passes j k' := by
    intro j k'
    rw [directSetDest_pdest st2' k _ hp2len j k', hp2]
  refine ⟨?_, ?_, ?_, ?_, ?_, ?_, ?_, ?_⟩
  · rw [directSetDest_len, hp2, hlen]
  · intro i k'
    rw [directSetDest_ptasks st2' k _ hp2len i k', hp2]
    exact htasks i k'
  · intro i
    rw [directSetDest_fixed st2' k _ hp2len i, hp2]
    exact hfix i
  · intro i k' v hv
    rw [hpdest i k'] at hv
    rw [directSetDest_alloc, hna]
    by_cases hc : i = P ∧ k' = k
    · rw [if_pos hc] at hv
      have : st.alloc.next_texture = v := Option.some_injective _ hv
      omega
    · rw [if_neg hc] at hv
      have := hdb i k' v hv
      omega
  · intro k' v hv
    rw [directSetDest_allocated] at hv
    rw [directSetDest_alloc, hna]
    rw [hak k'] at hv
    by_cases hc : k' = k
    · rw [if_pos hc] at hv
      rcases List.mem_append.mp hv with h1 | h2
      · have := hab k' v h1
        omega
      · have : v = st.alloc.next_texture := by simpa using h2
        omega
    · rw [if_neg hc] at hv
      have := hab k' v hv
      omega
  · intro i k' hne
    rw [hpdest i k', if_neg hne]
  · rw [directSetDest_alloc, hna]
    omega
  · intro t ht x hx
    obtain ⟨hxlt, hxact, hq⟩ := direct_prod_lt C ht hx
    rw [hpdest (passIdxOf C.g x) ((C.g.node x).target_kind),
      if_neg (fun hc => absurd hc.1 (by omega)), hpdest P k, if_pos ⟨rfl, rfl⟩]
    intro hc
    cases hv : pdest st.passes (passIdxOf C.g x) ((C.g.node x).target_kind) with
    | none =>
      rw [hv] at hc
      exact Option.noConfusion hc
    | some v =>
      rw [hv] at hc
      have hvv : v = st.alloc.next_texture := Option.some_injective _ hc
      have := hdb _ _ _ hv
      omega

theorem directAssignKind_ok (C : PPCtx) (depSet : List Nat) (st : DirectState)
    (P : Nat) (k : TargetKind)
    (hlen : st.passes.length = C.passes0.length)
    (htasks : ∀ i k', ptasks st.passes i k' = ptasks C.passes0 i k')
    (hfix : ∀ i, (st.passes.getD i Pass.empty).fixed_targets =
      (C.passes0.getD i Pass.empty).fixed_targets)
    (hdb : ∀ i k' v, pdest st.passes i k' = some v → v < st.alloc.next_texture)
    (hab : ∀ k', ∀ v ∈ st.allocated k', v < st.alloc.next_texture)
    (hP : P < C.passes0.length)
    (hdep : ∀ t ∈ ptasks C.passes0 P k, ∀ x ∈ C.g.depsOf t.node, ∀ v,
      pdest st.passes (passIdxOf C.g x) ((C.g.node x).target_kind) = some v → v ∈ depSet) :
    ∃ st2, directAssignKind depSet st P k = st2 ∧ DOut C st st2 P k := by
  have hplen : P < st.passes.length := by rw [hlen]; exact hP
  by_cases hE : ((st.passes.getD P Pass.empty).dyn k).tasks.isEmpty = true
  · refine ⟨st, ?_, ?_, htasks, hfix, hdb, hab, fun i k' _ => rfl, le_refl _, ?_⟩
    · unfold directAssignKind
      rw [if_pos hE]
    · exact hlen
    · intro t ht x hx
      have hnil : ptasks st.passes P k = [] := by
        have := List.isEmpty_iff.mp hE
        rw [ptasks_fold] at this
        exact this
      rw [htasks P k] at hnil
      rw [hnil] at ht
      exact absurd ht (List.not_mem_nil t)
  · cases hF : (st.allocated k).find? (fun tid => !(depSet.contains tid)) with
    | some tid =>
      have heq : directAssignKind depSet st P k = directSetDest st P k tid := by
        unfold directAssignKind
        rw [if_neg hE, hF]
      have hnotmem : tid ∉ depSet := by
        have := List.find?_some hF
        simpa using this
      have hpdest : ∀ j k', pdest (directSetDest st P k tid).passes j k' =
          if j = P ∧ k' = k then some tid else pdest st.passes j k' :=
        fun j k' => directSetDest_pdest st k tid hplen j k'
      refine ⟨directSetDest st P k tid, heq, ?_, ?_, ?_, ?_, ?_, ?_, ?_, ?_⟩
      · rw [directSetDest_len, hlen]
      · intro i k'
        rw [directSetDest_ptasks st k tid hplen i k']
        exact htasks i k'
      · intro i
        rw [directSetDest_fixed st k tid hplen i]
        exact hfix i
      · intro i k' v hv
        rw [hpdest i k'] at hv
        rw [directSetDest_alloc]
        by_cases hc : i = P ∧ k' = k
        · rw [if_pos hc] at hv
          have hvv : tid = v := Option.some_injective _ hv
          have := hab k tid (List.mem_of_find?_eq_some hF)
          omega
        · rw [if_neg hc] at hv
          exact hdb i k' v hv
      · intro k' v hv
        rw [directSetDest_allocated] at hv
        rw [directSetDest_alloc]
        exact hab k' v hv
      · intro i k' hne
        rw [hpdest i k', if_neg hne]
      · rw [directSetDest_alloc]
      · intro t ht x hx
        obtain ⟨hxlt, hxact, hq⟩ := direct_prod_lt C ht hx
        rw [hpdest (passIdxOf C.g x) ((C.g.node x).target_kind),
          if_neg (fun hc => absurd hc.1 (by omega)), hpdest P k, if_pos ⟨rfl, rfl⟩]
        intro hc
        cases hv : pdest st.passes (passIdxOf C.g x) ((C.g.node x).target_kind) with
        | none =>
          rw [hv] at hc
          exact Option.noConfusion hc
        | some v =>
          rw [hv] at hc
          have hvv : v = tid := Option.some_injective _ hc
          exact hnotmem (hvv ▸ hdep t ht x hx v hv)
    | none =>
      cases k with
      | Color =>
        refine ⟨directSetDest
          ⟨st.passes, st.allocated_color ++ [st.alloc.next_texture], st.allocated_alpha,
            { st.alloc with next_texture := st.alloc.next_texture + 1 }⟩
          P TargetKind.Color st.alloc.next_texture, ?_, ?_⟩
        · unfold directAssignKind
          rw [if_neg hE, hF]
          rfl
        · refine directFresh_ok C st _ P TargetKind.Color hlen htasks hfix hdb hab hP rfl rfl ?_
          intro k'
          cases k' <;> simp [DirectState.allocated]
      | Alpha =>
        refine ⟨directSetDest
          ⟨st.passes, st.allocated_color, st.allocated_alpha ++ [st.alloc.next_texture],
            { st.alloc with next_texture := st.alloc.next_texture + 1 }⟩
          P TargetKind.Alpha st.alloc.next_texture, ?_, ?_⟩
        · unfold directAssignKind
          rw [if_neg hE, hF]
          rfl
        · refine directFresh_ok C st _ P TargetKind.Alpha hlen htasks hfix hdb hab hP rfl rfl ?_
          intro k'
          cases k' <;> simp [DirectState.allocated]

theorem direct_fold_ok (C : PPCtx) (alloc0 : SpecTextureAllocator) :
    ∀ (P : Nat), P ≤ C.passes0.length → ∀ stF,
    (List.range P).foldlM
      (fun st p =>
        match directCollectDeps C.g C.np st.passes p with
        | none => none
        | some depSet =>
          some (directAssignKind depSet (directAssignKind depSet st p TargetKind.Color) p
            TargetKind.Alpha))
      (⟨C.passes0, [], [], alloc0⟩ : DirectState) = some stF →
    DInv C P stF := by
  intro P
  induction P with
  | zero =>
    intro _ stF h
    have hstF : (⟨C.passes0, [], [], alloc0⟩ : DirectState) = stF :=
      Option.some_injective _ h
    subst hstF
    refine ⟨rfl, fun i k => rfl, fun i => rfl, ?_, ?_, ?_, ?_⟩
    · intro i k v hv
      rw [← pdest_fold, C.hdest0 i k] at hv
      exact absurd hv (by simp)
    · intro k v hv
      cases k <;> exact absurd hv (List.not_mem_nil v)
    · intro i k _
      rw [← pdest_fold]
      exact C.hdest0 i k
    · intro i k hik
      exact absurd hik (Nat.not_lt_zero i)
  | succ P ih =>
    intro hPle stF h
    rw [List.range_succ, List.foldlM_append] at h
    obtain ⟨st1, h1, h2⟩ := Option.bind_eq_some.mp h
    rw [List.foldlM_cons] at h2
    obtain ⟨stF2, hb, hp⟩ := Option.bind_eq_some.mp h2
    have hstF2 : stF2 = stF := Option.some_injective _ hp
    rw [← hstF2]
    have hD1 : DInv C P st1 := ih (by omega) st1 h1
    have hP : P < C.passes0.length := by omega
    split at hb
    · exact absurd hb (by simp)
    · rename_i depSet hcol
      have hstF : directAssignKind depSet (directAssignKind depSet st1 P TargetKind.Color) P
          TargetKind.Alpha = stF2 := Option.some_injective _ hb
      have hdep1 : ∀ k, ∀ t ∈ ptasks C.passes0 P k, ∀ x ∈ C.g.depsOf t.node, ∀ v,
          pdest st1.passes (passIdxOf C.g x) ((C.g.node x).target_kind) = some v →
          v ∈ depSet := by
        intro k t ht x hx v hv
        obtain ⟨hxlt, hxact, hq⟩ := direct_prod_lt C ht hx
        have ht1 : t ∈ ((st1.passes.getD P Pass.empty).dyn TargetKind.Color).tasks ∨
            t ∈ ((st1.passes.getD P Pass.empty).dyn TargetKind.Alpha).tasks := by
          cases k with
          | Color =>
            refine Or.inl ?_
            rw [ptasks_fold, hD1.tasksEq P TargetKind.Color]
            exact ht
          | Alpha =>
            refine Or.inr ?_
            rw [ptasks_fold, hD1.tasksEq P TargetKind.Alpha]
            exact ht
        refine collect_char C.g C.np st1.passes P hcol t ht1 x hx (passIdxOf C.g x)
          (C.g.node x) v (C.hnp1 hxlt hxact) (graph_get?_node C.g hxlt) ?_
        rw [pdest_fold]
        exact hv
      obtain ⟨st2C, heqC, hOC⟩ := directAssignKind_ok C depSet st1 P TargetKind.Color
        hD1.plen hD1.tasksEq hD1.fixedEq hD1.destBound hD1.allocBound hP
        (hdep1 TargetKind.Color)
      obtain ⟨hlen2, htasks2, hfix2, hdb2, hab2, hch2, hmono2, hedge2⟩ := hOC
      have hdepA : ∀ t ∈ ptasks C.passes0 P TargetKind.Alpha, ∀ x ∈ C.g.depsOf t.node, ∀ v,
          pdest st2C.passes (passIdxOf C.g x) ((C.g.node x).target_kind) = some v →
          v ∈ depSet := by
        intro t ht x hx v hv
        obtain ⟨hxlt, hxact, hq⟩ := direct_prod_lt C ht hx
        rw [hch2 _ _ (fun hc => absurd hc.1 (by omega))] at hv
        exact hdep1 TargetKind.Alpha t ht x hx v hv
      obtain ⟨st2A, heqA, hOA⟩ := directAssignKind_ok C depSet st2C P TargetKind.Alpha
        hlen2 htasks2 hfix2 hdb2 hab2 hP hdepA
      obtain ⟨hlen3, htasks3, hfix3, hdb3, hab3, hch3, hmono3, hedge3⟩ := hOA
      rw [heqC, heqA] at hstF
      subst hstF
      refine ⟨hlen3, htasks3, hfix3, hdb3, hab3, ?_, ?_⟩
      · intro i k hi
        rw [hch3 i k (fun hc => absurd hc.1 (by omega)),
          hch2 i k (fun hc => absurd hc.1 (by omega))]
        exact hD1.destHi i k (by omega)
      · intro i k hik
        by_cases hiP : i < P
        · intro t ht x hx
          obtain ⟨hxlt, hxact, hq⟩ := direct_prod_lt C ht hx
          rw [hch3 _ _ (fun hc => absurd hc.1 (by omega)),
            hch2 _ _ (fun hc => absurd hc.1 (by omega)),
            hch3 i k (fun hc => absurd hc.1 (by omega)),
            hch2 i k (fun hc => absurd hc.1 (by omega))]
          exact hD1.edges i k hiP t ht x hx
        · have hiEq : i = P := by omega
          subst hiEq
          cases k with
          | Alpha => exact hedge3
          | Color =>
            intro t ht x hx
            obtain ⟨hxlt, hxact, hq⟩ := direct_prod_lt C ht hx
            rw [hch3 _ _ (fun hc => absurd hc.1 (by omega)),
              hch3 i TargetKind.Color (fun hc => absurd hc.2 (by simp))]
            exact hedge2 t ht x hx

theorem direct_stage_char (g : Graph) (hWF : g.WF) (alloc : SpecTextureAllocator)
    {res : Graph × List Pass × SpecTextureAllocator}
    (h : targetStage ⟨TargetOptions.Direct, true⟩ g alloc = some res) :
    res.1 = g ∧ ∃ stF : DirectState, res.2.1 = stF.passes ∧ res.2.2 = stF.alloc ∧
      DInv (mkPPCtx g hWF alloc) (create_passes g (cull_nodes g)).1.length stF := by
  simp only [targetStage] at h
  split at h
  · exact absurd h (by simp)
  · rename_i r hr
    have hres : (g, r.1, r.2) = res := Option.some_injective _ h
    unfold assign_targets_direct at hr
    split at hr
    · exact absurd hr (by simp)
    · rename_i stB hfold
      have hrB : (stB.passes, stB.alloc) = r := Option.some_injective _ hr
      have hD : DInv (mkPPCtx g hWF alloc) (create_passes g (cull_nodes g)).1.length stB :=
        direct_fold_ok (mkPPCtx g hWF alloc) alloc
          (create_passes g (cull_nodes g)).1.length (le_refl _) stB hfold
      refine ⟨?_, stB, ?_, ?_, hD⟩
      · rw [← hres]
      · rw [← hres, ← hrB]
      · rw [← hres, ← hrB]

/- ============================================================
   Claim theorems building on the stage characterizations
   ============================================================ -/

/-- Claim C9 amended: with culling enabled, every task of the plan is
    reachable from a root, a dependency's pass index is strictly below
    its consumer's, and a read/write conflict can never place the
    consumer in pass 0; hence the passes[pass - 1] access of
    handle_conflict_using_bit_task is always in bounds and the ping-pong
    stage never hits the modelled underflow panic (a none result). -/
theorem C9_no_conflict_in_pass_zero (g : Graph) (alloc : SpecTextureAllocator)
    (hWF : g.WF) :
    targetStage ⟨TargetOptions.PingPong, true⟩ g alloc ≠ none := by
  obtain ⟨st, heq, _⟩ := pingpong_stage_char g hWF alloc
  rw [heq]
  exact fun hc => Option.noConfusion hc

/-- The ping-pong stage succeeds on the three-node chain graph. -/
theorem C9_no_conflict_in_pass_zero_w :
    Graph.WF chainGraph ∧
    targetStage ⟨TargetOptions.PingPong, true⟩ chainGraph SpecTextureAllocator.new ≠ none :=
  ⟨by decide, C9_no_conflict_in_pass_zero chainGraph SpecTextureAllocator.new (by decide)⟩

theorem TaskIn_transport {P1 P2 : List Pass} {i x : Nat}
    (ht : ∀ k, ((P1.getD i Pass.empty).dyn k).tasks = ((P2.getD i Pass.empty).dyn k).tasks)
    (hf : (P1.getD i Pass.empty).fixed_targets = (P2.getD i Pass.empty).fixed_targets)
    (h : TaskIn P1 i x) : TaskIn P2 i x := by
  rcases h with ⟨t, h1, h2⟩ | ⟨t, h1, h2⟩ | ⟨ft, h1, t, h2, h3⟩
  · exact Or.inl ⟨t, (ht TargetKind.Color) ▸ h1, h2⟩
  · exact Or.inr (Or.inl ⟨t, (ht TargetKind.Alpha) ▸ h1, h2⟩)
  · exact Or.inr (Or.inr ⟨ft, hf ▸ h1, t, h2, h3⟩)

theorem TaskIn_passes0_sound (C : PPCtx) {q x : Nat} (h : TaskIn C.passes0 q x) :
    x < C.g.nodes.length ∧ C.active.getD x false = true ∧ passIdxOf C.g x = q := by
  have hps : C.passes0 = (create_passes C.g C.active).1 := congrArg Prod.fst C.hcp
  rw [hps] at h
  exact TaskIn_cp_sound C.g C.active h

theorem PPInv_TaskIn_sound (C : PPCtx) {P : Nat} {st : PPState} (hinv : PPInv C P st)
    {q x : Nat} (h : TaskIn st.passes q x) :
    (x < C.g.nodes.length ∧ C.active.getD x false = true ∧ passIdxOf C.g x = q) ∨
    (C.g.nodes.length ≤ x ∧ ∃ a, st.node_redirects.getD a none = some x) := by
  rcases h with ⟨t, h1, h2⟩ | ⟨t, h1, h2⟩ | ⟨ft, h1, t, h2, h3⟩
  · rw [ptasks_fold] at h1
    rcases hinv.occ q TargetKind.Color t h1 with ho | ho
    · have h0 := C.tasks0_mem (by rw [ptasks_fold]; exact ho)
      exact Or.inl ⟨h2 ▸ h0.1, h2 ▸ h0.2.1, h2 ▸ h0.2.2.2.2.1⟩
    · obtain ⟨hb, a, ha⟩ := ho
      exact Or.inr ⟨h2 ▸ hb, a, h2 ▸ ha⟩
  · rw [ptasks_fold] at h1
    rcases hinv.occ q TargetKind.Alpha t h1 with ho | ho
    · have h0 := C.tasks0_mem (by rw [ptasks_fold]; exact ho)
      exact Or.inl ⟨h2 ▸ h0.1, h2 ▸ h0.2.1, h2 ▸ h0.2.2.2.2.1⟩
    · obtain ⟨hb, a, ha⟩ := ho
      exact Or.inr ⟨h2 ▸ hb, a, h2 ▸ ha⟩
  · rw [hinv.fixedEq q] at h1
    have h1' : ft ∈ (((create_passes C.g C.active).1.getD q Pass.empty)).fixed_targets := by
      rw [← congrArg Prod.fst C.hcp]
      exact h1
    obtain ⟨b1, b2, _, b4⟩ := cp_fixed_mem C.g C.active h1' h2
    exact Or.inl ⟨h3 ▸ b1, h3 ▸ b2, h3 ▸ b4⟩

theorem PPInv_node_eq (C : PPCtx) {P : Nat} {st : PPState} (hinv : PPInv C P st)
    {y : Nat} (hy : y < C.g.nodes.length) : st.graph.node y = C.g.node y :=
  Graph.node_congr y (hinv.gnodes y hy)

theorem PPInv_mem_deps (C : PPCtx) {P : Nat} {st : PPState} (hinv : PPInv C P st)
    {y d : Nat} (hy : y < C.g.nodes.length) (hd : d ∈ st.graph.depsOf y) :
    ∃ loc, loc ∈ C.g.depLocs y ∧ st.graph.dependencies.getD loc 0 = d := by
  have hnode := PPInv_node_eq C hinv hy
  have hbounds := C.hWF.1 y hy
  have he : (st.graph.node y).deps_end ≤ st.graph.dependencies.length := by
    rw [hnode]
    exact le_trans hbounds.2.1 hinv.dlen
  obtain ⟨loc, hl, hv⟩ := Graph.mem_depsOf_loc st.graph he hd
  have hdl : st.graph.depLocs y = C.g.depLocs y := by
    unfold Graph.depLocs
    rw [hnode]
  rw [hdl] at hl
  exact ⟨loc, hl, hv⟩

theorem PPInv_blit_TaskIn (C : PPCtx) {P : Nat} {st : PPState} (hinv : PPInv C P st)
    {a b : Nat} (hr : st.node_redirects.getD a none = some b)
    {q : Nat} (h : TaskIn st.passes q b) :
    q < P ∧ passIdxOf C.g a < q ∧
    (∀ i k, BlitIn st i k b → i = q ∧ k = (C.g.node a).target_kind) ∧
    st.graph.depsOf b = [a] ∧ a < C.g.nodes.length ∧ C.active.getD a false = true ∧
    ∃ dv, pdest st.passes (passIdxOf C.g a) (C.g.node a).target_kind = some dv ∧
      pdest st.passes q (C.g.node a).target_kind ≠ some dv := by
  obtain ⟨h1, h2, h3, h4, h5, h6, hrng, tp, dv, hb1, hb2, hb3, hb4, hb5, hb6⟩ :=
    hinv.redir a b hr
  have hqtp : q = tp := by
    rcases h with ⟨t, hm, hn⟩ | ⟨t, hm, hn⟩ | ⟨ft, hm, t, hmt, hn⟩
    · exact (hb4 q TargetKind.Color ⟨t, by rw [← ptasks_fold]; exact hm, hn⟩).1
    · exact (hb4 q TargetKind.Alpha ⟨t, by rw [← ptasks_fold]; exact hm, hn⟩).1
    · rw [hinv.fixedEq q] at hm
      have hm' : ft ∈ (((create_passes C.g C.active).1.getD q Pass.empty)).fixed_targets := by
        rw [← congrArg Prod.fst C.hcp]
        exact hm
      obtain ⟨bb1, _, _, _⟩ := cp_fixed_mem C.g C.active hm' hmt
      rw [hn] at bb1
      omega
  subst hqtp
  refine ⟨by omega, hb2, hb4, h6, h1, h2, dv, hb5, ?_⟩
  rcases hb6 with hn | ⟨w, hw, hwd⟩
  · rw [hn]
    exact fun hc => Option.noConfusion hc
  · rw [hw]
    intro hc
    exact hwd (Option.some_injective _ hc)

theorem PPInv_orig_dep (C : PPCtx) {st : PPState} {x loc d : Nat}
    (hxl : x < C.g.nodes.length) (hxa : C.active.getD x false = true)
    (hloc : loc ∈ C.g.depLocs x) (hval : st.graph.dependencies.getD loc 0 = d)
    (hv : st.graph.dependencies.getD loc 0 = C.g.dependencies.getD loc 0) :
    d ∈ C.g.depsOf x ∧ d < C.g.nodes.length ∧ C.active.getD d false = true ∧
    passIdxOf C.g d < passIdxOf C.g x := by
  have hbounds := C.hWF.1 x hxl
  have hdor : C.g.dependencies.getD loc 0 = d := hv.symm.trans hval
  have hdm : d ∈ C.g.depsOf x := by
    rw [← hdor]
    exact Graph.depsOf_getD_mem C.g hbounds.2.1 hloc
  have hda := C.activeClosed hxa hdm
  exact ⟨hdm, C.active_lt hda, hda, (C.edge_lt hxa hdm).1⟩

/-- Claim C1 amended: with culling enabled, in the plan returned by the
    target-assignment stage of either strategy, including the copy tasks
    inserted by the ping-pong conflict handler and the redirected
    dependency edges, every dependency edge points backwards: if x is a
    task of pass p and d a task of pass q with d a dependency of x in the
    final graph, then q < p. -/
theorem C1_edge_pass_order (opt : TargetOptions) (g : Graph) (alloc : SpecTextureAllocator)
    (hWF : g.WF) (gF : Graph) (psF : List Pass) (aF : SpecTextureAllocator)
    (h : targetStage ⟨opt, true⟩ g alloc = some (gF, psF, aF))
    (p x : Nat) (hx : TaskIn psF p x) (d : Nat) (hd : d ∈ gF.depsOf x)
    (q : Nat) (hq : TaskIn psF q d) : q < p := by
  cases opt with
  | Direct =>
    obtain ⟨hg, stF, hps, hal, hD⟩ := direct_stage_char g hWF alloc h
    have hg' : gF = g := hg
    have hps' : psF = stF.passes := hps
    rw [hps'] at hx hq
    have hx0 : TaskIn (mkPPCtx g hWF alloc).passes0 p x :=
      TaskIn_transport (fun k => hD.tasksEq p k) (hD.fixedEq p) hx
    have hq0 : TaskIn (mkPPCtx g hWF alloc).passes0 q d :=
      TaskIn_transport (fun k => hD.tasksEq q k) (hD.fixedEq q) hq
    obtain ⟨hxl, hxa, hxp⟩ := TaskIn_passes0_sound _ hx0
    obtain ⟨hdl, hda, hdp⟩ := TaskIn_passes0_sound _ hq0
    have hd' : d ∈ (mkPPCtx g hWF alloc).g.depsOf x := by
      rw [hg'] at hd
      exact hd
    have hedge := ((mkPPCtx g hWF alloc).edge_lt hxa hd').1
    omega
  | PingPong =>
    obtain ⟨st, heq, hinv⟩ := pingpong_stage_char g hWF alloc
    rw [heq] at h
    have h' := Option.some_injective _ h
    have hg' : gF = st.graph := (congrArg Prod.fst h').symm
    have hps' : psF = st.passes := (congrArg (fun r => r.2.1) h').symm
    rw [hps'] at hx hq
    rw [hg'] at hd
    rcases PPInv_TaskIn_sound _ hinv hx with ⟨hxl, hxa, hxp⟩ | ⟨hxb, a, hra⟩
    · obtain ⟨loc, hloc, hval⟩ := PPInv_mem_deps _ hinv hxl hd
      have hdeps := hinv.deps x hxl loc hloc
      by_cases hdyn : ((mkPPCtx g hWF alloc).g.node x).alloc_kind = AllocKind.Dynamic
      · have hfv : FullVal (mkPPCtx g hWF alloc) st x loc :=
          hdeps.1 ⟨hxa, hdyn, (mkPPCtx g hWF alloc).passIdx_lt x⟩
        rcases hfv with ⟨hv, _⟩ | ⟨hred, hkind, tp, htp, hblit, _⟩
        · obtain ⟨hdm, hdlt, hda, hedge⟩ :=
            PPInv_orig_dep (mkPPCtx g hWF alloc) hxl hxa hloc hval hv
          rcases PPInv_TaskIn_sound _ hinv hq with ⟨_, _, hqp⟩ | ⟨hqb, _⟩
          · omega
          · omega
        · rw [hval] at hred hblit
          obtain ⟨_, _, huniq, _, _, _, _⟩ := PPInv_blit_TaskIn _ hinv hred hq
          have htpq := (huniq tp _ hblit).1
          omega
      · have hv := hdeps.2 (fun hcon => hdyn hcon.2.1)
        obtain ⟨hdm, hdlt, hda, hedge⟩ :=
          PPInv_orig_dep (mkPPCtx g hWF alloc) hxl hxa hloc hval hv
        rcases PPInv_TaskIn_sound _ hinv hq with ⟨_, _, hqp⟩ | ⟨hqb, _⟩
        · omega
        · omega
    · obtain ⟨_, hpa, _, hdeps1, hal', haa, _⟩ := PPInv_blit_TaskIn _ hinv hra hx
      rw [hdeps1] at hd
      have hda : d = a := by simpa using hd
      subst hda
      rcases PPInv_TaskIn_sound _ hinv hq with ⟨_, _, hqp⟩ | ⟨hqb, _⟩
      · omega
      · omega

def stageAlloc (r : Option (Graph × List Pass × SpecTextureAllocator)) :
    SpecTextureAllocator :=
  match r with
  | some s => s.2.2
  | none => SpecTextureAllocator.new

/-- On the three-node chain, task 2 sits in pass 2 and its dependency 1
    in pass 1, and the pass order is strict. -/
theorem C1_edge_pass_order_w :
    Graph.WF chainGraph ∧
    TaskIn (stagePasses (targetStage ⟨TargetOptions.Direct, true⟩ chainGraph
      SpecTextureAllocator.new)) 2 2 ∧
    (1 : Nat) ∈ (stageGraph (targetStage ⟨TargetOptions.Direct, true⟩ chainGraph
      SpecTextureAllocator.new)).depsOf 2 ∧
    TaskIn (stagePasses (targetStage ⟨TargetOptions.Direct, true⟩ chainGraph
      SpecTextureAllocator.new)) 1 1 ∧
    (1 : Nat) < 2 :=
  ⟨by decide, by decide, by decide, by decide,
   C1_edge_pass_order TargetOptions.Direct chainGraph SpecTextureAllocator.new (by decide)
     (stageGraph (targetStage ⟨TargetOptions.Direct, true⟩ chainGraph
       SpecTextureAllocator.new))
     (stagePasses (targetStage ⟨TargetOptions.Direct, true⟩ chainGraph
       SpecTextureAllocator.new))
     (stageAlloc (targetStage ⟨TargetOptions.Direct, true⟩ chainGraph
       SpecTextureAllocator.new))
     (by decide) 2 2 (by decide) 1 (by decide) 1 (by decide)⟩

/-- Claim C2 amended: with culling enabled and when target assignment
    completes, for every dependency edge (d, x) whose consumer x is a
    task of the dynamic target (p, k) and whose producer d has the same
    target kind, the destination of the producer's pass q differs from
    the destination of (p, k).  (Fixed-allocation consumers are never
    scanned and are not covered.) -/
theorem C2_same_kind_dest_distinct (opt : TargetOptions) (g : Graph)
    (alloc : SpecTextureAllocator) (hWF : g.WF) (gF : Graph) (psF : List Pass)
    (aF : SpecTextureAllocator)
    (h : targetStage ⟨opt, true⟩ g alloc = some (gF, psF, aF))
    (p : Nat) (k : TargetKind) (x : Nat)
    (hx : ∃ t ∈ ((psF.getD p Pass.empty).dyn k).tasks, t.node = x)
    (d : Nat) (hd : d ∈ gF.depsOf x)
    (hk : (gF.node d).target_kind = k)
    (q : Nat) (hq : TaskIn psF q d) :
    pdest psF q k ≠ pdest psF p k := by
  cases opt with
  | Direct =>
    obtain ⟨hg, stF, hps, hal, hD⟩ := direct_stage_char g hWF alloc h
    have hg' : gF = g := hg
    have hps' : psF = stF.passes := hps
    rw [hps'] at hx hq ⊢
    rw [hg'] at hd hk
    obtain ⟨t, htm, htn⟩ := hx
    rw [ptasks_fold, hD.tasksEq p k] at htm
    have h0 := (mkPPCtx g hWF alloc).tasks0_mem (by rw [ptasks_fold]; exact htm)
    have hq0 : TaskIn (mkPPCtx g hWF alloc).passes0 q d :=
      TaskIn_transport (fun k' => hD.tasksEq q k') (hD.fixedEq q) hq
    obtain ⟨hdl, hda, hdp⟩ := TaskIn_passes0_sound _ hq0
    have hxp : passIdxOf (mkPPCtx g hWF alloc).g t.node = p := h0.2.2.2.2.1
    have hplt : p < (mkPPCtx g hWF alloc).passes0.length := by
      rw [← hxp]
      exact (mkPPCtx g hWF alloc).passIdx_lt t.node
    have hd' : d ∈ (mkPPCtx g hWF alloc).g.depsOf t.node := by
      rw [htn]
      exact hd
    have hedge := hD.edges p k hplt t htm d hd'
    rw [← hdp]
    have hkd : ((mkPPCtx g hWF alloc).g.node d).target_kind = k := hk
    nth_rewrite 1 [← hkd]
    exact hedge
  | PingPong =>
    obtain ⟨st, heq, hinv⟩ := pingpong_stage_char g hWF alloc
    rw [heq] at h
    have h' := Option.some_injective _ h
    have hg' : gF = st.graph := (congrArg Prod.fst h').symm
    have hps' : psF = st.passes := (congrArg (fun r => r.2.1) h').symm
    rw [hps'] at hx hq ⊢
    rw [hg'] at hd hk
    obtain ⟨t, htm, htn⟩ := hx
    rw [ptasks_fold] at htm
    rcases hinv.occ p k t htm with ho | ⟨hob, a0, hra0⟩
    · -- the consumer is an original task
      have h0 := (mkPPCtx g hWF alloc).tasks0_mem (by rw [ptasks_fold]; exact ho)
      rw [htn] at h0
      obtain ⟨hxl, hxa, hdyn, hkx, hxp, _⟩ := h0
      have hdx : d ∈ st.graph.depsOf x := hd
      obtain ⟨loc, hloc, hval⟩ := PPInv_mem_deps _ hinv hxl hdx
      have hfv : FullVal (mkPPCtx g hWF alloc) st x loc :=
        (hinv.deps x hxl loc hloc).1 ⟨hxa, hdyn, (mkPPCtx g hWF alloc).passIdx_lt x⟩
      rcases hfv with ⟨hv, himp⟩ | ⟨hred, hkind, tp, htp, hblit, hdesteq⟩
      · obtain ⟨hdm, hdlt, hda, hedge⟩ :=
          PPInv_orig_dep (mkPPCtx g hWF alloc) hxl hxa hloc hval hv
        have hdor : (mkPPCtx g hWF alloc).g.dependencies.getD loc 0 = d := hv.symm.trans hval
        rw [hdor] at himp
        have hkd : ((mkPPCtx g hWF alloc).g.node d).target_kind =
            ((mkPPCtx g hWF alloc).g.node x).target_kind := by
          have hnd := PPInv_node_eq (mkPPCtx g hWF alloc) hinv hdlt
          rw [← hnd, hk, hkx]
        have hne := himp hkd
        rcases PPInv_TaskIn_sound _ hinv hq with ⟨_, _, hqp⟩ | ⟨hqb, _⟩
        · rw [← hqp, ← hxp, ← hkx]
          exact fun hc => hne hc.symm
        · omega
      · rw [hval] at hred hblit
        obtain ⟨hqP, hpaq, huniq, hdeps1, horigl, horiga, dv, hdva, hdvq⟩ :=
          PPInv_blit_TaskIn _ hinv hred hq
        rw [hkind, hkx] at hdva hdvq
        rw [hkx] at hdesteq
        rw [hxp] at hdesteq
        intro hcon
        rw [hdesteq, hdva] at hcon
        exact hdvq hcon
    · -- the consumer is a copy task
      rw [htn] at hra0
      have hTx : TaskIn st.passes p x := by
        cases k with
        | Color => exact Or.inl ⟨t, by rw [← ptasks_fold] at htm; exact htm, htn⟩
        | Alpha => exact Or.inr (Or.inl ⟨t, by rw [← ptasks_fold] at htm; exact htm, htn⟩)
      obtain ⟨hpP, hpa, huniq, hdeps1, hal', haa, dv, hdva, hdvp⟩ :=
        PPInv_blit_TaskIn _ hinv hra0 hTx
      have hka : k = ((mkPPCtx g hWF alloc).g.node a0).target_kind :=
        (huniq p k ⟨t, htm, htn⟩).2
      rw [hdeps1] at hd
      have hda0 : d = a0 := by simpa using hd
      subst hda0
      rcases PPInv_TaskIn_sound _ hinv hq with ⟨_, _, hqp⟩ | ⟨hqb, _⟩
      · rw [← hqp, hka]
        intro hcon
        rw [hdva] at hcon
        exact hdvp hcon.symm
      · omega

/-- On the three-node chain under the Direct strategy, pass 1 (producer
    of dependency 1) and pass 2 (consumer task 2) get distinct color
    destinations. -/
theorem C2_same_kind_dest_distinct_w :
    Graph.WF chainGraph ∧
    pdest (stagePasses (targetStage ⟨TargetOptions.Direct, true⟩ chainGraph
      SpecTextureAllocator.new)) 1 TargetKind.Color ≠
    pdest (stagePasses (targetStage ⟨TargetOptions.Direct, true⟩ chainGraph
      SpecTextureAllocator.new)) 2 TargetKind.Color :=
  ⟨by decide,
   C2_same_kind_dest_distinct TargetOptions.Direct chainGraph SpecTextureAllocator.new
     (by decide)
     (stageGraph (targetStage ⟨TargetOptions.Direct, true⟩ chainGraph
       SpecTextureAllocator.new))
     (stagePasses (targetStage ⟨TargetOptions.Direct, true⟩ chainGraph
       SpecTextureAllocator.new))
     (stageAlloc (targetStage ⟨TargetOptions.Direct, true⟩ chainGraph
       SpecTextureAllocator.new))
     (by decide) 2 TargetKind.Color 2 (by decide) 1 (by decide) (by decide) 1 (by decide)⟩

/- ============================================================
   Phase 1 of allocate_target_rects: characterizing the
   last_node_refs vector and the per-pass index ranges.
   ============================================================ -/

def visStep (a : List Nat × List Bool) (dep : Nat) : List Nat × List Bool :=
  if a.2.getD dep false then a else (a.1 ++ [dep], a.2.set dep true)

theorem p1Task_eq_visFold (g : Graph) (acc : List Nat × List Bool) (task : GTask) :
    p1Task g acc task = (g.depsOf task.node).foldl visStep acc := rfl

theorem visFold_char (L : List Nat) : ∀ (acc : List Nat × List Bool),
    ((L.foldl visStep acc).2.length = acc.2.length) ∧
    (∃ D, (L.foldl visStep acc).1 = acc.1 ++ D) ∧
    (∀ z, acc.2.getD z false = true →
      (L.foldl visStep acc).2.getD z false = true ∧
      (L.foldl visStep acc).1.count z = acc.1.count z) ∧
    (∀ z, z < acc.2.length → acc.2.getD z false = false → z ∈ L →
      (L.foldl visStep acc).2.getD z false = true ∧
      (L.foldl visStep acc).1.count z = acc.1.count z + 1) ∧
    (∀ z, acc.2.getD z false = false → z ∉ L →
      (L.foldl visStep acc).2.getD z false = false ∧
      (L.foldl visStep acc).1.count z = acc.1.count z) := by
  induction L with
  | nil =>
    intro acc
    exact ⟨rfl, ⟨[], by simp⟩, fun z hz => ⟨hz, rfl⟩,
      fun z _ _ hz => absurd hz (List.not_mem_nil z),
      fun z hz _ => ⟨hz, rfl⟩⟩
  | cons dep L' ih =>
    intro acc
    rw [List.foldl_cons]
    by_cases hv : acc.2.getD dep false = true
    · have hstep : visStep acc dep = acc := by
        unfold visStep
        rw [if_pos hv]
      rw [hstep]
      obtain ⟨i1, i2, i3, i4, i5⟩ := ih acc
      refine ⟨i1, i2, i3, ?_, ?_⟩
      · intro z hzl hz hzm
        rcases List.mem_cons.mp hzm with rfl | hzm'
        · rw [hv] at hz
          exact absurd hz (by simp)
        · exact i4 z hzl hz hzm'
      · intro z hz hzm
        exact i5 z hz (fun hc => hzm (List.mem_cons_of_mem dep hc))
    · have hv' : acc.2.getD dep false = false := by
        cases hb : acc.2.getD dep false
        · rfl
        · exact absurd hb hv
      have hstep : visStep acc dep = (acc.1 ++ [dep], acc.2.set dep true) := by
        unfold visStep
        rw [hv']
        rfl
      rw [hstep]
      obtain ⟨i1, i2, i3, i4, i5⟩ := ih (acc.1 ++ [dep], acc.2.set dep true)
      have hlen : (acc.2.set dep true).length = acc.2.length := List.length_set acc.2 dep true
      refine ⟨by rw [i1]; exact hlen, ?_, ?_, ?_, ?_⟩
      · obtain ⟨D, hD⟩ := i2
        exact ⟨[dep] ++ D, by rw [hD, List.append_assoc]⟩
      · intro z hz
        have hzdep : z ≠ dep := by
          intro hc
          rw [hc, hv'] at hz
          exact Bool.noConfusion hz
        have hz1 : (acc.2.set dep true).getD z false = true := by
          rw [listGetD_set_ne _ _ _ _ _ (fun hc => hzdep hc.symm)]
          exact hz
        have hcount : (acc.1 ++ [dep]).count z = acc.1.count z := by
          rw [List.count_append]
          simp [List.count_singleton', hzdep]
        obtain ⟨j1, j2⟩ := i3 z hz1
        exact ⟨j1, by rw [j2]; exact hcount⟩
      · intro z hzl hz hzm
        by_cases hzdep : z = dep
        · subst hzdep
          have hz1 : (acc.2.set z true).getD z false = true :=
            listGetD_set_self _ _ _ _ hzl
          have hcount : (acc.1 ++ [z]).count z = acc.1.count z + 1 := by
            rw [List.count_append]
            simp
          obtain ⟨j1, j2⟩ := i3 z hz1
          exact ⟨j1, by rw [j2]; exact hcount⟩
        · have hzm' : z ∈ L' := by
            rcases List.mem_cons.mp hzm with hc | hc
            · exact absurd hc hzdep
            · exact hc
          have hz1 : (acc.2.set dep true).getD z false = false := by
            rw [listGetD_set_ne _ _ _ _ _ (fun hc => hzdep hc.symm)]
            exact hz
          have hcount : (acc.1 ++ [dep]).count z = acc.1.count z := by
            rw [List.count_append]
            simp [List.count_singleton', hzdep]
          obtain ⟨j1, j2⟩ := i4 z (by rw [hlen]; exact hzl) hz1 hzm'
          exact ⟨j1, by rw [j2, hcount]⟩
      · intro z hz hzm
        have hzdep : z ≠ dep := fun hc => hzm (hc ▸ List.mem_cons_self dep L')
        have hz1 : (acc.2.set dep true).getD z false = false := by
          rw [listGetD_set_ne _ _ _ _ _ (fun hc => hzdep hc.symm)]
          exact hz
        have hcount : (acc.1 ++ [dep]).count z = acc.1.count z := by
          rw [List.count_append]
          simp [List.count_singleton', hzdep]
        obtain ⟨j1, j2⟩ := i5 z hz1 (fun hc => hzm (List.mem_cons_of_mem dep hc))
        exact ⟨j1, by rw [j2, hcount]⟩

theorem taskFold_char (g : Graph) : ∀ (TL : List GTask) (acc : List Nat × List Bool),
    ((TL.foldl (p1Task g) acc).2.length = acc.2.length) ∧
    (∃ D, (TL.foldl (p1Task g) acc).1 = acc.1 ++ D) ∧
    (∀ z, acc.2.getD z false = true →
      (TL.foldl (p1Task g) acc).2.getD z false = true ∧
      (TL.foldl (p1Task g) acc).1.count z = acc.1.count z) ∧
    (∀ z, z < acc.2.length → acc.2.getD z false = false →
      (∃ t ∈ TL, z ∈ g.depsOf t.node) →
      (TL.foldl (p1Task g) acc).2.getD z false = true ∧
      (TL.foldl (p1Task g) acc).1.count z = acc.1.count z + 1) ∧
    (∀ z, acc.2.getD z false = false → (∀ t ∈ TL, z ∉ g.depsOf t.node) →
      (TL.foldl (p1Task g) acc).2.getD z false = false ∧
      (TL.foldl (p1Task g) acc).1.count z = acc.1.count z) := by
  intro TL
  induction TL with
  | nil =>
    intro acc
    exact ⟨rfl, ⟨[], by simp⟩, fun z hz => ⟨hz, rfl⟩,
      fun z _ _ hz => absurd hz (by simp),
      fun z hz _ => ⟨hz, rfl⟩⟩
  | cons t0 TL' ih =>
    intro acc
    rw [List.foldl_cons, p1Task_eq_visFold]
    obtain ⟨v1, v2, v3, v4, v5⟩ := visFold_char (g.depsOf t0.node) acc
    obtain ⟨i1, i2, i3, i4, i5⟩ := ih ((g.depsOf t0.node).foldl visStep acc)
    refine ⟨by rw [i1, v1], ?_, ?_, ?_, ?_⟩
    · obtain ⟨D1, hD1⟩ := v2
      obtain ⟨D2, hD2⟩ := i2
      exact ⟨D1 ++ D2, by rw [hD2, hD1, List.append_assoc]⟩
    · intro z hz
      obtain ⟨j1, j2⟩ := v3 z hz
      obtain ⟨j3, j4⟩ := i3 z j1
      exact ⟨j3, by rw [j4, j2]⟩
    · intro z hzl hz hread
      by_cases hz0 : z ∈ g.depsOf t0.node
      · obtain ⟨j1, j2⟩ := v4 z hzl hz hz0
        obtain ⟨j3, j4⟩ := i3 z j1
        exact ⟨j3, by rw [j4, j2]⟩
      · obtain ⟨j1, j2⟩ := v5 z hz hz0
        have hread' : ∃ t ∈ TL', z ∈ g.depsOf t.node := by
          obtain ⟨t, ht, hzt⟩ := hread
          rcases List.mem_cons.mp ht with rfl | ht'
          · exact absurd hzt hz0
          · exact ⟨t, ht', hzt⟩
        obtain ⟨j3, j4⟩ := i4 z (by rw [v1]; exact hzl) j1 hread'
        exact ⟨j3, by rw [j4, j2]⟩
    · intro z hz hread
      obtain ⟨j1, j2⟩ := v5 z hz (hread t0 (List.mem_cons_self t0 TL'))
      obtain ⟨j3, j4⟩ := i5 z j1 (fun t ht => hread t (List.mem_cons_of_mem t0 ht))
      exact ⟨j3, by rw [j4, j2]⟩

/-- Pass p reads node z through one of its dynamic-target tasks. -/
def PReads (g : Graph) (p : Pass) (z : Nat) : Prop :=
  ∃ t ∈ (p.dyn TargetKind.Color).tasks ++ (p.dyn TargetKind.Alpha).tasks, z ∈ g.depsOf t.node

instance (g : Graph) (p : Pass) (z : Nat) : Decidable (PReads g p z) := by
  unfold PReads
  infer_instance

theorem p1Pass_eq_taskFold (g : Graph) (pass : Pass) (acc : List Nat × List Bool) :
    p1Pass g pass acc =
      ((pass.dyn TargetKind.Color).tasks ++ (pass.dyn TargetKind.Alpha).tasks).foldl
        (p1Task g) acc := rfl

theorem listGetD_cons_succ {α : Type _} (a : α) (l : List α) (n : Nat) (d : α) :
    (a :: l).getD (n + 1) d = l.getD n d := by
  simp [List.getD]

theorem phase1Aux_char (g : Graph) : ∀ (L : List Pass) (acc : List Nat × List Bool),
    ((phase1Aux g L acc).2.length = L.length) ∧
    ((phase1Aux g L acc).1.2.length = acc.2.length) ∧
    (∃ D, (phase1Aux g L acc).1.1 = acc.1 ++ D) ∧
    (∀ z, acc.2.getD z false = true →
      (phase1Aux g L acc).1.2.getD z false = true ∧
      (phase1Aux g L acc).1.1.count z = acc.1.count z) ∧
    (∀ z, acc.2.getD z false = false → (∀ p ∈ L, ¬PReads g p z) →
      (phase1Aux g L acc).1.2.getD z false = false ∧
      (phase1Aux g L acc).1.1.count z = acc.1.count z) ∧
    (∀ z i, z < acc.2.length → acc.2.getD z false = false → i < L.length →
      PReads g (L.getD i Pass.empty) z →
      (∀ j, j < i → ¬PReads g (L.getD j Pass.empty) z) →
      (phase1Aux g L acc).1.1.count z = acc.1.count z + 1 ∧
      ∃ s e, (phase1Aux g L acc).2.getD (L.length - 1 - i) (0, 0) = (s, e) ∧
        (((phase1Aux g L acc).1.1.take e).drop s).count z = 1) := by
  intro L
  induction L with
  | nil =>
    intro acc
    exact ⟨rfl, rfl, ⟨[], by rw [List.append_nil]; rfl⟩, fun z hz => ⟨hz, rfl⟩,
      fun z hz _ => ⟨hz, rfl⟩,
      fun z i _ _ hi _ _ => absurd hi (Nat.not_lt_zero i)⟩
  | cons p rest ih =>
    intro acc
    have heq : phase1Aux g (p :: rest) acc =
        ((phase1Aux g rest (p1Pass g p acc)).1,
         (phase1Aux g rest (p1Pass g p acc)).2 ++
           [(acc.1.length, (p1Pass g p acc).1.length)]) := rfl
    rw [heq]
    obtain ⟨t1, t2, t3, t4, t5⟩ := taskFold_char g
      ((p.dyn TargetKind.Color).tasks ++ (p.dyn TargetKind.Alpha).tasks) acc
    rw [← p1Pass_eq_taskFold] at t1 t2 t3 t4 t5
    obtain ⟨r1, r2, r3, r4, r5, r6⟩ := ih (p1Pass g p acc)
    refine ⟨?_, ?_, ?_, ?_, ?_, ?_⟩
    · simp only [List.length_append, List.length_cons, List.length_nil, r1]
    · rw [r2, t1]
    · obtain ⟨D1, hD1⟩ := t2
      obtain ⟨D2, hD2⟩ := r3
      exact ⟨D1 ++ D2, by rw [hD2, hD1, List.append_assoc]⟩
    · intro z hz
      obtain ⟨j1, j2⟩ := t3 z hz
      obtain ⟨j3, j4⟩ := r4 z j1
      exact ⟨j3, by rw [j4, j2]⟩
    · intro z hz hnr
      have hnp : ∀ t ∈ (p.dyn TargetKind.Color).tasks ++ (p.dyn TargetKind.Alpha).tasks,
          z ∉ g.depsOf t.node := by
        intro t ht hzt
        exact hnr p (List.mem_cons_self p rest) ⟨t, ht, hzt⟩
      obtain ⟨j1, j2⟩ := t5 z hz hnp
      obtain ⟨j3, j4⟩ := r5 z j1 (fun p' hp' => hnr p' (List.mem_cons_of_mem p hp'))
      exact ⟨j3, by rw [j4, j2]⟩
    · intro z i hzl hz hi hread hfirst
      cases i with
      | zero =>
        have hrp : PReads g p z := by
          have : (p :: rest).getD 0 Pass.empty = p := rfl
          rw [this] at hread
          exact hread
        obtain ⟨j1, j2⟩ := t4 z hzl hz hrp
        obtain ⟨j3, j4⟩ := r4 z j1
        obtain ⟨D1, hD1⟩ := t2
        obtain ⟨D2, hD2⟩ := r3
        refine ⟨by rw [j4, j2], acc.1.length, (p1Pass g p acc).1.length, ?_, ?_⟩
        · have hidx : (p :: rest).length - 1 - 0 =
              (phase1Aux g rest (p1Pass g p acc)).2.length := by
            rw [r1]
            simp
          rw [hidx]
          exact listGetD_concat_self _ _ _
        · rw [hD2, List.take_left, hD1, List.drop_left]
          have hc1 : (p1Pass g p acc).1.count z = acc.1.count z + 1 := j2
          rw [hD1, List.count_append] at hc1
          omega
      | succ i' =>
        have hnp : ∀ t ∈ (p.dyn TargetKind.Color).tasks ++ (p.dyn TargetKind.Alpha).tasks,
            z ∉ g.depsOf t.node := by
          intro t ht hzt
          have h0 := hfirst 0 (Nat.succ_pos i')
          have : (p :: rest).getD 0 Pass.empty = p := rfl
          rw [this] at h0
          exact h0 ⟨t, ht, hzt⟩
        obtain ⟨j1, j2⟩ := t5 z hz hnp
        have hread' : PReads g (rest.getD i' Pass.empty) z := by
          rw [← listGetD_cons_succ p rest i' Pass.empty]
          exact hread
        have hfirst' : ∀ j, j < i' → ¬PReads g (rest.getD j Pass.empty) z := by
          intro j hj
          rw [← listGetD_cons_succ p rest j Pass.empty]
          exact hfirst (j + 1) (by omega)
        have hi' : i' < rest.length := by
          simp only [List.length_cons] at hi
          omega
        obtain ⟨j3, s, e, hse, hcnt⟩ := r6 z i' (by rw [t1]; exact hzl) j1 hi' hread' hfirst'
        refine ⟨by rw [j3, j2], s, e, ?_, hcnt⟩
        have hidx : (p :: rest).length - 1 - (i' + 1) = rest.length - 1 - i' := by
          simp only [List.length_cons]
          omega
        rw [hidx]
        have hlt : rest.length - 1 - i' < (phase1Aux g rest (p1Pass g p acc)).2.length := by
          rw [r1]
          omega
        rw [listGetD_append_left _ _ _ _ hlt]
        exact hse

theorem listGetD_set_oob {α : Type _} (l : List α) (i : Nat) (a d : α) (h : l.length ≤ i) :
    (l.set i a).getD i d = l.getD i d := by
  rw [listGetD_oob _ _ _ (by rw [List.length_set]; exact h), listGetD_oob _ _ _ h]

theorem roots_fold_vis (roots : List Nat) : ∀ (v : List Bool) (z : Nat),
    ((roots.foldl (fun v r => v.set r true) v).getD z false = true ↔
      ((z ∈ roots ∧ z < v.length) ∨ v.getD z false = true)) ∧
    (roots.foldl (fun v r => v.set r true) v).length = v.length := by
  induction roots with
  | nil =>
    intro v z
    exact ⟨by simp, rfl⟩
  | cons r rs ih =>
    intro v z
    rw [List.foldl_cons]
    obtain ⟨ih1, ih2⟩ := ih (v.set r true) z
    refine ⟨?_, by rw [ih2, List.length_set]⟩
    rw [ih1]
    constructor
    · intro h
      rcases h with ⟨hm, hl⟩ | hv
      · rw [List.length_set] at hl
        exact Or.inl ⟨List.mem_cons_of_mem r hm, hl⟩
      · by_cases hzr : z = r
        · subst hzr
          by_cases hlen : z < v.length
          · exact Or.inl ⟨List.mem_cons_self z rs, hlen⟩
          · right
            rw [listGetD_set_oob _ _ _ _ (by omega)] at hv
            exact hv
        · right
          rw [listGetD_set_ne _ _ _ _ _ (fun hc => hzr hc.symm)] at hv
          exact hv
    · intro h
      rcases h with ⟨hm, hl⟩ | hv
      · rcases List.mem_cons.mp hm with rfl | hm'
        · exact Or.inr (listGetD_set_self _ _ _ _ hl)
        · exact Or.inl ⟨hm', by rw [List.length_set]; exact hl⟩
      · by_cases hzr : z = r
        · subst hzr
          by_cases hlen : z < v.length
          · exact Or.inr (listGetD_set_self _ _ _ _ hlen)
          · right
            rw [listGetD_set_oob _ _ _ _ (by omega)]
            exact hv
        · right
          rw [listGetD_set_ne _ _ _ _ _ (fun hc => hzr hc.symm)]
          exact hv

theorem listGetD_reverse {α : Type _} (l : List α) (i : Nat) (d : α) (h : i < l.length) :
    l.reverse.getD i d = l.getD (l.length - 1 - i) d := by
  rw [listGetD_eq_getElem _ _ _ (by rw [List.length_reverse]; exact h),
      listGetD_eq_getElem _ _ _ (by omega)]
  rw [List.getElem_reverse]

theorem phase1_roots_not_in (g : Graph) (passes : List Pass) {z : Nat}
    (hz : z ∈ g.roots) (hzl : z < g.nodes.length) :
    z ∉ (phase1 g passes (List.replicate g.nodes.length false)).1.1 := by
  have heq : phase1 g passes (List.replicate g.nodes.length false) =
      phase1Aux g passes.reverse
        (([] : List Nat),
         g.roots.foldl (fun v r => v.set r true)
           (List.replicate g.nodes.length false)) := rfl
  rw [heq]
  have hvr := roots_fold_vis g.roots (List.replicate g.nodes.length false) z
  have hv1 : (g.roots.foldl (fun v r => v.set r true)
      (List.replicate g.nodes.length false)).getD z false = true := by
    rw [hvr.1]
    exact Or.inl ⟨hz, by rw [List.length_replicate]; exact hzl⟩
  obtain ⟨_, _, _, h4, _, _⟩ := phase1Aux_char g passes.reverse
    (([] : List Nat),
     g.roots.foldl (fun v r => v.set r true) (List.replicate g.nodes.length false))
  have hc := (h4 z hv1).2
  intro hmem
  have := List.count_pos_iff_mem.mpr hmem
  rw [hc] at this
  simp at this

/-- Claim C8 amended: after phase 1 of allocate_target_rects, a non-root
    node z read by at least one dynamic-target task appears exactly once
    in last_node_refs, and it lies within the index range recorded for
    the last pass whose dynamic-target tasks read z.  (Dependencies
    referenced only by fixed-target tasks are never pushed; phase 1 scans
    only the dynamic targets.) -/
theorem C8_phase1_last_refs (g : Graph) (passes : List Pass) (z : Nat)
    (hzl : z < g.nodes.length) (hroot : z ∉ g.roots)
    (m : Nat) (hm : m < passes.length)
    (hread : PReads g (passes.getD m Pass.empty) z)
    (hlast : ∀ m', m' < passes.length → m < m' →
      ¬PReads g (passes.getD m' Pass.empty) z) :
    (phase1 g passes (List.replicate g.nodes.length false)).1.1.count z = 1 ∧
    ∃ s e,
      (phase1 g passes (List.replicate g.nodes.length false)).2.getD m (0, 0) = (s, e) ∧
      (((phase1 g passes (List.replicate g.nodes.length false)).1.1.take e).drop s).count z
        = 1 := by
  have heq : phase1 g passes (List.replicate g.nodes.length false) =
      phase1Aux g passes.reverse
        (([] : List Nat),
         g.roots.foldl (fun v r => v.set r true)
           (List.replicate g.nodes.length false)) := rfl
  rw [heq]
  have hvr := roots_fold_vis g.roots (List.replicate g.nodes.length false) z
  have hv0 : (g.roots.foldl (fun v r => v.set r true)
      (List.replicate g.nodes.length false)).getD z false = false := by
    cases hb : (g.roots.foldl (fun v r => v.set r true)
        (List.replicate g.nodes.length false)).getD z false
    · rfl
    · rw [hvr.1] at hb
      rcases hb with ⟨hmem, _⟩ | hfa
      · exact absurd hmem hroot
      · rw [listGetD_replicate] at hfa
        simp at hfa
  have hvlen : (g.roots.foldl (fun v r => v.set r true)
      (List.replicate g.nodes.length false)).length = g.nodes.length := by
    rw [hvr.2, List.length_replicate]
  obtain ⟨_, _, _, _, _, h6⟩ := phase1Aux_char g passes.reverse
    (([] : List Nat),
     g.roots.foldl (fun v r => v.set r true) (List.replicate g.nodes.length false))
  have hi : passes.length - 1 - m < passes.length := by omega
  have hmm : passes.length - 1 - (passes.length - 1 - m) = m := by omega
  have hread' : PReads g (passes.reverse.getD (passes.length - 1 - m) Pass.empty) z := by
    rw [listGetD_reverse _ _ _ hi, hmm]
    exact hread
  have hfirst : ∀ j, j < passes.length - 1 - m →
      ¬PReads g (passes.reverse.getD j Pass.empty) z := by
    intro j hj
    have hjl : j < passes.length := by omega
    rw [listGetD_reverse _ _ _ hjl]
    exact hlast (passes.length - 1 - j) (by omega) (by omega)
  obtain ⟨hcnt, s, e, hse, hslice⟩ := h6 z (passes.length - 1 - m)
    (by rw [hvlen]; exact hzl) hv0
    (by rw [List.length_reverse]; omega) hread' hfirst
  have hidx : passes.reverse.length - 1 - (passes.length - 1 - m) = m := by
    rw [List.length_reverse]
    omega
  rw [hidx] at hse
  refine ⟨?_, s, e, hse, hslice⟩
  rw [hcnt]
  simp

/-- On the built chain plan, non-root node 0 is last read by pass 1 and
    appears exactly once in last_node_refs. -/
theorem C8_phase1_last_refs_w :
    (0 : Nat) ∉ chainGraph.roots ∧
    (phase1 chainGraph
      (stagePasses (targetStage ⟨TargetOptions.Direct, true⟩ chainGraph
        SpecTextureAllocator.new))
      (List.replicate chainGraph.nodes.length false)).1.1.count 0 = 1 :=
  ⟨by decide,
   (C8_phase1_last_refs chainGraph
     (stagePasses (targetStage ⟨TargetOptions.Direct, true⟩ chainGraph
       SpecTextureAllocator.new))
     0 (by decide) (by decide) 1 (by decide) (by decide) (by decide)).1⟩

/- ============================================================
   Phase 2 of allocate_target_rects: roots are never deallocated.
   ============================================================ -/

theorem directAssignKind_dealloc (depSet : List Nat) (st : DirectState) (p : Nat)
    (k : TargetKind) :
    (directAssignKind depSet st p k).alloc.dealloc_calls = st.alloc.dealloc_calls := by
  unfold directAssignKind
  split
  · rfl
  · split
    · rfl
    · cases k <;> rfl

theorem direct_fold_dealloc (g : Graph) (np : List (Option Nat)) :
    ∀ (L : List Nat) (st : DirectState) {stF : DirectState},
    L.foldlM
      (fun st p =>
        match directCollectDeps g np st.passes p with
        | none => none
        | some depSet =>
          some (directAssignKind depSet (directAssignKind depSet st p TargetKind.Color) p
            TargetKind.Alpha)) st = some stF →
    stF.alloc.dealloc_calls = st.alloc.dealloc_calls := by
  intro L
  induction L with
  | nil =>
    intro st stF h
    have : st = stF := Option.some_injective _ h
    rw [← this]
  | cons p L' ih =>
    intro st stF h
    rw [List.foldlM_cons] at h
    obtain ⟨st1, h1, h2⟩ := Option.bind_eq_some.mp h
    split at h1
    · exact absurd h1 (by simp)
    · rename_i depSet hcol
      have hst1 : directAssignKind depSet (directAssignKind depSet st p TargetKind.Color) p
          TargetKind.Alpha = st1 := Option.some_injective _ h1
      have hd1 : st1.alloc.dealloc_calls = st.alloc.dealloc_calls := by
        rw [← hst1, directAssignKind_dealloc, directAssignKind_dealloc]
      rw [ih st1 h2, hd1]

theorem direct_stage_dealloc (g : Graph) (passes : List Pass) (np : List (Option Nat))
    (alloc : SpecTextureAllocator) {r : List Pass × SpecTextureAllocator}
    (h : assign_targets_direct g passes np alloc = some r) :
    r.2.dealloc_calls = alloc.dealloc_calls := by
  unfold assign_targets_direct at h
  split at h
  · exact absurd h (by simp)
  · rename_i stB hfold
    have h' := Option.some_injective _ h
    have hr2 : r.2 = stB.alloc := by rw [← h']
    rw [hr2]
    exact direct_fold_dealloc g np _ _ hfold

theorem ping_stage_dealloc (g : Graph) (passes : List Pass) (np : List (Option Nat))
    (alloc : SpecTextureAllocator) {s : Graph × List Pass × SpecTextureAllocator}
    (h : assign_targets_ping_pong g passes np alloc = some s) :
    s.2.2.dealloc_calls = alloc.dealloc_calls := by
  simp only [assign_targets_ping_pong] at h
  split at h
  · exact absurd h (by simp)
  · rename_i st hfold
    have h' := Option.some_injective _ h
    have hs : s.2.2 =
        ((((alloc.add_texture).1.add_texture).1.add_texture).1.add_texture).1 := by
      rw [← h']
    rw [hs]
    rfl

theorem stage_dealloc (options : BuilderOptions) (g : Graph) (alloc : SpecTextureAllocator)
    {s : Graph × List Pass × SpecTextureAllocator}
    (h : targetStage options g alloc = some s) :
    s.2.2.dealloc_calls = alloc.dealloc_calls := by
  obtain ⟨t, c⟩ := options
  cases t with
  | Direct =>
    cases c with
    | false =>
      simp only [targetStage] at h
      split at h
      · exact absurd h (by simp)
      · rename_i r hr
        have h' := Option.some_injective _ h
        have hs : s.2.2 = r.2 := by rw [← h']
        rw [hs]
        exact direct_stage_dealloc _ _ _ _ hr
    | true =>
      simp only [targetStage] at h
      split at h
      · exact absurd h (by simp)
      · rename_i r hr
        have h' := Option.some_injective _ h
        have hs : s.2.2 = r.2 := by rw [← h']
        rw [hs]
        exact direct_stage_dealloc _ _ _ _ hr
  | PingPong =>
    cases c with
    | false =>
      simp only [targetStage] at h
      exact ping_stage_dealloc _ _ _ _ h
    | true =>
      simp only [targetStage] at h
      exact ping_stage_dealloc _ _ _ _ h

/-- Invariant of the phase-2 allocation state relative to a protected
    position r: recorded alloc ids are fresh-bounded and injective per
    position, deallocated ids are bounded, and the id stored at r has
    never been deallocated. -/
def RAInv (r : Nat) (rects : List (Option Nat)) (al : SpecTextureAllocator) : Prop :=
  (∀ p id, rects.getD p none = some id → id < al.next_alloc) ∧
  (∀ p q id, rects.getD p none = some id → rects.getD q none = some id → p = q) ∧
  (∀ id ∈ al.dealloc_calls, id < al.next_alloc) ∧
  (∀ id, rects.getD r none = some id → id ∉ al.dealloc_calls)

theorem p2AllocTasks_inv (g : Graph) (texture : Nat) (r : Nat) :
    ∀ (tasks : List GTask) (acc : List GTask × List (Option Nat) × SpecTextureAllocator)
      {res : List GTask × List (Option Nat) × SpecTextureAllocator},
    tasks.foldlM
      (fun acc task =>
        match g.nodes.get? task.node with
        | none => none
        | some node =>
          match node.alloc_kind with
          | AllocKind.Dynamic =>
            let ar := acc.2.2.allocate texture node.size
            some (acc.1 ++ [{ task with rectangle := ar.2.1 }],
                  acc.2.1.set task.node (some ar.2.2), ar.1)
          | AllocKind.Fixed _ origin =>
            some (acc.1 ++ [{ task with rectangle := fixedTaskRect origin node.size }],
                  acc.2.1, acc.2.2)) acc = some res →
    RAInv r acc.2.1 acc.2.2 →
    RAInv r res.2.1 res.2.2 ∧ res.2.2.dealloc_calls = acc.2.2.dealloc_calls := by
  intro tasks
  induction tasks with
  | nil =>
    intro acc res h hI
    have : acc = res := Option.some_injective _ h
    rw [← this]
    exact ⟨hI, rfl⟩
  | cons t0 TL ih =>
    intro acc res h hI
    rw [List.foldlM_cons] at h
    obtain ⟨acc1, h1, h2⟩ := Option.bind_eq_some.mp h
    split at h1
    · exact absurd h1 (by simp)
    · rename_i node hget
      split at h1
      · have hacc1 :
            (acc.1 ++ [{ t0 with rectangle := (acc.2.2.allocate texture node.size).2.1 }],
             acc.2.1.set t0.node (some (acc.2.2.allocate texture node.size).2.2),
             (acc.2.2.allocate texture node.size).1) = acc1 :=
          Option.some_injective _ h1
        obtain ⟨hb, hj, hd, hro⟩ := hI
        have hI1 : RAInv r acc1.2.1 acc1.2.2 := by
          rw [← hacc1]
          refine ⟨?_, ?_, ?_, ?_⟩
          · intro p id hp
            show id < acc.2.2.next_alloc + 1
            by_cases hpt : p = t0.node
            · rw [hpt] at hp
              by_cases hplen : t0.node < acc.2.1.length
              · rw [listGetD_set_self _ _ _ _ hplen] at hp
                have : acc.2.2.next_alloc = id := Option.some_injective _ hp
                omega
              · rw [listGetD_set_oob _ _ _ _ (by omega)] at hp
                have := hb t0.node id hp
                omega
            · rw [listGetD_set_ne _ _ _ _ _ (fun hc => hpt hc.symm)] at hp
              have := hb p id hp
              omega
          · intro p q id hp hq
            by_cases hpt : p = t0.node
            · by_cases hqt : q = t0.node
              · rw [hpt, hqt]
              · rw [hpt] at hp
                rw [listGetD_set_ne _ _ _ _ _ (fun hc => hqt hc.symm)] at hq
                have hqv := hb q id hq
                by_cases hplen : t0.node < acc.2.1.length
                · rw [listGetD_set_self _ _ _ _ hplen] at hp
                  have : acc.2.2.next_alloc = id := Option.some_injective _ hp
                  omega
                · rw [listGetD_set_oob _ _ _ _ (by omega)] at hp
                  rw [hpt]
                  exact hj t0.node q id hp hq
            · rw [listGetD_set_ne _ _ _ _ _ (fun hc => hpt hc.symm)] at hp
              by_cases hqt : q = t0.node
              · rw [hqt] at hq
                have hpv := hb p id hp
                by_cases hqlen : t0.node < acc.2.1.length
                · rw [listGetD_set_self _ _ _ _ hqlen] at hq
                  have : acc.2.2.next_alloc = id := Option.some_injective _ hq
                  omega
                · rw [listGetD_set_oob _ _ _ _ (by omega)] at hq
                  rw [hqt]
                  exact hj p t0.node id hp hq
              · rw [listGetD_set_ne _ _ _ _ _ (fun hc => hqt hc.symm)] at hq
                exact hj p q id hp hq
          · intro id hid
            have := hd id hid
            show id < acc.2.2.next_alloc + 1
            omega
          · intro id hp
            by_cases hrt : r = t0.node
            · rw [hrt] at hp
              by_cases hrlen : t0.node < acc.2.1.length
              · rw [listGetD_set_self _ _ _ _ hrlen] at hp
                have hidv : acc.2.2.next_alloc = id := Option.some_injective _ hp
                intro hc
                have := hd id hc
                omega
              · rw [listGetD_set_oob _ _ _ _ (by omega)] at hp
                exact hro id (by rw [hrt]; exact hp)
            · rw [listGetD_set_ne _ _ _ _ _ (fun hc => hrt hc.symm)] at hp
              exact hro id hp
        have hd1 : acc1.2.2.dealloc_calls = acc.2.2.dealloc_calls := by
          rw [← hacc1]
          rfl
        obtain ⟨hI2, hd2⟩ := ih acc1 h2 hI1
        exact ⟨hI2, by rw [hd2, hd1]⟩
      · rename_i tex0 origin0 hfix0
        have hacc1 : (acc.1 ++ [{ t0 with rectangle := fixedTaskRect origin0 node.size }],
            acc.2.1, acc.2.2) = acc1 := Option.some_injective _ h1
        have hI1 : RAInv r acc1.2.1 acc1.2.2 := by
          rw [← hacc1]
          exact hI
        have hd1 : acc1.2.2.dealloc_calls = acc.2.2.dealloc_calls := by
          rw [← hacc1]
        obtain ⟨hI2, hd2⟩ := ih acc1 h2 hI1
        exact ⟨hI2, by rw [hd2, hd1]⟩

theorem p2Target_inv (g : Graph) (r : Nat) (st : P2State) (p : Nat) (k : TargetKind)
    {st' : P2State} (h : p2Target g st p k = some st')
    (hI : RAInv r st.allocated_rects st.alloc) :
    RAInv r st'.allocated_rects st'.alloc ∧
    st'.alloc.dealloc_calls = st.alloc.dealloc_calls := by
  simp only [p2Target] at h
  split at h
  · have : st = st' := Option.some_injective _ h
    rw [← this]
    exact ⟨hI, rfl⟩
  · split at h
    · exact absurd h (by simp)
    · rename_i texture hdst
      split at h
      · exact absurd h (by simp)
      · rename_i res hres
        have hmain := p2AllocTasks_inv g texture r
          ((st.passes.getD p Pass.empty).dyn k).tasks
          (([] : List GTask), st.allocated_rects, st.alloc) hres hI
        have hst' := Option.some_injective _ h
        rw [← hst']
        exact hmain

theorem p2Dealloc_steps (r : Nat) : ∀ (S : List Nat) (st : P2State),
    (∀ fin ∈ S, fin ≠ r) → RAInv r st.allocated_rects st.alloc →
    RAInv r (S.foldl
      (fun s fin =>
        match s.allocated_rects.getD fin none with
        | none => s
        | some id => { s with alloc := s.alloc.deallocate id }) st).allocated_rects
      (S.foldl
        (fun s fin =>
          match s.allocated_rects.getD fin none with
          | none => s
          | some id => { s with alloc := s.alloc.deallocate id }) st).alloc := by
  intro S
  induction S with
  | nil =>
    intro st _ hI
    exact hI
  | cons fin S' ih =>
    intro st hne hI
    rw [List.foldl_cons]
    obtain ⟨hb, hj, hd, hro⟩ := hI
    have hfr : fin ≠ r := hne fin (List.mem_cons_self fin S')
    have hne' : ∀ f ∈ S', f ≠ r := fun f hf => hne f (List.mem_cons_of_mem fin hf)
    cases hlook : st.allocated_rects.getD fin none with
    | none =>
      simp only [hlook]
      exact ih st hne' ⟨hb, hj, hd, hro⟩
    | some id2 =>
      simp only [hlook]
      refine ih _ hne' ⟨hb, hj, ?_, ?_⟩
      · intro id hid
        rcases List.mem_append.mp hid with h1 | h2
        · exact hd id h1
        · have : id = id2 := by simpa using h2
          rw [this]
          exact hb fin id2 hlook
      · intro id hp hc
        rcases List.mem_append.mp hc with h1 | h2
        · exact hro id hp h1
        · have hii : id = id2 := by simpa using h2
          rw [hii] at hp
          exact hfr (hj fin r id2 hlook hp)

theorem p2Dealloc_inv (r : Nat) (lastRefs : List Nat) (hr : r ∉ lastRefs)
    (range : Nat × Nat) (st : P2State) (hI : RAInv r st.allocated_rects st.alloc) :
    RAInv r (p2Dealloc st lastRefs range).allocated_rects
      (p2Dealloc st lastRefs range).alloc := by
  have hS : ∀ fin ∈ (lastRefs.take range.2).drop range.1, fin ≠ r := by
    intro fin hf hc
    subst hc
    exact hr (List.mem_of_mem_take (List.mem_of_mem_drop hf))
  exact p2Dealloc_steps r _ st hS hI

theorem p2Fold_inv (g : Graph) (r : Nat) (lastRefs : List Nat) (ranges : List (Nat × Nat))
    (hr : r ∉ lastRefs) : ∀ (L : List Nat) (st : P2State) {stF : P2State},
    L.foldlM
      (fun st p =>
        match p2Target g st p TargetKind.Color with
        | none => none
        | some stc =>
          match p2Target g stc p TargetKind.Alpha with
          | none => none
          | some sta => some (p2Dealloc sta lastRefs (ranges.getD p (0, 0)))) st = some stF →
    RAInv r st.allocated_rects st.alloc → RAInv r stF.allocated_rects stF.alloc := by
  intro L
  induction L with
  | nil =>
    intro st stF h hI
    have := Option.some_injective _ h
    rw [← this]
    exact hI
  | cons p L' ih =>
    intro st stF h hI
    rw [List.foldlM_cons] at h
    obtain ⟨st1, h1, h2⟩ := Option.bind_eq_some.mp h
    split at h1
    · exact absurd h1 (by simp)
    · rename_i stc hc
      split at h1
      · exact absurd h1 (by simp)
      · rename_i sta ha
        have hst1 := Option.some_injective _ h1
        have hIc := (p2Target_inv g r st p TargetKind.Color hc hI).1
        have hIa := (p2Target_inv g r stc p TargetKind.Alpha ha hIc).1
        have hId : RAInv r st1.allocated_rects st1.alloc := by
          rw [← hst1]
          exact p2Dealloc_inv r lastRefs hr _ sta hIa
        exact ih st1 h2 hId

theorem allocate_target_rects_root (g : Graph) (passes : List Pass)
    (alloc : SpecTextureAllocator)
    {ar : List Pass × List (Option Nat) × SpecTextureAllocator}
    (h : allocate_target_rects g passes (List.replicate g.nodes.length false) alloc = some ar)
    (hdc : alloc.dealloc_calls = [])
    {r : Nat} (hrr : r ∈ g.roots) (hrl : r < g.nodes.length)
    {idr : Nat} (hid : ar.2.1.getD r none = some idr) :
    idr ∉ ar.2.2.dealloc_calls := by
  have hr := phase1_roots_not_in g passes hrr hrl
  simp only [allocate_target_rects] at h
  split at h
  · exact absurd h (by simp)
  · rename_i stF hfold
    have h' := Option.some_injective _ h
    have hI0 : RAInv r (List.replicate g.nodes.length none) alloc := by
      refine ⟨?_, ?_, ?_, ?_⟩
      · intro p id hp
        rw [listGetD_replicate] at hp
        simp at hp
      · intro p q id hp _
        rw [listGetD_replicate] at hp
        simp at hp
      · intro id hmem
        rw [hdc] at hmem
        exact absurd hmem (List.not_mem_nil id)
      · intro id hp
        rw [listGetD_replicate] at hp
        simp at hp
    have hIF := p2Fold_inv g r (phase1 g passes (List.replicate g.nodes.length false)).1.1
      (phase1 g passes (List.replicate g.nodes.length false)).2 hr
      (List.range passes.length) ⟨passes, List.replicate g.nodes.length none, alloc⟩
      hfold hI0
    have hid' : stF.allocated_rects.getD r none = some idr := by
      have hc : ar.2.1 = stF.allocated_rects := by rw [← h']
      rw [hc] at hid
      exact hid
    have hc2 : ar.2.2 = stF.alloc := by rw [← h']
    rw [hc2]
    exact hIF.2.2.2 idr hid'

/-- Claim C7: during a single run of GraphBuilder::build (starting from
    an allocator with no recorded deallocations), the allocator's
    deallocate is never called with the alloc id recorded for a root node
    of the built graph: the final dealloc_calls list never contains it. -/
theorem C7_roots_not_deallocated (options : BuilderOptions) (g : Graph)
    (alloc0 : SpecTextureAllocator) (hdc : alloc0.dealloc_calls = [])
    (bg : BuiltGraph) (rects : List (Option Nat)) (aF : SpecTextureAllocator)
    (h : build options g alloc0 = some (bg, rects, aF))
    (r : Nat) (hr : r ∈ bg.graph.roots) (hrl : r < bg.graph.nodes.length)
    (idr : Nat) (hid : rects.getD r none = some idr) :
    idr ∉ aF.dealloc_calls := by
  unfold build at h
  split at h
  · exact absurd h (by simp)
  · rename_i s hs
    split at h
    · exact absurd h (by simp)
    · rename_i ar har
      have h' := Option.some_injective _ h
      have hbg : bg = (⟨s.1, ar.1⟩ : BuiltGraph) := (congrArg Prod.fst h').symm
      have hrects : rects = ar.2.1 := (congrArg (fun z => z.2.1) h').symm
      have haF : aF = ar.2.2 := (congrArg (fun z => z.2.2) h').symm
      have hsd : s.2.2.dealloc_calls = alloc0.dealloc_calls := stage_dealloc options g alloc0 hs
      rw [hdc] at hsd
      have hr1 : r ∈ s.1.roots := by
        rw [hbg] at hr
        exact hr
      have hrl1 : r < s.1.nodes.length := by
        rw [hbg] at hrl
        exact hrl
      rw [hrects] at hid
      rw [haF]
      exact allocate_target_rects_root s.1 s.2.1 s.2.2 har hsd hr1 hrl1 hid

/-- On the chain graph's build, the root node 2 keeps alloc id 2 and that
    id is never deallocated. -/
theorem C7_roots_not_deallocated_w :
    (2 : Nat) ∉ (buildAlloc (build ⟨TargetOptions.Direct, true⟩ chainGraph
      SpecTextureAllocator.new)).dealloc_calls :=
  C7_roots_not_deallocated ⟨TargetOptions.Direct, true⟩ chainGraph SpecTextureAllocator.new
    rfl
    ⟨buildGraph (build ⟨TargetOptions.Direct, true⟩ chainGraph SpecTextureAllocator.new),
     buildPasses (build ⟨TargetOptions.Direct, true⟩ chainGraph SpecTextureAllocator.new)⟩
    (buildRects (build ⟨TargetOptions.Direct, true⟩ chainGraph SpecTextureAllocator.new))
    (buildAlloc (build ⟨TargetOptions.Direct, true⟩ chainGraph SpecTextureAllocator.new))
    (by decide) 2 (by decide) (by decide) 2 (by decide)

/- ============================================================
   The single-texture guillotine allocator (src/allocator.rs).
   Vec indexing becomes List.set / List.getD; the two source
   loops (find_suitable_rect and the deallocate merge loop) get
   explicit fuel bounded by the relevant list length, and the
   asserts are modelled by Option (none = panic).
   ============================================================ -/

namespace atlas

inductive Orientation where
  | Vertical
  | Horizontal
deriving DecidableEq, Repr

def Orientation.flipped : Orientation → Orientation
  | Orientation.Vertical => Orientation.Horizontal
  | Orientation.Horizontal => Orientation.Vertical

inductive NodeKind where
  | Container
  | Alloc
  | Free
  | Unused
deriving DecidableEq, Repr

structure AllocNode where
  parent : Nat
  next_sibbling : Nat
  prev_sibbling : Nat
  kind : NodeKind
  orientation : Orientation
  rect : DeviceIntRect
deriving DecidableEq

structure Allocator where
  nodes : List AllocNode
  free_list : List Nat
  unused_nodes : Nat
deriving DecidableEq

def INVALID_ALLOC : Nat := 2 ^ 64 - 1

def dummyNode : AllocNode :=
  ⟨INVALID_ALLOC, INVALID_ALLOC, INVALID_ALLOC, NodeKind.Unused, Orientation.Horizontal,
   DeviceIntRect.zeroRect⟩

def Allocator.node (a : Allocator) (i : Nat) : AllocNode := a.nodes.getD i dummyNode

def Allocator.setNode (a : Allocator) (i : Nat) (n : AllocNode) : Allocator :=
  { a with nodes := a.nodes.set i n }

def fit (slot : DeviceIntRect) (size : DeviceIntSize) : Bool :=
  decide (slot.size.width ≥ size.width) && decide (slot.size.height ≥ size.height)

def Allocator.new (size : DeviceIntSize) : Allocator :=
  ⟨[⟨INVALID_ALLOC, INVALID_ALLOC, INVALID_ALLOC, NodeKind.Free, Orientation.Vertical,
     ⟨⟨0, 0⟩, size⟩⟩],
   [0], INVALID_ALLOC⟩

def swapRemove {α : Type _} (l : List α) (i : Nat) : List α :=
  match l.getLast? with
  | none => l
  | some last => (l.set i last).dropLast

def findSuitableAux (requested_size : DeviceIntSize) :
    Nat → Allocator → Nat → Allocator × Nat
  | 0, a, _ => (a, INVALID_ALLOC)
  | fuel + 1, a, i =>
    if i < a.free_list.length then
      let id := a.free_list.getD i 0
      let should_remove := decide ((a.node id).kind ≠ NodeKind.Free)
      let suitable := !should_remove && fit (a.node id).rect requested_size
      let a2 := if should_remove || suitable then
          { a with free_list := swapRemove a.free_list i } else a
      if suitable then (a2, id)
      else findSuitableAux requested_size fuel a2 (if should_remove then i else i + 1)
    else (a, INVALID_ALLOC)

def Allocator.find_suitable_rect (a : Allocator) (requested_size : DeviceIntSize) :
    Allocator × Nat :=
  findSuitableAux requested_size (a.free_list.length + 1) a 0

def Allocator.new_node (a : Allocator) : Allocator × Nat :=
  let idx := a.unused_nodes
  if idx < a.nodes.length then
    ({ a with unused_nodes := (a.node idx).next_sibbling }, idx)
  else
    ({ a with nodes := a.nodes ++ [dummyNode] }, a.nodes.length)

def Allocator.mark_node_unused (a : Allocator) (id : Nat) : Allocator :=
  let a1 := a.setNode id
    { a.node id with kind := NodeKind.Unused, next_sibbling := a.unused_nodes }
  { a1 with unused_nodes := id }

def Allocator.add_free_rect (a : Allocator) (id : Nat) (_size : DeviceIntSize) : Allocator :=
  { a with free_list := a.free_list ++ [id] }

def Allocator.merge_sibblings (a : Allocator) (node next : Nat) (orientation : Orientation) :
    Option Allocator :=
  let r1 := (a.node node).rect
  let merge_size := (a.node next).rect.size
  let step1 : Option Allocator :=
    match orientation with
    | Orientation.Horizontal =>
      if (a.node node).rect.min_y = (a.node next).rect.min_y ∧
          (a.node node).rect.max_y = (a.node next).rect.max_y then
        some (a.setNode node { a.node node with rect :=
          ⟨r1.origin, ⟨r1.size.width + merge_size.width, r1.size.height⟩⟩ })
      else none
    | Orientation.Vertical =>
      if (a.node node).rect.min_x = (a.node next).rect.min_x ∧
          (a.node node).rect.max_x = (a.node next).rect.max_x then
        some (a.setNode node { a.node node with rect :=
          ⟨r1.origin, ⟨r1.size.width, r1.size.height + merge_size.height⟩⟩ })
      else none
  match step1 with
  | none => none
  | some a1 =>
    let next_next := (a1.node next).next_sibbling
    let a2 := a1.setNode node { a1.node node with next_sibbling := next_next }
    let a3 := if next_next ≠ INVALID_ALLOC then
        a2.setNode next_next { a2.node next_next with prev_sibbling := node }
      else a2
    some (a3.mark_node_unused next)

def Allocator.allocate (a0 : Allocator) (requested_size : DeviceIntSize) :
    Option (Allocator × Option Nat) :=
  let fr := a0.find_suitable_rect requested_size
  let a := fr.1
  let chosen_id := fr.2
  if chosen_id = INVALID_ALLOC then some (a, none)
  else
    let chosen_node := a.node chosen_id
    let current_orientation := chosen_node.orientation
    if chosen_node.kind ≠ NodeKind.Free then none
    else
      let candidate_free_rect_to_right : DeviceIntRect :=
        ⟨⟨chosen_node.rect.origin.x + requested_size.width, chosen_node.rect.origin.y⟩,
         ⟨chosen_node.rect.size.width - requested_size.width, requested_size.height⟩⟩
      let candidate_free_rect_to_bottom : DeviceIntRect :=
        ⟨⟨chosen_node.rect.origin.x, chosen_node.rect.origin.y + requested_size.height⟩,
         ⟨requested_size.width, chosen_node.rect.size.height - requested_size.height⟩⟩
      let allocated_rect : DeviceIntRect := ⟨chosen_node.rect.origin, requested_size⟩
      let srl : DeviceIntRect × DeviceIntRect × Orientation :=
        if requested_size = chosen_node.rect.size then
          (DeviceIntRect.zeroRect, DeviceIntRect.zeroRect, current_orientation)
        else if candidate_free_rect_to_right.size.area >
            candidate_free_rect_to_bottom.size.area then
          (⟨candidate_free_rect_to_right.origin,
            ⟨candidate_free_rect_to_right.size.width, chosen_node.rect.size.height⟩⟩,
           candidate_free_rect_to_bottom, Orientation.Horizontal)
        else
          (⟨candidate_free_rect_to_bottom.origin,
            ⟨chosen_node.rect.size.width, candidate_free_rect_to_bottom.size.height⟩⟩,
           candidate_free_rect_to_right, Orientation.Vertical)
      let split_rect := srl.1
      let leftover_rect := srl.2.1
      let orientation := srl.2.2
      let upd : Allocator × Nat × Nat × Nat :=
        if orientation = current_orientation then
          let s1 : Allocator × Nat :=
            if split_rect.size.area > 0 then
              let nsib := chosen_node.next_sibbling
              let na := a.new_node
              let a1 := na.1
              let split_id := na.2
              let a2 := a1.setNode split_id
                ⟨chosen_node.parent, nsib, chosen_id, NodeKind.Free, current_orientation,
                 split_rect⟩
              let a3 := a2.setNode chosen_id
                { a2.node chosen_id with next_sibbling := split_id }
              let a4 := if nsib ≠ INVALID_ALLOC then
                  a3.setNode nsib { a3.node nsib with prev_sibbling := split_id }
                else a3
              (a4, split_id)
            else (a, INVALID_ALLOC)
          let aS := s1.1
          let split_id := s1.2
          if leftover_rect.size.area > 0 then
            let aC := aS.setNode chosen_id
              { aS.node chosen_id with kind := NodeKind.Container }
            let n1 := aC.new_node
            let a5 := n1.1
            let allocated_id := n1.2
            let n2 := a5.new_node
            let a6 := n2.1
            let leftover_id := n2.2
            let a7 := a6.setNode allocated_id
              ⟨chosen_id, leftover_id, INVALID_ALLOC, NodeKind.Alloc,
               current_orientation.flipped, allocated_rect⟩
            let a8 := a7.setNode leftover_id
              ⟨chosen_id, INVALID_ALLOC, allocated_id, NodeKind.Free,
               current_orientation.flipped, leftover_rect⟩
            (a8, allocated_id, split_id, leftover_id)
          else
            let a5 := aS.setNode chosen_id
              { aS.node chosen_id with kind := NodeKind.Alloc, rect := allocated_rect }
            (a5, chosen_id, split_id, INVALID_ALLOC)
        else
          let aC := a.setNode chosen_id { a.node chosen_id with kind := NodeKind.Container }
          let s1 : Allocator × Nat :=
            if split_rect.size.area > 0 then
              let na := aC.new_node
              let a1 := na.1
              let split_id := na.2
              (a1.setNode split_id
                ⟨chosen_id, INVALID_ALLOC, INVALID_ALLOC, NodeKind.Free,
                 current_orientation.flipped, split_rect⟩, split_id)
            else (aC, INVALID_ALLOC)
          let aS := s1.1
          let split_id := s1.2
          if leftover_rect.size.area > 0 then
            let nc := aS.new_node
            let a1 := nc.1
            let container_id := nc.2
            let a2 := a1.setNode container_id
              ⟨chosen_id, split_id, INVALID_ALLOC, NodeKind.Container,
               current_orientation.flipped, DeviceIntRect.zeroRect⟩
            let a3 := a2.setNode split_id
              { a2.node split_id with prev_sibbling := container_id }
            let n1 := a3.new_node
            let a4 := n1.1
            let allocated_id := n1.2
            let n2 := a4.new_node
            let a5 := n2.1
            let leftover_id := n2.2
            let a6 := a5.setNode allocated_id
              ⟨container_id, leftover_id, INVALID_ALLOC, NodeKind.Alloc, current_orientation,
               allocated_rect⟩
            let a7 := a6.setNode leftover_id
              ⟨container_id, INVALID_ALLOC, allocated_id, NodeKind.Free, current_orientation,
               leftover_rect⟩
            (a7, allocated_id, split_id, leftover_id)
          else
            let n1 := aS.new_node
            let a1 := n1.1
            let allocated_id := n1.2
            let a2 := a1.setNode allocated_id
              ⟨chosen_id, split_id, INVALID_ALLOC, NodeKind.Alloc,
               current_orientation.flipped, allocated_rect⟩
            let a3 := a2.setNode split_id
              { a2.node split_id with prev_sibbling := allocated_id }
            (a3, allocated_id, split_id, INVALID_ALLOC)
      let aU := upd.1
      let allocated_id := upd.2.1
      let split_id := upd.2.2.1
      let leftover_id := upd.2.2.2
      let aF1 := if split_id ≠ INVALID_ALLOC then aU.add_free_rect split_id split_rect.size
        else aU
      let aF2 := if leftover_id ≠ INVALID_ALLOC then
          aF1.add_free_rect leftover_id leftover_rect.size
        else aF1
      some (aF2, some allocated_id)

def deallocLoop : Nat → Allocator → Nat → Option Allocator
  | 0, _, _ => none
  | fuel + 1, a, node_id =>
    let orientation := (a.node node_id).orientation
    let next := (a.node node_id).next_sibbling
    let prev := (a.node node_id).prev_sibbling
    match (if next ≠ INVALID_ALLOC ∧ (a.node next).kind = NodeKind.Free then
        a.merge_sibblings node_id next orientation
      else some a) with
    | none => none
    | some a1 =>
      match (if prev ≠ INVALID_ALLOC ∧ (a1.node prev).kind = NodeKind.Free then
          (a1.merge_sibblings prev node_id orientation).map (fun x => (x, prev))
        else some (a1, node_id)) with
      | none => none
      | some r =>
        let a2 := r.1
        let nid := r.2
        let parent := (a2.node nid).parent
        if (a2.node nid).prev_sibbling = INVALID_ALLOC ∧
            (a2.node nid).next_sibbling = INVALID_ALLOC ∧ parent ≠ INVALID_ALLOC then
          let a3 := a2.mark_node_unused nid
          let a4 := a3.setNode parent
            { a3.node parent with rect := (a3.node nid).rect, kind := NodeKind.Free }
          deallocLoop fuel a4 parent
        else
          some (a2.add_free_rect nid (a2.node nid).rect.size)

def Allocator.deallocate (a : Allocator) (node_id : Nat) : Option Allocator :=
  if node_id < a.nodes.length ∧ (a.node node_id).kind = NodeKind.Alloc then
    deallocLoop (a.nodes.length + 1)
      (a.setNode node_id { a.node node_id with kind := NodeKind.Free }) node_id
  else none

end atlas

/-- Claim C6 refuted: from Allocator::new(2x2), the call allocate(0x0)
    succeeds, splitting the root into a zero-sized Alloc node 0 and a
    full-atlas Free sibling; deallocating that single live allocation
    then panics inside merge_sibblings (the r1.max_x() = r2.max_x()
    assert fails for the 0x0 rect against the 2x2 sibling, modelled by
    the none result), instead of returning the tree to a single Free
    root covering the atlas. -/
theorem C6_zero_size_dealloc_panic :
    ((atlas.Allocator.new ⟨2, 2⟩).allocate ⟨0, 0⟩).map
      (fun r => (r.2, (r.1.node 0).kind, r.1.deallocate 0)) =
    some (some 0, atlas.NodeKind.Alloc, none) := by decide
